import Mathlib

/-!
# Pretty Secure Processor simulator: GDB stub and engine wrapper

A shallow embedding of `src/sim/gdb.cpp`, `src/sim/gdb.h`, `src/sim/psp.cpp` and
`src/sim/psp.h`, followed by theorems about it.

Conventions of the embedding:

* a byte (`char`, `unsigned char`, `uint8_t`) is a `Nat` below 256, a `uint32_t` a `Nat`
  reduced `% 2 ^ 32` wherever the C code can wrap;
* a `char` array is a `List Nat`; a `char *` argument is the list of the bytes from the
  pointer to the end of its array, so the string literal `"OK"` is `[79, 75, 0]`;
* the client socket is the log `sent` of the `send()` calls, oldest first;
* `printf` logging is not part of the model.
-/

namespace PspSim

/-! ## Results of running a piece of the simulator -/

/-- How a call ends: it returns `r` in state `s`, the process leaves through `exit(0)` in
state `s`, the fuel of the model runs out in state `s` while a loop is still going, or the
call runs into undefined behaviour of C, `s` being the state it has reached when it does. -/
inductive Outcome (σ : Type) (ρ : Type) where
  | ret (r : ρ) (s : σ)
  | exited (s : σ)
  | timeout (s : σ)
  | undefined (s : σ)

namespace Outcome

/-- Sequencing: `g` runs only when the first call returned. -/
def andThen {σ ρ τ : Type} (o : Outcome σ ρ) (g : ρ → σ → Outcome σ τ) : Outcome σ τ :=
  match o with
  | ret r s => g r s
  | exited s => exited s
  | timeout s => timeout s
  | undefined s => undefined s

/-- The state in which the call ended, when there is one. -/
def state? {σ ρ : Type} : Outcome σ ρ → Option σ
  | ret _ s => some s
  | exited s => some s
  | timeout s => some s
  | undefined _ => none

/-- The state the call has reached when it ends, whichever way it ends. -/
def last {σ ρ : Type} : Outcome σ ρ → σ
  | ret _ s => s
  | exited s => s
  | timeout s => s
  | undefined s => s

end Outcome

/-! ## C strings and `printf` conversions -/

/-- The characters of the C string that starts at the head of `mem` (up to the first NUL). -/
def cstring (mem : List Nat) : List Nat := mem.takeWhile (fun c => c != 0)

/-- The libc `strlen` on an array: `none` when the array holds no NUL, where the real
function reads past the end of the array. -/
def strlen (mem : List Nat) : Option Nat :=
  if mem.all (fun c => c != 0) then none else some (cstring mem).length

/-- The libc `strncpy(dst, src, n)`: the `n` bytes stored at `dst`, the string of `src`
cut at `n` bytes and padded with NULs up to `n` bytes. -/
def strncpy (src : List Nat) (n : Nat) : List Nat :=
  (cstring src).take n ++ List.replicate (n - ((cstring src).take n).length) 0

/-- Store the bytes `xs` into `buf` from offset `off` on. -/
def writeAt (buf : List Nat) (off : Nat) (xs : List Nat) : List Nat :=
  buf.take off ++ xs ++ buf.drop (off + xs.length)

/-- The libc `snprintf(buf + off, size, ...)` where the conversion produces `out`: at most
`size - 1` characters are stored, followed by a NUL; nothing is stored when `size` is 0. -/
def snprintf (buf : List Nat) (off size : Nat) (out : List Nat) : List Nat :=
  if size = 0 then buf else writeAt buf off (out.take (size - 1) ++ [0])

/-- One lowercase hexadecimal digit, as its ASCII code. -/
def hexDigit (d : Nat) : Nat := if d < 10 then 48 + d else 87 + d

/-- The conversion `%02x` of a value below 256. -/
def fmt_02x (v : Nat) : List Nat := [hexDigit (v / 16), hexDigit (v % 16)]

/-- The conversion `%08x` of a value below `2 ^ 32`. -/
def fmt_08x (v : Nat) : List Nat :=
  [hexDigit (v / 2 ^ 28 % 16), hexDigit (v / 2 ^ 24 % 16), hexDigit (v / 2 ^ 20 % 16),
   hexDigit (v / 2 ^ 16 % 16), hexDigit (v / 2 ^ 12 % 16), hexDigit (v / 2 ^ 8 % 16),
   hexDigit (v / 2 ^ 4 % 16), hexDigit (v % 16)]

/-- The value of a `char` holding byte `b`, promoted to `int`: negative from 0x80 on when
plain `char` is signed. -/
def charToInt (char_signed : Bool) (b : Nat) : Int :=
  if char_signed && 128 ≤ b then (b : Int) - 256 else (b : Int)

/-- The statement `chksum_accumulator += c` on an `unsigned char` accumulator. -/
def chksum_add (char_signed : Bool) (acc : Nat) (c : Nat) : Nat :=
  (((acc : Int) + charToInt char_signed c) % 256).toNat

/-! ## The processor wrapper (`psp.h`, `psp.cpp`) -/

/-- The constant `NUM_REGS`: 32 general purpose registers and the program counter. -/
def NUM_REGS : Nat := 33

/-- The constant `PC_REG`: the index of the program counter. -/
def PC_REG : Nat := 32

/-- The constant `NUM_BREAKPOINTS`. -/
def NUM_BREAKPOINTS : Nat := 64

/-- The constants of `softserial.h` used by `step`. -/
def SOFTSERIAL_FLAGS_CSR : Nat := 0x200
def SOFTSERIAL_IO_CSR_IN : Nat := 0x201
def SOFTSERIAL_FLAGS_CLEAR : Nat := 0
def SOFTSERIAL_FLAGS_WAITING : Nat := 1

/-- The struct `Breakpoint`. -/
structure Breakpoint where
  addr : Nat
  enabled : Bool
deriving DecidableEq, Repr

/-- The member `Breakpoint breakpoints[NUM_BREAKPOINTS]`: an array of exactly 64 slots. -/
structure BreakpointTable where
  slots : List Breakpoint
  size_eq : slots.length = NUM_BREAKPOINTS
deriving DecidableEq

namespace BreakpointTable

/-- The slot `breakpoints[i]`. -/
def get (t : BreakpointTable) (i : Nat) : Breakpoint := t.slots.getD i ⟨0, false⟩

/-- The table after `breakpoints[i] = b`. -/
def set (t : BreakpointTable) (i : Nat) (b : Breakpoint) : BreakpointTable :=
  ⟨t.slots.set i b, by rw [List.length_set]; exact t.size_eq⟩

/-- The table the constructor builds: every slot disabled, with address 0. -/
def empty : BreakpointTable := ⟨List.replicate NUM_BREAKPOINTS ⟨0, false⟩, List.length_replicate _ _⟩

end BreakpointTable

/-- The Verilated top level `Vpsp`, which is generated from the hardware sources and is not
part of the simulator sources: the ports and the internal signals the wrapper touches, the
rest of the design state (`rest`), and the flag behind `Verilated::gotFinish()`. -/
structure Vpsp (χ : Type) where
  clk : Bool
  reset : Bool
  external_interrupt : Bool
  keycode : Nat
  valid : Bool
  shutdown : Bool
  core0_sleeping : Bool
  pc_out : Nat
  regs : Nat → Nat
  csr_misc : Nat → Nat
  ram : Nat → Nat
  rest : χ
  gotFinish : Bool

/-- What the simulator is compiled against: the evaluation function of the Verilated
design, and whether plain `char` is a signed type. -/
structure Env (χ : Type) where
  design : Vpsp χ → Vpsp χ
  char_signed : Bool

/-- The call `sys->eval()`: the design computes its outputs and next state; the input ports
`clk`, `reset`, `external_interrupt` and `keycode` are only read by it. -/
def Vpsp.eval {χ : Type} (env : Env χ) (v : Vpsp χ) : Vpsp χ :=
  { env.design v with
    clk := v.clk, reset := v.reset,
    external_interrupt := v.external_interrupt, keycode := v.keycode }

/-- The class `PrettySecureProcessor` (the mutex `interrupt_lock` is not modelled: the
embedding is sequential). -/
structure PrettySecureProcessor (χ : Type) where
  sys : Vpsp χ
  breakpoints : BreakpointTable
  should_do_interrupt : Bool
  keycode : Nat
  serial_data_available : Bool
  serial_data : Nat

namespace PrettySecureProcessor

variable {χ : Type}

/-- The statements `sys->clk = !sys->clk; sys->eval();` of the loop of `step`. -/
def toggle_clock (env : Env χ) (p : PrettySecureProcessor χ) : PrettySecureProcessor χ :=
  { p with sys := Vpsp.eval env { p.sys with clk := !p.sys.clk } }

/-- The statement `if (should_do_interrupt) { ... }` of the loop of `step`: the interrupt
line is lowered and the request is cleared. -/
def clear_interrupt (p : PrettySecureProcessor χ) : PrettySecureProcessor χ :=
  if p.should_do_interrupt then
    { p with sys := { p.sys with external_interrupt := false }, should_do_interrupt := false }
  else p

/-- The loop `while (!Verilated::gotFinish()) { ... }` of `step`; `fuel` bounds the number
of clock toggles. -/
def step_loop (env : Env χ) :
    Nat → PrettySecureProcessor χ → Outcome (PrettySecureProcessor χ) Unit
  | 0, p => if p.sys.gotFinish then .ret () p else .timeout p
  | fuel + 1, p =>
    if p.sys.gotFinish then .ret () p
    else if (clear_interrupt (toggle_clock env p)).sys.clk
        && (clear_interrupt (toggle_clock env p)).sys.valid
        && (clear_interrupt (toggle_clock env p)).sys.shutdown then
      .exited (clear_interrupt (toggle_clock env p))
    else if (clear_interrupt (toggle_clock env p)).sys.clk
        && ((clear_interrupt (toggle_clock env p)).sys.valid
          || (clear_interrupt (toggle_clock env p)).sys.core0_sleeping) then
      .ret () (clear_interrupt (toggle_clock env p))
    else step_loop env fuel (clear_interrupt (toggle_clock env p))

/-- The statement `if (should_do_interrupt) { ... }` at the head of `step`: the interrupt
line is raised and the key code is presented. -/
def raise_interrupt (p : PrettySecureProcessor χ) : PrettySecureProcessor χ :=
  if p.should_do_interrupt then
    { p with sys := { p.sys with external_interrupt := true, keycode := p.keycode } }
  else p

/-- The statement `if (serial_data_available) { ... }` of `step`. -/
def feed_serial (p : PrettySecureProcessor χ) : PrettySecureProcessor χ :=
  if p.serial_data_available then
    if SOFTSERIAL_FLAGS_CLEAR = p.sys.csr_misc SOFTSERIAL_FLAGS_CSR then
      { p with
        sys := { p.sys with
          csr_misc := Function.update
            (Function.update p.sys.csr_misc SOFTSERIAL_FLAGS_CSR SOFTSERIAL_FLAGS_WAITING)
            SOFTSERIAL_IO_CSR_IN p.serial_data },
        serial_data_available := false }
    else p
  else p

/-- The statements `sys->clk = 0; sys->eval();` of `step`. -/
def clock_low (env : Env χ) (p : PrettySecureProcessor χ) : PrettySecureProcessor χ :=
  { p with sys := Vpsp.eval env { p.sys with clk := false } }

/-- The member function `step`: step the CPU a single instruction. -/
def step (env : Env χ) (fuel : Nat) (p : PrettySecureProcessor χ) :
    Outcome (PrettySecureProcessor χ) Unit :=
  step_loop env fuel (clock_low env (feed_serial (raise_interrupt p)))

/-- The member function `get_reg`; register values are `uint32_t`. -/
def get_reg (p : PrettySecureProcessor χ) (idx : Nat) : Nat :=
  if idx = PC_REG then p.sys.pc_out % 2 ^ 32 else p.sys.regs idx % 2 ^ 32

/-- The breakpoint check of `step_iters` and `cont`: the loop over the table that looks for
an enabled slot whose address is `pc`; `i` is the loop index, the last argument counts the
slots still to visit. -/
def breakpoint_hit (t : BreakpointTable) (pc : Nat) : Nat → Nat → Bool
  | _, 0 => false
  | i, k + 1 =>
    if (t.get i).enabled && pc == (t.get i).addr then true
    else breakpoint_hit t pc (i + 1) k

/-- The breakpoint check on the processor as it stands: whether the program counter is the
address of an enabled breakpoint. -/
def at_breakpoint (p : PrettySecureProcessor χ) : Bool :=
  breakpoint_hit p.breakpoints (p.get_reg PC_REG) 0 NUM_BREAKPOINTS

/-- The conversion of the `size_t` argument to `int32_t num_steps_remaining`. -/
def toInt32 (n : Nat) : Int :=
  if n % 2 ^ 32 < 2 ^ 31 then ((n % 2 ^ 32 : Nat) : Int) else ((n % 2 ^ 32 : Nat) : Int) - 2 ^ 32

/-- The loop of `step_iters`; `fuel` bounds the clock toggles of each step, the second
argument the number of iterations, `remaining` is `num_steps_remaining`. Decrementing the
least `int32_t` is an overflow of a signed integer. -/
def step_iters_loop (env : Env χ) (fuel : Nat) :
    Nat → Int → PrettySecureProcessor χ → Outcome (PrettySecureProcessor χ) Bool
  | 0, _, p => if p.sys.gotFinish then .ret true p else .timeout p
  | k + 1, remaining, p =>
    if p.sys.gotFinish then .ret true p
    else
      (step env fuel p).andThen fun _ p1 =>
        if p1.at_breakpoint then .ret true p1
        else if remaining = -(2 ^ 31) then .undefined p1
        else if remaining - 1 = 0 then .ret false p1
        else step_iters_loop env fuel k (remaining - 1) p1

/-- The member function `step_iters`. -/
def step_iters (env : Env χ) (fuel : Nat) (num_iters : Nat) (p : PrettySecureProcessor χ) :
    Outcome (PrettySecureProcessor χ) Bool :=
  step_iters_loop env fuel fuel (toInt32 num_iters) p

/-- The loop of `cont`; the second argument bounds the number of iterations. -/
def cont_loop (env : Env χ) (fuel : Nat) :
    Nat → PrettySecureProcessor χ → Outcome (PrettySecureProcessor χ) Unit
  | 0, p => if p.sys.gotFinish then .ret () p else .timeout p
  | k + 1, p =>
    if p.sys.gotFinish then .ret () p
    else
      (step env fuel p).andThen fun _ p1 =>
        if p1.at_breakpoint then .ret () p1
        else cont_loop env fuel k p1

/-- The member function `cont`: continue running the CPU until a breakpoint is hit. -/
def cont (env : Env χ) (fuel : Nat) (p : PrettySecureProcessor χ) :
    Outcome (PrettySecureProcessor χ) Unit :=
  cont_loop env fuel fuel p

/-- The member function `schedule_interrupt` (taken as one atomic action, which is what
holding `interrupt_lock` makes it). -/
def schedule_interrupt (p : PrettySecureProcessor χ) (keycode : Nat) :
    PrettySecureProcessor χ :=
  { p with should_do_interrupt := true, keycode := keycode }

/-- The member function `reset`. -/
def reset (env : Env χ) (p : PrettySecureProcessor χ) : PrettySecureProcessor χ :=
  let s0 := { p.sys with external_interrupt := false, reset := true, clk := false }
  let s1 := Vpsp.eval env s0
  let s2 := Vpsp.eval env { s1 with clk := true }
  { p with sys := { s2 with reset := false } }

/-- The ports of the design at each call `sys->eval()` in the loop of `step`, in order:
what the engine is presented with at each evaluation of a clock toggle. -/
def step_loop_evals (env : Env χ) : Nat → PrettySecureProcessor χ → List (Vpsp χ)
  | 0, _ => []
  | fuel + 1, p =>
    if p.sys.gotFinish then []
    else
      { p.sys with clk := !p.sys.clk } ::
        (if (clear_interrupt (toggle_clock env p)).sys.clk
            && (clear_interrupt (toggle_clock env p)).sys.valid
            && (clear_interrupt (toggle_clock env p)).sys.shutdown then []
         else if (clear_interrupt (toggle_clock env p)).sys.clk
            && ((clear_interrupt (toggle_clock env p)).sys.valid
              || (clear_interrupt (toggle_clock env p)).sys.core0_sleeping) then []
         else step_loop_evals env fuel (clear_interrupt (toggle_clock env p)))

/-- The ports of the design at each call `sys->eval()` of one `step`, in order: first the
evaluation with `clk = 0`, then the evaluations of the clock toggles. -/
def step_evals (env : Env χ) (fuel : Nat) (p : PrettySecureProcessor χ) : List (Vpsp χ) :=
  { (feed_serial (raise_interrupt p)).sys with clk := false } ::
    step_loop_evals env fuel (clock_low env (feed_serial (raise_interrupt p)))

/-- The loop of `step_iters` with a count of the calls of `step`: `steps` calls have been
made so far, and the result carries the count at the return. -/
def step_iters_loop_count (env : Env χ) (fuel : Nat) :
    Nat → Int → PrettySecureProcessor χ → Nat →
      Outcome (PrettySecureProcessor χ) (Bool × Nat)
  | 0, _, p, steps => if p.sys.gotFinish then .ret (true, steps) p else .timeout p
  | k + 1, remaining, p, steps =>
    if p.sys.gotFinish then .ret (true, steps) p
    else
      (step env fuel p).andThen fun _ p1 =>
        if p1.at_breakpoint then .ret (true, steps + 1) p1
        else if remaining = -(2 ^ 31) then .undefined p1
        else if remaining - 1 = 0 then .ret (false, steps + 1) p1
        else step_iters_loop_count env fuel k (remaining - 1) p1 (steps + 1)

/-- The member function `step_iters`, returning also the number of calls of `step`. -/
def step_iters_count (env : Env χ) (fuel : Nat) (num_iters : Nat)
    (p : PrettySecureProcessor χ) : Outcome (PrettySecureProcessor χ) (Bool × Nat) :=
  step_iters_loop_count env fuel fuel (toInt32 num_iters) p 0

/-- The loop of `cont` with a count of the calls of `step`. -/
def cont_loop_count (env : Env χ) (fuel : Nat) :
    Nat → PrettySecureProcessor χ → Nat → Outcome (PrettySecureProcessor χ) Nat
  | 0, p, steps => if p.sys.gotFinish then .ret steps p else .timeout p
  | k + 1, p, steps =>
    if p.sys.gotFinish then .ret steps p
    else
      (step env fuel p).andThen fun _ p1 =>
        if p1.at_breakpoint then .ret (steps + 1) p1
        else cont_loop_count env fuel k p1 (steps + 1)

/-- The member function `cont`, returning the number of calls of `step`. -/
def cont_count (env : Env χ) (fuel : Nat) (p : PrettySecureProcessor χ) :
    Outcome (PrettySecureProcessor χ) Nat :=
  cont_loop_count env fuel fuel p 0

/-- The processor after `k` consecutive calls of `step`; `none` when one of the calls
does not return. -/
def stepN (env : Env χ) (fuel : Nat) :
    Nat → PrettySecureProcessor χ → Option (PrettySecureProcessor χ)
  | 0, p => some p
  | k + 1, p =>
    match step env fuel p with
    | .ret _ q => stepN env fuel k q
    | _ => none

/-- In a run of consecutive steps from `p`, step number `i + 1` is quiet: the `i` steps
before it return, the engine is not finished when the step is due, and the step returns
with the program counter on no enabled breakpoint. -/
def quiet_step (env : Env χ) (fuel : Nat) (p : PrettySecureProcessor χ) (i : Nat) : Prop :=
  ∃ r r', stepN env fuel i p = some r ∧ r.sys.gotFinish = false ∧
    step env fuel r = .ret () r' ∧ r'.at_breakpoint = false

/-- What `step_iters` returning true in state `q` means for a run of steps from `p` with
a budget of `n`: the first `j` steps, for some `j < n`, are quiet, and then either the
engine is found finished when the next step is due (no further step is taken and `q` is the
state reached), or the next step returns in state `q` with the program counter on an
enabled breakpoint. -/
def StopWithin (env : Env χ) (fuel n : Nat) (p q : PrettySecureProcessor χ) : Prop :=
  ∃ j, j < n ∧ (∀ i, i < j → quiet_step env fuel p i) ∧
    ∃ r, stepN env fuel j p = some r ∧
      ((r.sys.gotFinish = true ∧ q = r) ∨
       (r.sys.gotFinish = false ∧ step env fuel r = .ret () q ∧ q.at_breakpoint = true))

/-- What `step_iters` returning false in state `q` means: all `n` steps are quiet, and `q`
is the state after them. -/
def QuietFor (env : Env χ) (fuel n : Nat) (p q : PrettySecureProcessor χ) : Prop :=
  (∀ i, i < n → quiet_step env fuel p i) ∧ stepN env fuel n p = some q

/-- In a run of consecutive steps from `p`, the first stop condition occurs after `k` steps
and leaves the processor in state `r`: with `k = 0`, the engine is already finished; with
`k > 0`, the first `k - 1` steps are quiet, the engine is not finished when step `k` is
due, and step `k` returns in state `r` with the program counter on an enabled breakpoint or
with the engine finished. -/
def FirstStopAfter (env : Env χ) (fuel : Nat) (p : PrettySecureProcessor χ) :
    Nat → PrettySecureProcessor χ → Prop
  | 0, r => p.sys.gotFinish = true ∧ r = p
  | k + 1, r =>
    (∀ i, i < k → quiet_step env fuel p i) ∧
      ∃ q, stepN env fuel k p = some q ∧ q.sys.gotFinish = false ∧
        step env fuel q = .ret () r ∧ (r.at_breakpoint = true ∨ r.sys.gotFinish = true)

/-- The insertion loop of `set_breakpoint`. -/
def set_breakpoint_add (addr : Nat) (t : BreakpointTable) : Nat → Nat → Bool × BreakpointTable
  | _, 0 => (false, t)
  | i, k + 1 =>
    if !(t.get i).enabled then (true, t.set i ⟨addr, true⟩)
    else set_breakpoint_add addr t (i + 1) k

/-- The removal loop of `set_breakpoint`, with the final `return true` of the function. -/
def set_breakpoint_remove (addr : Nat) (t : BreakpointTable) : Nat → Nat → Bool × BreakpointTable
  | _, 0 => (true, t)
  | i, k + 1 =>
    if (t.get i).enabled && (t.get i).addr == addr then (true, t.set i ⟨0, false⟩)
    else set_breakpoint_remove addr t (i + 1) k

/-- The member function `set_breakpoint` on the table: `addr` is a `uint32_t`, `enabled` a
`uint8_t` tested for being nonzero. -/
def set_breakpoint_table (t : BreakpointTable) (addr : Nat) (enabled : Nat) :
    Bool × BreakpointTable :=
  if enabled ≠ 0 then set_breakpoint_add addr t 0 NUM_BREAKPOINTS
  else set_breakpoint_remove addr t 0 NUM_BREAKPOINTS

/-- The tables that can arise: the table the constructor builds, and the table after a
call of `set_breakpoint` on a table that can arise. -/
inductive Reachable : BreakpointTable → Prop
  | constructed : Reachable BreakpointTable.empty
  | call (t : BreakpointTable) (addr enabled : Nat) :
      Reachable t → Reachable (set_breakpoint_table t addr enabled).2

/-- The member function `set_breakpoint`: the result and the processor afterwards. -/
def set_breakpoint (p : PrettySecureProcessor χ) (addr : Nat) (enabled : Nat) :
    Bool × PrettySecureProcessor χ :=
  ((set_breakpoint_table p.breakpoints addr enabled).1,
   { p with breakpoints := (set_breakpoint_table p.breakpoints addr enabled).2 })

/-- The member function `read_mem_byte`. -/
def read_mem_byte (p : PrettySecureProcessor χ) (addr : Nat) : Nat :=
  (p.sys.ram (addr >>> 2) >>> (8 * (addr &&& 0x03))) &&& 0x0ff

/-- The loop of `read_mem_buf_printable`: `off` is how far `buf` has been advanced, `i` the
loop index, the last argument the number of bytes still to print. -/
def read_mem_buf_printable_loop (p : PrettySecureProcessor χ) (addr : Nat) :
    List Nat → Nat → Nat → Nat → Nat → List Nat
  | buf, _, _, _, 0 => buf
  | buf, off, buf_size, i, k + 1 =>
    let val := p.read_mem_byte ((addr + i) % 2 ^ 32)
    let buf1 := snprintf buf off buf_size (fmt_02x val)
    if buf_size < 2 then buf1
    else read_mem_buf_printable_loop p addr buf1 (off + 2) (buf_size - 2) (i + 1) k

/-- The member function `read_mem_buf_printable`: the contents of `buf` afterwards. -/
def read_mem_buf_printable (p : PrettySecureProcessor χ) (buf : List Nat) (buf_size : Nat)
    (addr : Nat) (num_bytes : Nat) : List Nat :=
  read_mem_buf_printable_loop p addr buf 0 buf_size 0 num_bytes

end PrettySecureProcessor

/-- The function `to_little_endian` of `gdb.h`, on `uint32_t`. -/
def to_little_endian (val : Nat) : Nat :=
  ((((val &&& (0x0ff <<< 0)) <<< 24) % 2 ^ 32) |||
   (((val &&& (0x0ff <<< 8)) <<< 8) % 2 ^ 32) |||
   ((val &&& (0x0ff <<< 16)) >>> 8) |||
   ((val &&& (0x0ff <<< 24)) >>> 24)) % 2 ^ 32

namespace PrettySecureProcessor

variable {χ : Type}

/-- The loop of `get_regs`. -/
def get_regs_loop (p : PrettySecureProcessor χ) : List Nat → Nat → Nat → Nat → Nat → List Nat
  | buf, _, _, _, 0 => buf
  | buf, off, buf_size, i, k + 1 =>
    let reg_val := p.get_reg i
    let reg_val_little_endian := to_little_endian reg_val
    let buf1 := snprintf buf off buf_size (fmt_08x reg_val_little_endian)
    if buf_size < 8 then buf1
    else get_regs_loop p buf1 (off + 8) (buf_size - 8) (i + 1) k

/-- The member function `get_regs`: the contents of `buf` afterwards. -/
def get_regs (p : PrettySecureProcessor χ) (buf : List Nat) (buf_size : Nat) : List Nat :=
  get_regs_loop p buf 0 buf_size 0 NUM_REGS

/-- The constructor. It leaves `keycode` and `serial_data` uninitialised: their values
are the arguments `keycode` and `serial_data`. -/
def new (system_in : Vpsp χ) (keycode serial_data : Nat) : PrettySecureProcessor χ :=
  { sys := system_in, breakpoints := BreakpointTable.empty, should_do_interrupt := false,
    keycode := keycode, serial_data_available := false, serial_data := serial_data }

/-- Consecutive calls `set_breakpoint(a, true)`, one for each address of the list: the
results in order, and the processor afterwards. -/
def insert_all (p : PrettySecureProcessor χ) : List Nat → List Bool × PrettySecureProcessor χ
  | [] => ([], p)
  | a :: as =>
    ((p.set_breakpoint a 1).1 :: (insert_all (p.set_breakpoint a 1).2 as).1,
     (insert_all (p.set_breakpoint a 1).2 as).2)

end PrettySecureProcessor

/-! ## The GDB stub (`gdb.h`, `gdb.cpp`) -/

/-- The ASCII codes of the characters of `s`. -/
def bytes (s : String) : List Nat := s.toList.map Char.toNat

/-- The array of the string literal `s`: its characters and the terminating NUL. -/
def lit (s : String) : List Nat := bytes s ++ [0]

/-- The constant `PKTBUF_SIZE`. -/
def PKTBUF_SIZE : Nat := 2048

/-- The size of `model_buf`. -/
def MODEL_BUF_SIZE : Nat := 2048

/-- The size of `formatted_buf` in `reply_with`. -/
def FORMATTED_BUF_SIZE : Nat := 2048

/-- The constant `GDB_PACKET_BREAK`. -/
def GDB_PACKET_BREAK : Nat := 0x03

/-- The constant `GDB_CONTINUE_NUM_STEPS`. -/
def GDB_CONTINUE_NUM_STEPS : Nat := 1

/-- The largest `unsigned long` (64 bits). -/
def ULONG_MAX : Nat := 2 ^ 64 - 1

/-- The libc `isspace` in the C locale. -/
def isspace (c : Nat) : Bool := c == 32 || (9 ≤ c && c ≤ 13)

/-- The value of a hexadecimal digit, `none` for any other character. -/
def hexval (c : Nat) : Option Nat :=
  if 48 ≤ c ∧ c ≤ 57 then some (c - 48)
  else if 97 ≤ c ∧ c ≤ 102 then some (c - 87)
  else if 65 ≤ c ∧ c ≤ 70 then some (c - 55)
  else none

/-- The digits loop of `strtoul` in base 16: the value of the longest run of hexadecimal
digits at the head of the string, accumulated from `acc`. -/
def strtoul_digits : List Nat → Nat → Nat
  | [], acc => acc
  | c :: cs, acc =>
    match hexval c with
    | some d => strtoul_digits cs (acc * 16 + d)
    | none => acc

/-- The optional `0x` or `0X` that `strtoul` accepts in base 16 is passed over. -/
def skip_0x (s : List Nat) : List Nat :=
  match s with
  | 48 :: x :: t => if x == 120 || x == 88 then t else s
  | _ => s

/-- The libc `strtoul(s, NULL, 16)` on the characters of a C string: leading white space,
an optional sign, an optional `0x` or `0X`, then hexadecimal digits; a value that does not
fit is `ULONG_MAX`, a minus sign negates in `unsigned long`. -/
def strtoul16 (s : List Nat) : Nat :=
  let s1 := s.dropWhile isspace
  let neg := s1.head? == some 45
  let s2 := if s1.head? == some 45 || s1.head? == some 43 then s1.tail else s1
  let v := strtoul_digits (skip_0x s2) 0
  if v > ULONG_MAX then ULONG_MAX
  else if neg then (2 ^ 64 - v) % 2 ^ 64
  else v

/-- The state of the stub: the processor `sys`, the flag `running_continuously`, the
static array `model_buf`, and the log of the `send()` calls on the client socket. -/
structure GdbServer (χ : Type) where
  sys : PrettySecureProcessor χ
  running_continuously : Bool
  model_buf : List Nat
  sent : List (List Nat)

variable {χ : Type}

/-- The state at the start of the program: `model_buf` is a zero-initialised static. -/
def GdbServer.init (p : PrettySecureProcessor χ) : GdbServer χ :=
  { sys := p, running_continuously := false,
    model_buf := List.replicate MODEL_BUF_SIZE 0, sent := [] }

/-- The call `send(fd, data, len, 0)`. -/
def send (st : GdbServer χ) (data : List Nat) : GdbServer χ :=
  { st with sent := st.sent ++ [data] }

/-- The checksum loop of `reply_with` over the characters of `msg`. -/
def chksum_loop (char_signed : Bool) : List Nat → Nat → Nat
  | [], acc => acc
  | c :: cs, acc => chksum_loop char_signed cs (chksum_add char_signed acc c)

/-- The function `reply_with`; `msg` is the array the pointer points into. Without a NUL in
`msg` the string functions read past the end of the array. -/
def reply_with (env : Env χ) (msg : List Nat) (st : GdbServer χ) :
    Outcome (GdbServer χ) Unit :=
  if msg.all (fun c => c != 0) then .undefined st
  else
    let formatted_buf := 36 :: strncpy msg (FORMATTED_BUF_SIZE - 1)
    match strlen formatted_buf with
    | none => .undefined st
    | some len =>
      if len > FORMATTED_BUF_SIZE - 5 then .ret () st
      else
        let chksum_accumulator := chksum_loop env.char_signed (cstring msg) 0
        let chksum_accumulator := chksum_accumulator &&& 0x0ff
        let formatted_buf := formatted_buf.set len 35
        let formatted_buf := snprintf formatted_buf (len + 1) 3 (fmt_02x chksum_accumulator)
        match strlen formatted_buf with
        | none => .undefined st
        | some n => .ret () (send st (formatted_buf.take n))

/-- The scan `while (*cursor && *cursor != ',') { cursor++; }`: the characters passed over
and the array from `cursor` on. -/
def scan_field (mem : List Nat) : List Nat × List Nat :=
  (mem.takeWhile (fun c => c != 0 && c != 44), mem.dropWhile (fun c => c != 0 && c != 44))

/-- Run the processor call `f` inside the stub. -/
def liftSys {ρ : Type} (st : GdbServer χ) (o : Outcome (PrettySecureProcessor χ) ρ) :
    Outcome (GdbServer χ) ρ :=
  match o with
  | .ret r p => .ret r { st with sys := p }
  | .exited p => .exited { st with sys := p }
  | .timeout p => .timeout { st with sys := p }
  | .undefined p => .undefined { st with sys := p }

/-- The part of `handle_packet` after the header has been stripped: `pkt` is the array
from the byte behind the `$` to its end. The comparisons and scans read on from their start
and stop at a NUL at the latest, which they meet inside `pktbuf` after a `read` of fewer
than `PKTBUF_SIZE` bytes. In the `Z0` and `z0` branches `cursor = &pkt[3]` is dereferenced
without a look at `pkt[2]`: when the array ends before `pkt[3]`, that read is outside the
array. -/
def handle_payload (env : Env χ) (fuel : Nat) (pkt : List Nat) (st : GdbServer χ) :
    Outcome (GdbServer χ) Unit :=
  if (bytes "qSupported").isPrefixOf pkt then
    reply_with env (lit "swbreak+;hwbreak+") st
  else if (bytes "Z0").isPrefixOf pkt then
    let (field, cursor) := scan_field (pkt.drop 3)
    if pkt.length ≤ 3 then .undefined st
    else if cursor.headD 0 = 0 then .ret () st
    else
      let addr := strtoul16 field % 2 ^ 32
      let r := st.sys.set_breakpoint addr 1
      let st1 := { st with sys := r.2 }
      if !r.1 then
        (reply_with env (lit "E 01") st1).andThen fun _ st2 => reply_with env (lit "OK") st2
      else reply_with env (lit "OK") st1
  else if (bytes "z0").isPrefixOf pkt then
    let (field, cursor) := scan_field (pkt.drop 3)
    if pkt.length ≤ 3 then .undefined st
    else if cursor.headD 0 = 0 then .ret () st
    else
      let addr := strtoul16 field % 2 ^ 32
      let r := st.sys.set_breakpoint addr 0
      let st1 := { st with sys := r.2 }
      if !r.1 then
        (reply_with env (lit "E 01") st1).andThen fun _ st2 => reply_with env (lit "OK") st2
      else reply_with env (lit "OK") st1
  else if pkt.headD 0 = 63 then
    reply_with env (lit "S05") st
  else if pkt.headD 0 = 103 then
    let st1 := { st with model_buf := st.sys.get_regs st.model_buf MODEL_BUF_SIZE }
    reply_with env st1.model_buf st1
  else if pkt.headD 0 = 115 then
    (liftSys st (st.sys.step env fuel)).andThen fun _ st1 => reply_with env (lit "S05") st1
  else if pkt.headD 0 = 99 then
    reply_with env (lit "OK") { st with running_continuously := true }
  else if pkt.headD 0 = 109 then
    let (field, cursor) := scan_field (pkt.drop 1)
    if cursor.headD 0 = 0 then .ret () st
    else
      let addr := strtoul16 field % 2 ^ 32
      let num_words := strtoul16 (cstring (cursor.drop 1)) % 2 ^ 32
      let st1 := { st with
        model_buf := st.sys.read_mem_buf_printable st.model_buf MODEL_BUF_SIZE addr num_words }
      reply_with env st1.model_buf st1
  else
    reply_with env (lit "") st

/-- The array `pktbuf` when `pkt` are the bytes a `read` has stored from its start on (or
when `pkt` is the whole array already): the array is zero-filled before every read, so it
continues with NUL bytes up to `PKTBUF_SIZE` bytes in all. -/
def pktbuf_of (pkt : List Nat) : List Nat :=
  pkt ++ List.replicate (PKTBUF_SIZE - pkt.length) 0

/-- The function `handle_packet`, called on the array `pktbuf` that holds the bytes `pkt`
from its start on, followed by the NUL bytes the `memset` before the `read` has left (see
`pktbuf_of`). The argument `pkt_len` of the C function is never read and is left out. -/
def handle_packet (env : Env χ) (fuel : Nat) (pkt : List Nat) (st : GdbServer χ) :
    Outcome (GdbServer χ) Unit :=
  let st0 := send st [43, 0]
  let pkt := pktbuf_of pkt
  if pkt.headD 0 = GDB_PACKET_BREAK then
    if st0.running_continuously then
      reply_with env (lit "S05") { st0 with running_continuously := false }
    else reply_with env (lit "OK") st0
  else
    let pkt1 := pkt.dropWhile (fun c => c == 43)
    if pkt1.headD 0 = 0 then .ret () st0
    else if pkt1.headD 0 = 45 then .ret () st0
    else if pkt1.headD 0 ≠ 36 then .ret () st0
    else handle_payload env fuel (pkt1.drop 1) st0

/-- What one `poll` and `read` of the client socket deliver in an iteration of the server
loop: nothing to read, the bytes available, or a failing `read`. -/
inductive Incoming where
  | nothing
  | data (received : List Nat)
  | readError

/-- How an iteration of the server loop ends: the loop goes on, or `gdb_server` returns. -/
inductive LoopStatus where
  | again
  | disconnected
deriving DecidableEq

/-- One iteration of the event loop `while (1) { ... }` of `gdb_server`. A `read` fills at
most `PKTBUF_SIZE` bytes; when it fills them all, the store `pktbuf[val_read] = 0` is
outside the array. -/
def gdb_server_iteration (env : Env χ) (fuel : Nat) (incoming : Incoming) (st : GdbServer χ) :
    Outcome (GdbServer χ) LoopStatus :=
  let simulate : Outcome (GdbServer χ) Bool :=
    if st.running_continuously then
      (liftSys st (st.sys.step_iters env fuel GDB_CONTINUE_NUM_STEPS)).andThen
        fun stopped_due_to_bp st1 =>
          if stopped_due_to_bp then .ret true { st1 with running_continuously := false }
          else .ret false st1
    else .ret false st
  simulate.andThen fun stopped_due_to_bp st1 =>
    match incoming with
    | .nothing =>
      if stopped_due_to_bp then
        (reply_with env (lit "S05") st1).andThen fun _ st2 => .ret .again st2
      else .ret .again st1
    | .readError => .ret .disconnected st1
    | .data received =>
      let val_read := (received.take PKTBUF_SIZE).length
      if val_read = PKTBUF_SIZE then .undefined st1
      else
        let pktbuf := received.take PKTBUF_SIZE ++ List.replicate (PKTBUF_SIZE - val_read) 0
        (handle_packet env fuel pktbuf st1).andThen fun _ st2 => .ret .again st2

/-! ## A small design to run the simulator on -/

/-- A design that retires one instruction on every rising clock edge, advancing the program
counter by 4. -/
def demoDesign (v : Vpsp Unit) : Vpsp Unit :=
  if v.clk then { v with pc_out := v.pc_out + 4, valid := true } else { v with valid := false }

/-- The demo design, compiled with a signed `char`. -/
def demoEnv : Env Unit := { design := demoDesign, char_signed := true }

/-- The demo design with the program counter at `0x0ff8`. -/
def demoSys : Vpsp Unit :=
  { clk := false, reset := false, external_interrupt := false, keycode := 0, valid := false,
    shutdown := false, core0_sleeping := false, pc_out := 0x0ff8,
    regs := fun i => i * 0x01020304, csr_misc := fun _ => 0,
    ram := fun i => 0x11223344 + i, rest := (), gotFinish := false }

/-- A processor wrapper freshly constructed around the demo design. -/
def demoPsp : PrettySecureProcessor Unit := PrettySecureProcessor.new demoSys 0 0

/-- The stub at program start, around the demo processor. -/
def demoGdb : GdbServer Unit := GdbServer.init demoPsp

/-- A breakpoint table with all 64 slots enabled. -/
def fullTable : BreakpointTable :=
  ⟨List.replicate NUM_BREAKPOINTS ⟨0x2000, true⟩, List.length_replicate _ _⟩

/-- The slots below `j` are the enabled ones. -/
def filledTo (t : BreakpointTable) (j : Nat) : Prop :=
  ∀ m, m < NUM_BREAKPOINTS → ((t.get m).enabled = true ↔ m < j)

/-- The demo processor with a full breakpoint table. -/
def fullPsp : PrettySecureProcessor Unit := { demoPsp with breakpoints := fullTable }

/-- The demo processor after `set_breakpoint(0x1000, true)`. -/
def onePsp : PrettySecureProcessor Unit := (demoPsp.set_breakpoint 0x1000 1).2

/-- The demo processor after two calls `set_breakpoint(0x1000, true)`. -/
def twicePsp : PrettySecureProcessor Unit := (onePsp.set_breakpoint 0x1000 1).2

/-- The call ended in a state whose log of sends extends `sent0`. -/
def Extends {ρ : Type} (sent0 : List (List Nat)) (o : Outcome (GdbServer χ) ρ) : Prop :=
  ∃ more, o.last.sent = sent0 ++ more

/-- The stub at program start, around the demo processor with a full breakpoint table. -/
def fullGdb : GdbServer Unit := GdbServer.init fullPsp

/-- A design that executes `$finish` on the first rising clock edge, without retiring an
instruction. -/
def finishDesign (v : Vpsp Unit) : Vpsp Unit :=
  if v.clk then { v with gotFinish := true } else v

/-- The finishing design, compiled with a signed `char`. -/
def finishEnv : Env Unit := { design := finishDesign, char_signed := true }

/-- The demo processor with a breakpoint one instruction ahead, at `0x0ffc`. -/
def aheadPsp : PrettySecureProcessor Unit := (demoPsp.set_breakpoint 0x0ffc 1).2

/-- The stub after the frame `$Z0,ffc,4#45` has been handled at program start. -/
def afterInsertGdb : GdbServer Unit :=
  { demoGdb with sys := aheadPsp, sent := [[43, 0], bytes "$OK#9a"] }

/-- The stub after the frame `$c#63` has then been handled: it is in continuous mode. -/
def runningGdb : GdbServer Unit :=
  { afterInsertGdb with running_continuously := true,
                        sent := [[43, 0], bytes "$OK#9a", [43, 0], bytes "$OK#9a"] }

/-- The processor `aheadPsp` after one step: the program counter is on the breakpoint. -/
def stoppedPsp : PrettySecureProcessor Unit :=
  { aheadPsp with sys := { demoSys with clk := true, valid := true, pc_out := 0x0ffc } }

/-- The stub in continuous mode with the breakpoint at `0x0ffc` set, around an engine that
has already finished. -/
def finishedGdb : GdbServer Unit :=
  { runningGdb with sys := { aheadPsp with sys := { demoSys with gotFinish := true } } }

/-- The log of sends in the state a call ended in. -/
def sent_log {ρ : Type} (o : Outcome (GdbServer χ) ρ) : Option (List (List Nat)) :=
  o.state?.map (fun s => s.sent)

/-- The hexadecimal dump of the `k` bytes of memory at the addresses `addr + i`,
`addr + i + 1`, ... (modulo `2 ^ 32`): two lowercase digits for each byte. -/
def hex_dump (p : PrettySecureProcessor χ) (addr : Nat) : Nat → Nat → List Nat
  | _, 0 => []
  | i, k + 1 => fmt_02x (p.read_mem_byte ((addr + i) % 2 ^ 32)) ++ hex_dump p addr (i + 1) k

/-- The number a string of hexadecimal digits denotes. -/
def hex_value (ds : List Nat) : Nat :=
  ds.foldl (fun acc c => acc * 16 + (hexval c).getD 0) 0

/-- A nonempty string of at most eight hexadecimal digits. -/
def IsHex32 (ds : List Nat) : Prop :=
  ds ≠ [] ∧ ds.length ≤ 8 ∧ ∀ c ∈ ds, (hexval c).isSome = true

/-- A design that shuts down on the first rising clock edge: it raises `valid` and
`shutdown`. -/
def shutDesign (v : Vpsp Unit) : Vpsp Unit :=
  if v.clk then { v with valid := true, shutdown := true } else v

/-- The design that shuts down, compiled with a signed `char`. -/
def shutEnv : Env Unit := { design := shutDesign, char_signed := true }

/-- The four bytes of a 32-bit value, least significant byte first, each as two lowercase
hexadecimal digits. -/
def le_hex (v : Nat) : List Nat :=
  fmt_02x (v % 256) ++ fmt_02x (v / 2 ^ 8 % 256) ++ fmt_02x (v / 2 ^ 16 % 256)
    ++ fmt_02x (v / 2 ^ 24 % 256)

/-- The dump of the `k` registers from register `i` on: eight digits for each register. -/
def reg_dump (p : PrettySecureProcessor χ) : Nat → Nat → List Nat
  | _, 0 => []
  | i, k + 1 => le_hex (p.get_reg i) ++ reg_dump p (i + 1) k

/-- A design that executes `$finish` at the evaluation of a falling clock edge. -/
def fallDesign (v : Vpsp Unit) : Vpsp Unit :=
  if v.clk then v else { v with gotFinish := true }

/-- The design that finishes on the falling edge, compiled with a signed `char`. -/
def fallEnv : Env Unit := { design := fallDesign, char_signed := true }

/-! ## Theorems -/

/-! ### C strings and buffers -/

theorem cstring_append_nul (P rest : List Nat) (hP : ∀ c ∈ P, c ≠ 0) :
    cstring (P ++ 0 :: rest) = P := by
  induction P with
  | nil => simp [cstring]
  | cons c cs ih =>
    have hc : c ≠ 0 := hP c (List.mem_cons_self _ _)
    have ih2 := ih (fun x hx => hP x (List.mem_cons_of_mem _ hx))
    simp only [cstring] at ih2 ⊢
    simp [List.takeWhile_cons, hc, ih2]

theorem strlen_append_nul (P rest : List Nat) (hP : ∀ c ∈ P, c ≠ 0) :
    strlen (P ++ 0 :: rest) = some P.length := by
  simp [strlen, cstring_append_nul P rest hP]

theorem set_length_append (A B : List Nat) (x y : Nat) :
    (A ++ x :: B).set A.length y = A ++ y :: B := by
  induction A with
  | nil => rfl
  | cons a as ih => simp [ih]

theorem writeAt_mid (A B C X : List Nat) (h : B.length = X.length) :
    writeAt (A ++ B ++ C) A.length X = A ++ X ++ C := by
  simp [writeAt, ← h, List.take_append_eq_append_take, List.drop_append_eq_append_drop]

theorem hexDigit_ne_zero (d : Nat) : hexDigit d ≠ 0 := by
  unfold hexDigit; split <;> omega

theorem chksum_add_mod (s : Bool) (acc c : Nat) :
    chksum_add s acc c % 256 = (acc + c) % 256 := by
  unfold chksum_add charToInt
  split <;> omega

theorem chksum_loop_mod (s : Bool) (cs : List Nat) (acc : Nat) :
    chksum_loop s cs acc % 256 = (acc + cs.sum) % 256 := by
  induction cs generalizing acc with
  | nil => simp [chksum_loop]
  | cons c cs ih =>
    simp only [chksum_loop, List.sum_cons]
    rw [ih, Nat.add_mod, chksum_add_mod, ← Nat.add_mod, Nat.add_assoc]

/-- The frame `reply_with` sends for a string of at most 2042 characters. -/
theorem reply_with_short (env : Env χ) (st : GdbServer χ) (P rest : List Nat)
    (hP : ∀ c ∈ P, c ≠ 0) (hlen : P.length ≤ 2042) :
    reply_with env (P ++ 0 :: rest) st
      = .ret () (send st (36 :: P ++ 35 :: fmt_02x (P.sum % 256))) := by
  obtain ⟨m, hm⟩ : ∃ m, 2047 - P.length = m + 5 := ⟨2042 - P.length, by omega⟩
  have hall : (P ++ 0 :: rest).all (fun c => c != 0) = false := by
    simp
  have hcopy : strncpy (P ++ 0 :: rest) (FORMATTED_BUF_SIZE - 1)
      = P ++ 0 :: 0 :: 0 :: 0 :: 0 :: List.replicate m 0 := by
    have h1 : P.take 2047 = P := List.take_of_length_le (by omega)
    simp only [strncpy, cstring_append_nul P rest hP, FORMATTED_BUF_SIZE]
    rw [h1, hm]
    rfl
  have hP1 : ∀ c ∈ 36 :: P, c ≠ 0 := by
    intro c hc
    rcases List.mem_cons.1 hc with h | h
    · omega
    · exact hP c h
  have hlen1 : strlen (36 :: (P ++ 0 :: 0 :: 0 :: 0 :: 0 :: List.replicate m 0))
      = some (P.length + 1) := by
    have := strlen_append_nul (36 :: P) (0 :: 0 :: 0 :: 0 :: List.replicate m 0) hP1
    simpa using this
  have hsum : chksum_loop env.char_signed P 0 &&& 0x0ff = P.sum % 256 := by
    have h := chksum_loop_mod env.char_signed P 0
    rw [Nat.zero_add] at h
    rw [← h]
    exact Nat.and_pow_two_sub_one_eq_mod _ 8
  unfold reply_with
  rw [if_neg (by rw [hall]; decide), hcopy]
  dsimp only
  rw [hlen1]
  dsimp only
  rw [cstring_append_nul P rest hP, hsum]
  rw [if_neg (by simp only [FORMATTED_BUF_SIZE]; omega)]
  have hset : (36 :: (P ++ 0 :: 0 :: 0 :: 0 :: 0 :: List.replicate m 0)).set (P.length + 1) 35
      = (36 :: P) ++ 35 :: 0 :: 0 :: 0 :: 0 :: List.replicate m 0 := by
    simp
  rw [hset]
  have hw : snprintf ((36 :: P) ++ 35 :: 0 :: 0 :: 0 :: 0 :: List.replicate m 0)
      (P.length + 1 + 1) 3 (fmt_02x (P.sum % 256))
      = ((36 :: P) ++ [35]) ++ (fmt_02x (P.sum % 256) ++ [0]) ++ (0 :: List.replicate m 0) := by
    have := writeAt_mid ((36 :: P) ++ [35]) [0, 0, 0] (0 :: List.replicate m 0)
      (fmt_02x (P.sum % 256) ++ [0]) (by simp [fmt_02x])
    simp only [snprintf]
    rw [if_neg (by decide)]
    have ht : (fmt_02x (P.sum % 256)).take (3 - 1) = fmt_02x (P.sum % 256) := by
      simp [fmt_02x]
    rw [ht]
    simpa using this
  rw [hw]
  have hfin : ∀ c ∈ (36 :: P) ++ [35] ++ fmt_02x (P.sum % 256), c ≠ 0 := by
    intro c hc
    simp only [List.mem_append, List.mem_singleton, fmt_02x, List.mem_cons,
      List.not_mem_nil, or_false] at hc
    rcases hc with ((h | h) | h) | h
    · omega
    · exact hP c h
    · omega
    · rcases h with h | h <;> rw [h] <;> exact hexDigit_ne_zero _
  have e1 : (36 :: P) ++ [35] ++ (fmt_02x (P.sum % 256) ++ [0]) ++ (0 :: List.replicate m 0)
      = ((36 :: P) ++ [35] ++ fmt_02x (P.sum % 256)) ++ 0 :: (0 :: List.replicate m 0) := by
    simp
  rw [e1, strlen_append_nul _ _ hfin]
  dsimp only
  rw [List.take_left]
  simp

/-- C1: for every payload `P` without a NUL byte and of length at most 2042, whatever
follows its terminating NUL in memory and whether plain `char` is signed or not,
`reply_with` returns after exactly one `send`, of the bytes `$`, `P`, `#` and the two
lowercase hexadecimal digits of (the sum of the byte values of `P`) mod 256. Bytes from
0x80 on are not excluded. -/
theorem reply_with_frame (env : Env χ) (st : GdbServer χ) (P rest : List Nat)
    (hP : ∀ c ∈ P, c ≠ 0) (hlen : P.length ≤ 2042) :
    reply_with env (P ++ 0 :: rest) st
      = .ret () { st with sent := st.sent ++
          [bytes "$" ++ P ++ bytes "#" ++
            [hexDigit (P.sum % 256 / 16), hexDigit (P.sum % 256 % 16)]] } := by
  rw [reply_with_short env st P rest hP hlen]
  simp [send, fmt_02x, bytes]

/-- C1 at the payload with the bytes 0xC8 0x41, whose sum is 0x109: the checksum is `09`. -/
theorem reply_with_frame_witness :
    (∀ c ∈ [200, 65], c ≠ 0) ∧ [200, 65].length ≤ 2042 ∧
    reply_with demoEnv ([200, 65] ++ 0 :: []) demoGdb
      = .ret () { demoGdb with sent := demoGdb.sent ++
          [bytes "$" ++ [200, 65] ++ bytes "#" ++
            [hexDigit ([200, 65].sum % 256 / 16), hexDigit ([200, 65].sum % 256 % 16)]] } :=
  ⟨by decide, by decide, reply_with_frame demoEnv demoGdb [200, 65] [] (by decide) (by decide)⟩

/-! ### The breakpoint table -/

open PrettySecureProcessor

theorem BreakpointTable.get_set (t : BreakpointTable) (j m : Nat) (b : Breakpoint)
    (hj : j < NUM_BREAKPOINTS) :
    (t.set j b).get m = if m = j then b else t.get m := by
  have hlen := t.size_eq
  simp only [BreakpointTable.get, BreakpointTable.set, List.getD_eq_getElem?_getD,
    List.getElem?_set]
  by_cases h : j = m
  · subst h
    simp [hlen, hj]
  · have h2 : ¬ m = j := fun e => h e.symm
    simp [h, h2]

theorem set_breakpoint_add_spec (addr : Nat) (t : BreakpointTable) (k i : Nat)
    (hik : i + k ≤ NUM_BREAKPOINTS) :
    (∃ j, i ≤ j ∧ j < i + k ∧ (∀ m, i ≤ m → m < j → (t.get m).enabled = true) ∧
        (t.get j).enabled = false ∧
        set_breakpoint_add addr t i k = (true, t.set j ⟨addr, true⟩)) ∨
    ((∀ m, i ≤ m → m < i + k → (t.get m).enabled = true) ∧
        set_breakpoint_add addr t i k = (false, t)) := by
  induction k generalizing i with
  | zero =>
    right
    exact ⟨fun m h1 h2 => by omega, rfl⟩
  | succ k ih =>
    by_cases hi : (t.get i).enabled = true
    · have hstep : set_breakpoint_add addr t i (k + 1) = set_breakpoint_add addr t (i + 1) k := by
        simp [set_breakpoint_add, hi]
      rcases ih (i + 1) (by omega) with ⟨j, h1, h2, h3, h4, h5⟩ | ⟨h1, h2⟩
      · left
        refine ⟨j, by omega, by omega, ?_, h4, by rw [hstep, h5]⟩
        intro m hm1 hm2
        by_cases hmi : m = i
        · rw [hmi]; exact hi
        · exact h3 m (by omega) hm2
      · right
        refine ⟨?_, by rw [hstep, h2]⟩
        intro m hm1 hm2
        by_cases hmi : m = i
        · rw [hmi]; exact hi
        · exact h1 m (by omega) (by omega)
    · left
      have hi2 : (t.get i).enabled = false := by simpa using hi
      refine ⟨i, le_refl _, by omega, fun m h1 h2 => by omega, hi2, ?_⟩
      simp [set_breakpoint_add, hi2]

theorem set_breakpoint_remove_spec (addr : Nat) (t : BreakpointTable) (k i : Nat)
    (hik : i + k ≤ NUM_BREAKPOINTS) :
    (∃ j, i ≤ j ∧ j < i + k ∧
        (∀ m, i ≤ m → m < j → ¬ ((t.get m).enabled = true ∧ (t.get m).addr = addr)) ∧
        (t.get j).enabled = true ∧ (t.get j).addr = addr ∧
        set_breakpoint_remove addr t i k = (true, t.set j ⟨0, false⟩)) ∨
    ((∀ m, i ≤ m → m < i + k → ¬ ((t.get m).enabled = true ∧ (t.get m).addr = addr)) ∧
        set_breakpoint_remove addr t i k = (true, t)) := by
  induction k generalizing i with
  | zero =>
    right
    exact ⟨fun m h1 h2 => by omega, rfl⟩
  | succ k ih =>
    by_cases hi : (t.get i).enabled = true ∧ (t.get i).addr = addr
    · left
      refine ⟨i, le_refl _, by omega, fun m h1 h2 => by omega, hi.1, hi.2, ?_⟩
      simp [set_breakpoint_remove, hi.1, hi.2]
    · have hstep : set_breakpoint_remove addr t i (k + 1)
          = set_breakpoint_remove addr t (i + 1) k := by
        have : ((t.get i).enabled && (t.get i).addr == addr) = false := by
          by_cases he : (t.get i).enabled = true
          · have : ¬ (t.get i).addr = addr := fun h => hi ⟨he, h⟩
            simp [he, this]
          · simp [he]
        simp [set_breakpoint_remove, this]
      rcases ih (i + 1) (by omega) with ⟨j, h1, h2, h3, h4, h5, h6⟩ | ⟨h1, h2⟩
      · left
        refine ⟨j, by omega, by omega, ?_, h4, h5, by rw [hstep, h6]⟩
        intro m hm1 hm2
        by_cases hmi : m = i
        · rw [hmi]; exact hi
        · exact h3 m (by omega) hm2
      · right
        refine ⟨?_, by rw [hstep, h2]⟩
        intro m hm1 hm2
        by_cases hmi : m = i
        · rw [hmi]; exact hi
        · exact h1 m (by omega) (by omega)

theorem filledTo_empty : filledTo BreakpointTable.empty 0 := by
  intro m hm
  simp [BreakpointTable.get, BreakpointTable.empty, List.getD_eq_getElem?_getD, hm]

theorem insert_filledTo (p : PrettySecureProcessor χ) (a j : Nat) (hj : j < NUM_BREAKPOINTS)
    (h : filledTo p.breakpoints j) :
    (p.set_breakpoint a 1).1 = true ∧ filledTo (p.set_breakpoint a 1).2.breakpoints (j + 1) := by
  have hspec := set_breakpoint_add_spec a p.breakpoints NUM_BREAKPOINTS 0 (by omega)
  simp only [set_breakpoint, set_breakpoint_table, if_pos (show (1 : Nat) ≠ 0 by decide)]
  rcases hspec with ⟨i, _, h2, h3, h4, h5⟩ | ⟨h1, _⟩
  · have hij : i = j := by
      have hi2 : i < NUM_BREAKPOINTS := by omega
      have a1 : ¬ i < j := fun hlt => by
        have := (h i hi2).2 hlt
        rw [h4] at this
        exact Bool.noConfusion this
      have a2 : ¬ j < i := fun hlt => by
        have := (h j hj).1 (h3 j (Nat.zero_le _) hlt)
        omega
      omega
    subst hij
    rw [h5]
    refine ⟨rfl, ?_⟩
    intro m hm
    show ((p.breakpoints.set i ⟨a, true⟩).get m).enabled = true ↔ m < i + 1
    rw [BreakpointTable.get_set _ _ _ _ hj]
    by_cases hmi : m = i
    · simp [hmi]
    · rw [if_neg hmi, h m hm]
      omega
  · have := (h j hj).1 (h1 j (Nat.zero_le _) (by omega))
    omega

theorem insert_all_filledTo (as : List Nat) (p : PrettySecureProcessor χ) (j : Nat)
    (hj : j + as.length ≤ NUM_BREAKPOINTS) (h : filledTo p.breakpoints j) :
    (insert_all p as).1 = List.replicate as.length true ∧
      filledTo (insert_all p as).2.breakpoints (j + as.length) := by
  induction as generalizing p j with
  | nil => exact ⟨rfl, h⟩
  | cons a as ih =>
    simp only [List.length_cons] at hj
    have h1 := insert_filledTo p a j (by omega) h
    have h2 := ih (p.set_breakpoint a 1).2 (j + 1) (by omega) h1.2
    simp only [insert_all, List.length_cons, List.replicate_succ]
    refine ⟨by rw [h1.1, h2.1], ?_⟩
    have e : j + (as.length + 1) = j + 1 + as.length := by omega
    rw [e]
    exact h2.2

theorem set_breakpoint_insert_full_iff (q : PrettySecureProcessor χ) (a : Nat) :
    ((q.set_breakpoint a 1).1 = false ↔
        ∀ i, i < NUM_BREAKPOINTS → (q.breakpoints.get i).enabled = true) ∧
    ((q.set_breakpoint a 1).1 = false → (q.set_breakpoint a 1).2 = q) := by
  have hspec := set_breakpoint_add_spec a q.breakpoints NUM_BREAKPOINTS 0 (by omega)
  simp only [set_breakpoint, set_breakpoint_table, if_pos (show (1 : Nat) ≠ 0 by decide)]
  rcases hspec with ⟨i, _, h2, _, h4, h5⟩ | ⟨h1, h2⟩
  · rw [h5]
    refine ⟨⟨fun h => Bool.noConfusion h, fun h => ?_⟩, fun h => Bool.noConfusion h⟩
    have := h i (by omega)
    rw [h4] at this
    exact Bool.noConfusion this
  · rw [h2]
    exact ⟨⟨fun _ i hi => h1 i (Nat.zero_le _) (by omega), fun _ => rfl⟩, fun _ => rfl⟩

/-- C5: `set_breakpoint(a, true)` returns false if and only if all 64 slots are enabled, and
then the processor, its table included, is unchanged; and on the processor the constructor
builds, 64 consecutive inserts (of any addresses) all return true and a 65th returns
false. -/
theorem set_breakpoint_insert_fails_iff_full (p : PrettySecureProcessor χ) (a : Nat) :
    ((p.set_breakpoint a 1).1 = false ↔
        ∀ i, i < NUM_BREAKPOINTS → (p.breakpoints.get i).enabled = true) ∧
    ((p.set_breakpoint a 1).1 = false → (p.set_breakpoint a 1).2 = p) ∧
    (∀ (system_in : Vpsp χ) (k s : Nat) (as : List Nat), as.length = NUM_BREAKPOINTS →
        (insert_all (new system_in k s) as).1 = List.replicate NUM_BREAKPOINTS true ∧
        ((insert_all (new system_in k s) as).2.set_breakpoint a 1).1 = false) := by
  refine ⟨(set_breakpoint_insert_full_iff p a).1, (set_breakpoint_insert_full_iff p a).2, ?_⟩
  intro system_in k s as has
  have h := insert_all_filledTo as (new system_in k s) 0 (by omega) filledTo_empty
  rw [has] at h
  refine ⟨h.1, ?_⟩
  rw [(set_breakpoint_insert_full_iff _ a).1]
  intro i hi
  exact (h.2 i hi).2 (by omega)

/-- C6: when some slot is disabled, `set_breakpoint(a, true)` returns true and changes the
processor in one place only: the lowest-index disabled slot `j`, which becomes enabled with
address `a`; every other slot keeps its flag and its address. -/
theorem set_breakpoint_insert_lowest (p : PrettySecureProcessor χ) (a : Nat)
    (h : ∃ i, i < NUM_BREAKPOINTS ∧ (p.breakpoints.get i).enabled = false) :
    ∃ j, j < NUM_BREAKPOINTS ∧
      (∀ m, m < j → (p.breakpoints.get m).enabled = true) ∧
      (p.breakpoints.get j).enabled = false ∧
      (p.set_breakpoint a 1).1 = true ∧
      (p.set_breakpoint a 1).2 = { p with breakpoints := p.breakpoints.set j ⟨a, true⟩ } ∧
      (p.set_breakpoint a 1).2.breakpoints.get j = ⟨a, true⟩ ∧
      ∀ m, m ≠ j → (p.set_breakpoint a 1).2.breakpoints.get m = p.breakpoints.get m := by
  have hspec := set_breakpoint_add_spec a p.breakpoints NUM_BREAKPOINTS 0 (by omega)
  simp only [set_breakpoint, set_breakpoint_table, if_pos (show (1 : Nat) ≠ 0 by decide)]
  rcases hspec with ⟨j, _, h2, h3, h4, h5⟩ | ⟨h1, _⟩
  · have hj : j < NUM_BREAKPOINTS := by omega
    rw [h5]
    refine ⟨j, hj, fun m hm => h3 m (Nat.zero_le _) hm, h4, rfl, rfl, ?_, ?_⟩
    · show (p.breakpoints.set j ⟨a, true⟩).get j = ⟨a, true⟩
      rw [BreakpointTable.get_set _ _ _ _ hj, if_pos rfl]
    · intro m hm
      show (p.breakpoints.set j ⟨a, true⟩).get m = p.breakpoints.get m
      rw [BreakpointTable.get_set _ _ _ _ hj, if_neg hm]
  · obtain ⟨i, hi, hdis⟩ := h
    have := h1 i (Nat.zero_le _) (by omega)
    rw [hdis] at this
    exact Bool.noConfusion this

/-- C7: `set_breakpoint(a, false)` returns true for every table and address. When some
enabled slot holds `a`, the lowest-index such slot `j` is disabled (the code also zeroes
its address) and every other slot, like the rest of the processor, is unchanged; when no
enabled slot holds `a`, nothing changes. -/
theorem set_breakpoint_remove_first (p : PrettySecureProcessor χ) (a : Nat) :
    (p.set_breakpoint a 0).1 = true ∧
    ((∃ i, i < NUM_BREAKPOINTS ∧ (p.breakpoints.get i).enabled = true ∧
          (p.breakpoints.get i).addr = a) →
      ∃ j, j < NUM_BREAKPOINTS ∧
        (∀ m, m < j → ¬ ((p.breakpoints.get m).enabled = true ∧ (p.breakpoints.get m).addr = a)) ∧
        (p.breakpoints.get j).enabled = true ∧ (p.breakpoints.get j).addr = a ∧
        (p.set_breakpoint a 0).2 = { p with breakpoints := p.breakpoints.set j ⟨0, false⟩ } ∧
        (p.set_breakpoint a 0).2.breakpoints.get j = ⟨0, false⟩ ∧
        ∀ m, m ≠ j → (p.set_breakpoint a 0).2.breakpoints.get m = p.breakpoints.get m) ∧
    ((¬ ∃ i, i < NUM_BREAKPOINTS ∧ (p.breakpoints.get i).enabled = true ∧
          (p.breakpoints.get i).addr = a) →
      (p.set_breakpoint a 0).2 = p) := by
  have hspec := set_breakpoint_remove_spec a p.breakpoints NUM_BREAKPOINTS 0 (by omega)
  simp only [set_breakpoint, set_breakpoint_table, if_neg (show ¬ ((0 : Nat) ≠ 0) by decide)]
  rcases hspec with ⟨j, _, h2, h3, h4, h5, h6⟩ | ⟨h1, h2⟩
  · have hj : j < NUM_BREAKPOINTS := by omega
    rw [h6]
    refine ⟨rfl, fun _ => ⟨j, hj, fun m hm => h3 m (Nat.zero_le _) hm, h4, h5, rfl, ?_, ?_⟩,
      fun hno => absurd ⟨j, hj, h4, h5⟩ hno⟩
    · show (p.breakpoints.set j ⟨0, false⟩).get j = ⟨0, false⟩
      rw [BreakpointTable.get_set _ _ _ _ hj, if_pos rfl]
    · intro m hm
      show (p.breakpoints.set j ⟨0, false⟩).get m = p.breakpoints.get m
      rw [BreakpointTable.get_set _ _ _ _ hj, if_neg hm]
  · rw [h2]
    refine ⟨rfl, fun ⟨i, hi, he, ha⟩ => absurd ⟨he, ha⟩ (h1 i (Nat.zero_le _) (by omega)),
      fun _ => rfl⟩

/-- C5 on the full table, and with the addresses 0..63 inserted from the empty table. -/
theorem set_breakpoint_insert_fails_iff_full_witness :
    (fullPsp.set_breakpoint 0x1000 1).1 = false ∧
    (fullPsp.set_breakpoint 0x1000 1).2 = fullPsp ∧
    (insert_all demoPsp (List.range 64)).1 = List.replicate NUM_BREAKPOINTS true ∧
    ((insert_all demoPsp (List.range 64)).2.set_breakpoint 0x1000 1).1 = false :=
  have hf : (fullPsp.set_breakpoint 0x1000 1).1 = false := by decide
  ⟨hf, (set_breakpoint_insert_fails_iff_full fullPsp 0x1000).2.1 hf,
   (set_breakpoint_insert_fails_iff_full fullPsp 0x1000).2.2 demoSys 0 0 (List.range 64) (by decide)⟩

/-- C6 on the empty table: slot 0 is taken. -/
theorem set_breakpoint_insert_lowest_witness : (∃ i, i < NUM_BREAKPOINTS ∧ (demoPsp.breakpoints.get i).enabled = false) ∧
    ∃ j, j < NUM_BREAKPOINTS ∧
      (∀ m, m < j → (demoPsp.breakpoints.get m).enabled = true) ∧
      (demoPsp.breakpoints.get j).enabled = false ∧
      (demoPsp.set_breakpoint 0x1000 1).1 = true ∧
      (demoPsp.set_breakpoint 0x1000 1).2
        = { demoPsp with breakpoints := demoPsp.breakpoints.set j ⟨0x1000, true⟩ } ∧
      (demoPsp.set_breakpoint 0x1000 1).2.breakpoints.get j = ⟨0x1000, true⟩ ∧
      ∀ m, m ≠ j → (demoPsp.set_breakpoint 0x1000 1).2.breakpoints.get m
        = demoPsp.breakpoints.get m :=
  ⟨⟨0, by decide, by decide⟩,
   set_breakpoint_insert_lowest demoPsp 0x1000 ⟨0, by decide, by decide⟩⟩

/-- C7 on a table whose slot 0 holds `0x1000`, and on the empty table. -/
theorem set_breakpoint_remove_first_witness :
    (∃ i, i < NUM_BREAKPOINTS ∧ (onePsp.breakpoints.get i).enabled = true ∧
        (onePsp.breakpoints.get i).addr = 0x1000) ∧
    (∃ j, j < NUM_BREAKPOINTS ∧
        (∀ m, m < j → ¬ ((onePsp.breakpoints.get m).enabled = true ∧
          (onePsp.breakpoints.get m).addr = 0x1000)) ∧
        (onePsp.breakpoints.get j).enabled = true ∧ (onePsp.breakpoints.get j).addr = 0x1000 ∧
        (onePsp.set_breakpoint 0x1000 0).2
          = { onePsp with breakpoints := onePsp.breakpoints.set j ⟨0, false⟩ } ∧
        (onePsp.set_breakpoint 0x1000 0).2.breakpoints.get j = ⟨0, false⟩ ∧
        ∀ m, m ≠ j → (onePsp.set_breakpoint 0x1000 0).2.breakpoints.get m
          = onePsp.breakpoints.get m) ∧
    (¬ ∃ i, i < NUM_BREAKPOINTS ∧ (demoPsp.breakpoints.get i).enabled = true ∧
        (demoPsp.breakpoints.get i).addr = 0x1000) ∧
    (demoPsp.set_breakpoint 0x1000 0).2 = demoPsp :=
  have h1 : ∃ i, i < NUM_BREAKPOINTS ∧ (onePsp.breakpoints.get i).enabled = true ∧
      (onePsp.breakpoints.get i).addr = 0x1000 := ⟨0, by decide, by decide, by decide⟩
  have h2 : ¬ ∃ i, i < NUM_BREAKPOINTS ∧ (demoPsp.breakpoints.get i).enabled = true ∧
      (demoPsp.breakpoints.get i).addr = 0x1000 := by decide
  ⟨h1, (set_breakpoint_remove_first onePsp 0x1000).2.1 h1, h2,
   (set_breakpoint_remove_first demoPsp 0x1000).2.2 h2⟩

/-! ### Replies and packets -/

theorem reply_with_OK (env : Env χ) (st : GdbServer χ) :
    reply_with env (lit "OK") st = .ret () (send st (bytes "$OK#9a")) := by
  have h := reply_with_short env st (bytes "OK") [] (by decide) (by decide)
  have e : bytes "$OK#9a" = 36 :: bytes "OK" ++ 35 :: fmt_02x ((bytes "OK").sum % 256) := by
    decide
  rw [e, ← h]
  rfl

theorem reply_with_E01 (env : Env χ) (st : GdbServer χ) :
    reply_with env (lit "E 01") st = .ret () (send st (bytes "$E 01#c6")) := by
  have h := reply_with_short env st (bytes "E 01") [] (by decide) (by decide)
  have e : bytes "$E 01#c6" = 36 :: bytes "E 01" ++ 35 :: fmt_02x ((bytes "E 01").sum % 256) := by
    decide
  rw [e, ← h]
  rfl

theorem reply_with_S05 (env : Env χ) (st : GdbServer χ) :
    reply_with env (lit "S05") st = .ret () (send st (bytes "$S05#b8")) := by
  have h := reply_with_short env st (bytes "S05") [] (by decide) (by decide)
  have e : bytes "$S05#b8" = 36 :: bytes "S05" ++ 35 :: fmt_02x ((bytes "S05").sum % 256) := by
    decide
  rw [e, ← h]
  rfl

theorem reply_with_empty (env : Env χ) (st : GdbServer χ) :
    reply_with env (lit "") st = .ret () (send st (bytes "$#00")) := by
  have h := reply_with_short env st (bytes "") [] (by decide) (by decide)
  have e : bytes "$#00" = 36 :: bytes "" ++ 35 :: fmt_02x ((bytes "").sum % 256) := by
    decide
  rw [e, ← h]
  rfl

theorem reply_with_qSupported (env : Env χ) (st : GdbServer χ) :
    reply_with env (lit "swbreak+;hwbreak+") st
      = .ret () (send st (bytes "$swbreak+;hwbreak+#64")) := by
  have h := reply_with_short env st (bytes "swbreak+;hwbreak+") [] (by decide) (by decide)
  have e : bytes "$swbreak+;hwbreak+#64"
      = 36 :: bytes "swbreak+;hwbreak+" ++ 35 ::
          fmt_02x ((bytes "swbreak+;hwbreak+").sum % 256) := by
    decide
  rw [e, ← h]
  rfl

theorem dropWhile_acks (k : Nat) (rest : List Nat) :
    (List.replicate k 43 ++ 36 :: rest).dropWhile (fun c => c == 43) = 36 :: rest := by
  induction k with
  | zero => simp [List.dropWhile_cons]
  | succ k ih => simp [List.replicate_succ, List.dropWhile_cons, ih]

theorem headD_acks (k : Nat) (rest : List Nat) :
    (List.replicate k 43 ++ 36 :: rest).headD 0 ≠ GDB_PACKET_BREAK := by
  cases k with
  | zero => simp [GDB_PACKET_BREAK]
  | succ k => simp [List.replicate_succ, GDB_PACKET_BREAK]

theorem pktbuf_of_cons (c : Nat) (cs : List Nat) :
    pktbuf_of (c :: cs) = c :: (cs ++ List.replicate (PKTBUF_SIZE - (cs.length + 1)) 0) := by
  simp [pktbuf_of]

theorem pktbuf_of_append_cons (xs : List Nat) (c : Nat) (cs : List Nat) :
    pktbuf_of (xs ++ c :: cs)
      = xs ++ c :: (cs ++ List.replicate (PKTBUF_SIZE - (xs.length + (cs.length + 1))) 0) := by
  simp [pktbuf_of]

theorem pktbuf_of_length (pkt : List Nat) : PKTBUF_SIZE ≤ (pktbuf_of pkt).length := by
  simp only [pktbuf_of, List.length_append, List.length_replicate]
  omega

/-- On an input that begins with `$`, `handle_packet` sends the acknowledgment and goes on
with the array behind the `$`. -/
theorem handle_packet_frame (env : Env χ) (fuel : Nat) (rest : List Nat) (st : GdbServer χ) :
    handle_packet env fuel (36 :: rest) st
      = handle_payload env fuel (rest ++ List.replicate (PKTBUF_SIZE - (rest.length + 1)) 0)
          (send st [43, 0]) := by
  unfold handle_packet
  rw [pktbuf_of_cons]
  simp [GDB_PACKET_BREAK, List.dropWhile_cons]

theorem headD_append_zeros (X : List Nat) (n : Nat) :
    (X ++ List.replicate n 0).headD 0 = X.headD 0 := by
  cases X with
  | nil => cases n <;> simp [List.replicate_succ]
  | cons x xs => rfl

theorem cstring_append_zeros (X : List Nat) (n : Nat) :
    cstring (X ++ List.replicate n 0) = cstring X := by
  induction X with
  | nil => cases n <;> simp [cstring, List.replicate_succ, List.takeWhile_cons]
  | cons x xs ih =>
    simp only [cstring] at ih ⊢
    by_cases hx : x = 0
    · simp [List.takeWhile_cons, hx]
    · simp [List.takeWhile_cons, hx, ih]

theorem dropWhile_acks_append_zeros (X : List Nat) (n : Nat) :
    ((X ++ List.replicate n 0).dropWhile (fun c => c == 43)).headD 0
      = (X.dropWhile (fun c => c == 43)).headD 0 := by
  induction X with
  | nil => cases n <;> simp [List.replicate_succ, List.dropWhile_cons]
  | cons x xs ih =>
    by_cases hx : x = 43
    · simpa [List.dropWhile_cons, hx] using ih
    · simp [List.dropWhile_cons, hx]

/-- With `k` characters `+` in front such that `$Z0` ends at byte 2046 of `pktbuf`, the
read of `pkt[3]` in the `Z0` branch is the read of `pktbuf[2048]`. -/
theorem handle_packet_acks_Z0_overread (env : Env χ) (fuel k : Nat) (st : GdbServer χ)
    (hk : k + 4 = PKTBUF_SIZE) :
    handle_packet env fuel (List.replicate k 43 ++ bytes "$Z0") st
      = .undefined (send st [43, 0]) := by
  have e : bytes "$Z0" = 36 :: [90, 48] := by decide
  have hz : PKTBUF_SIZE - ((List.replicate k 43).length + ([90, 48].length + 1)) = 1 := by
    rw [List.length_replicate]
    simp only [List.length_cons, List.length_nil]
    omega
  have hbuf : pktbuf_of (List.replicate k 43 ++ 36 :: [90, 48])
      = List.replicate k 43 ++ 36 :: [90, 48, 0] := by
    rw [pktbuf_of_append_cons, hz]
    rfl
  have hq : (bytes "qSupported").isPrefixOf [90, 48, 0] = false := by decide
  have hZ : (bytes "Z0").isPrefixOf [90, 48, 0] = true := by decide
  rw [e]
  unfold handle_packet
  dsimp only
  rw [hbuf, if_neg (headD_acks k _), dropWhile_acks]
  simp only [List.headD_cons, List.drop_succ_cons, List.drop_zero]
  unfold handle_payload
  rw [hq, hZ]
  simp

theorem handle_packet_Z0_alone (env : Env χ) (fuel : Nat) (st : GdbServer χ) :
    handle_packet env fuel (bytes "$Z0") st = .ret () (send st [43, 0]) := by
  have e : bytes "$Z0" = 36 :: [90, 48] := by decide
  obtain ⟨n, hn⟩ : ∃ n, PKTBUF_SIZE - ([90, 48].length + 1) = n + 2 := ⟨2043, rfl⟩
  rw [e, handle_packet_frame, hn]
  simp [List.replicate_succ, handle_payload, bytes, List.isPrefixOf, scan_field,
    List.dropWhile_cons]

theorem step_loop_ne_undefined (env : Env χ) (fuel : Nat) (p s : PrettySecureProcessor χ) :
    step_loop env fuel p ≠ .undefined s := by
  induction fuel generalizing p with
  | zero =>
    unfold step_loop
    split <;> exact fun h => Outcome.noConfusion h
  | succ n ih =>
    unfold step_loop
    split_ifs
    · exact fun h => Outcome.noConfusion h
    · exact fun h => Outcome.noConfusion h
    · exact fun h => Outcome.noConfusion h
    · exact ih _

theorem step_ne_undefined (env : Env χ) (fuel : Nat) (p s : PrettySecureProcessor χ) :
    step env fuel p ≠ .undefined s := by
  unfold step
  exact step_loop_ne_undefined env fuel _ s

theorem extends_of_last {ρ : Type} (o : Outcome (GdbServer χ) ρ) (st : GdbServer χ)
    (h : o.last = st) : Extends st.sent o :=
  ⟨[], by rw [h, List.append_nil]⟩

theorem extends_same_log {ρ : Type} (o : Outcome (GdbServer χ) ρ) (s1 s2 : List (List Nat))
    (h : Extends s1 o) (e : s1 = s2) : Extends s2 o := e ▸ h

theorem reply_with_extends (env : Env χ) (msg : List Nat) (st : GdbServer χ) :
    Extends st.sent (reply_with env msg st) := by
  unfold reply_with
  split
  · exact extends_of_last _ st rfl
  · dsimp only
    split
    · exact extends_of_last _ st rfl
    · split
      · exact extends_of_last _ st rfl
      · split
        · exact extends_of_last _ st rfl
        · exact ⟨_, rfl⟩

theorem extends_two_replies (env : Env χ) (m1 m2 : List Nat) (st : GdbServer χ) :
    Extends st.sent
      ((reply_with env m1 st).andThen fun _ st2 => reply_with env m2 st2) := by
  obtain ⟨more1, h1⟩ := reply_with_extends env m1 st
  cases h : reply_with env m1 st with
  | ret u st2 =>
    rw [h] at h1
    obtain ⟨more2, h2⟩ := reply_with_extends env m2 st2
    exact ⟨more1 ++ more2, by
      simp only [Outcome.andThen]
      rw [h2]
      simp only [Outcome.last] at h1
      rw [h1, List.append_assoc]⟩
  | exited st2 => rw [h] at h1; exact ⟨more1, h1⟩
  | timeout st2 => rw [h] at h1; exact ⟨more1, h1⟩
  | undefined st2 => rw [h] at h1; exact ⟨more1, h1⟩

theorem handle_payload_extends (env : Env χ) (fuel : Nat) (pkt : List Nat) (st : GdbServer χ) :
    Extends st.sent (handle_payload env fuel pkt st) := by
  unfold handle_payload
  split
  · exact reply_with_extends env _ st
  · split
    · dsimp only
      split
      · exact extends_of_last _ st rfl
      · split
        · exact extends_of_last _ st rfl
        · split
          · exact extends_same_log _ _ _ (extends_two_replies env _ _ _) rfl
          · exact extends_same_log _ _ _ (reply_with_extends env _ _) rfl
    · split
      · dsimp only
        split
        · exact extends_of_last _ st rfl
        · split
          · exact extends_of_last _ st rfl
          · split
            · exact extends_same_log _ _ _ (extends_two_replies env _ _ _) rfl
            · exact extends_same_log _ _ _ (reply_with_extends env _ _) rfl
      · split
        · exact reply_with_extends env _ st
        · split
          · exact extends_same_log _ _ _ (reply_with_extends env _ _) rfl
          · split
            · cases hstep : step env fuel st.sys with
              | ret r p => exact reply_with_extends env (lit "S05") { st with sys := p }
              | exited p => exact extends_of_last _ { st with sys := p } rfl
              | timeout p => exact extends_of_last _ { st with sys := p } rfl
              | undefined p => exact extends_of_last _ { st with sys := p } rfl
            · split
              · exact extends_same_log _ _ _ (reply_with_extends env _ _) rfl
              · split
                · dsimp only
                  split
                  · exact extends_of_last _ st rfl
                  · exact extends_same_log _ _ _ (reply_with_extends env _ _) rfl
                · exact reply_with_extends env _ st

/-- C4, amended: for every input, whether or not it holds a frame and whatever happens
afterwards (a return, the end of the process, undefined behaviour in a later read), the
first thing `handle_packet` sends is the acknowledgment, and it is the two bytes `+` and
NUL handed to one `send`; everything else the call sends, every reply frame included, comes
after it. -/
theorem handle_packet_ack_first (env : Env χ) (fuel : Nat) (pkt : List Nat)
    (st : GdbServer χ) :
    ∃ more, (handle_packet env fuel pkt st).last.sent = st.sent ++ [43, 0] :: more := by
  have key : ∀ o : Outcome (GdbServer χ) Unit, Extends (send st [43, 0]).sent o →
      ∃ more, o.last.sent = st.sent ++ [43, 0] :: more := by
    rintro o ⟨more, h⟩
    exact ⟨more, by rw [h]; simp [send]⟩
  unfold handle_packet
  dsimp only
  split
  · split
    · exact key _ (reply_with_extends env _ _)
    · exact key _ (reply_with_extends env _ _)
  · split
    · exact key _ (extends_of_last _ _ rfl)
    · split
      · exact key _ (extends_of_last _ _ rfl)
      · split
        · exact key _ (extends_of_last _ _ rfl)
        · exact key _ (handle_payload_extends env fuel _ _)

/-- C4 as stated fails on the frame `$?#3f`: the acknowledgment sent first has two bytes,
`+` and NUL, not the single byte `+`. -/
theorem handle_packet_ack_two_bytes :
    ∃ st', handle_packet demoEnv 0 (bytes "$?#3f") demoGdb = .ret () st' ∧
      st'.sent = [[43, 0], bytes "$S05#b8"] ∧ st'.sent.head? ≠ some (bytes "+") := by
  have h : handle_packet demoEnv 0 (bytes "$?#3f") demoGdb
      = reply_with demoEnv (lit "S05") (send demoGdb [43, 0]) := rfl
  rw [h, reply_with_S05]
  exact ⟨_, rfl, rfl, by decide⟩

theorem scan_field_comma (A tail : List Nat) (hA : ∀ c ∈ A, c ≠ 0 ∧ c ≠ 44) :
    scan_field (A ++ 44 :: tail) = (A, 44 :: tail) := by
  induction A with
  | nil => simp [scan_field, List.takeWhile_cons, List.dropWhile_cons]
  | cons c cs ih =>
    have hc := hA c (List.mem_cons_self _ _)
    have ih2 := ih (fun x hx => hA x (List.mem_cons_of_mem _ hx))
    simp only [scan_field, Prod.mk.injEq] at ih2 ⊢
    simp [List.takeWhile_cons, List.dropWhile_cons, hc.1, hc.2, ih2.1, ih2.2]

/-- An insert request on a full table: the error reply is followed by `OK`. -/
theorem handle_packet_Z0_full (env : Env χ) (fuel : Nat) (A tail : List Nat)
    (st : GdbServer χ) (hA : ∀ c ∈ A, c ≠ 0 ∧ c ≠ 44)
    (hfull : ∀ i, i < NUM_BREAKPOINTS → (st.sys.breakpoints.get i).enabled = true) :
    handle_packet env fuel (bytes "$Z0," ++ A ++ 44 :: tail) st
      = .ret () { st with sent := st.sent ++ [[43, 0], bytes "$E 01#c6", bytes "$OK#9a"] } := by
  have hfail : ∀ a, (st.sys.set_breakpoint a 1).1 = false := fun a =>
    (set_breakpoint_insert_full_iff st.sys a).1.2 hfull
  have hsame : ∀ a, (st.sys.set_breakpoint a 1).2 = st.sys := fun a =>
    (set_breakpoint_insert_full_iff st.sys a).2 (hfail a)
  have e : bytes "$Z0," ++ A ++ 44 :: tail = 36 :: 90 :: 48 :: 44 :: (A ++ 44 :: tail) := by
    simp [bytes]
  rw [e, handle_packet_frame]
  generalize List.replicate _ 0 = Z
  have hs := scan_field_comma A (tail ++ Z) hA
  simp [handle_payload, bytes, List.isPrefixOf, hs, hfail, hsame, reply_with_E01,
    reply_with_OK, Outcome.andThen, send]

/-- An insert request on a table with room: the reply is `OK`. -/
theorem handle_packet_Z0_insert (env : Env χ) (fuel : Nat) (A tail : List Nat)
    (st : GdbServer χ) (hA : ∀ c ∈ A, c ≠ 0 ∧ c ≠ 44)
    (hok : (st.sys.set_breakpoint (strtoul16 A % 2 ^ 32) 1).1 = true) :
    handle_packet env fuel (bytes "$Z0," ++ A ++ 44 :: tail) st
      = .ret () { st with
          sys := (st.sys.set_breakpoint (strtoul16 A % 2 ^ 32) 1).2,
          sent := st.sent ++ [[43, 0], bytes "$OK#9a"] } := by
  have e : bytes "$Z0," ++ A ++ 44 :: tail = 36 :: 90 :: 48 :: 44 :: (A ++ 44 :: tail) := by
    simp [bytes]
  have hok2 : (st.sys.set_breakpoint (strtoul16 A % 4294967296) 1).1 = true := hok
  rw [e, handle_packet_frame]
  generalize List.replicate _ 0 = Z
  have hs := scan_field_comma A (tail ++ Z) hA
  simp [handle_payload, bytes, List.isPrefixOf, hs, hok2, reply_with_OK, send]

theorem handle_packet_c (env : Env χ) (fuel : Nat) (rest : List Nat) (st : GdbServer χ) :
    handle_packet env fuel (bytes "$c" ++ rest) st
      = .ret () { st with running_continuously := true,
                          sent := st.sent ++ [[43, 0], bytes "$OK#9a"] } := by
  have e : bytes "$c" ++ rest = 36 :: 99 :: rest := by simp [bytes]
  rw [e, handle_packet_frame]
  simp [handle_payload, bytes, List.isPrefixOf, reply_with_OK, send]

/-- C3 fails on a full table: for the frame `$Z0,1000,4#d7` the stub sends, after the
acknowledgment, two reply frames, `$E 01#c6` and then `$OK#9a`. -/
theorem handle_packet_Z0_full_table :
    handle_packet demoEnv 0 (bytes "$Z0,1000,4#d7") fullGdb
      = .ret () { fullGdb with sent := [[43, 0], bytes "$E 01#c6", bytes "$OK#9a"] } :=
  handle_packet_Z0_full demoEnv 0 (bytes "1000") (bytes "4#d7") fullGdb (by decide) (by decide)

/-! ### Bounded runs -/

theorem stepN_succ_of_step (env : Env χ) (fuel i : Nat) (p p1 : PrettySecureProcessor χ)
    (h : step env fuel p = .ret () p1) : stepN env fuel (i + 1) p = stepN env fuel i p1 := by
  simp only [stepN, h]

theorem quiet_step_zero (env : Env χ) (fuel : Nat) (p : PrettySecureProcessor χ) :
    quiet_step env fuel p 0 ↔
      p.sys.gotFinish = false ∧ ∃ p1, step env fuel p = .ret () p1 ∧ p1.at_breakpoint = false := by
  constructor
  · rintro ⟨r, r', h1, h2, h3, h4⟩
    simp only [stepN, Option.some.injEq] at h1
    subst h1
    exact ⟨h2, r', h3, h4⟩
  · rintro ⟨h2, p1, h3, h4⟩
    exact ⟨p, p1, rfl, h2, h3, h4⟩

theorem quiet_step_succ (env : Env χ) (fuel i : Nat) (p p1 : PrettySecureProcessor χ)
    (h : step env fuel p = .ret () p1) :
    quiet_step env fuel p (i + 1) ↔ quiet_step env fuel p1 i := by
  simp only [quiet_step, stepN_succ_of_step env fuel i p p1 h]

theorem quiet_prefix_succ (env : Env χ) (fuel j : Nat) (p : PrettySecureProcessor χ) :
    (∀ i, i < j + 1 → quiet_step env fuel p i) ↔
      p.sys.gotFinish = false ∧ ∃ p1, step env fuel p = .ret () p1 ∧ p1.at_breakpoint = false ∧
        ∀ i, i < j → quiet_step env fuel p1 i := by
  constructor
  · intro h
    obtain ⟨h2, p1, h3, h4⟩ := (quiet_step_zero env fuel p).1 (h 0 (by omega))
    refine ⟨h2, p1, h3, h4, fun i hi => ?_⟩
    exact (quiet_step_succ env fuel i p p1 h3).1 (h (i + 1) (by omega))
  · rintro ⟨h2, p1, h3, h4, h5⟩ i hi
    cases i with
    | zero => exact (quiet_step_zero env fuel p).2 ⟨h2, p1, h3, h4⟩
    | succ i => exact (quiet_step_succ env fuel i p p1 h3).2 (h5 i (by omega))

theorem quietFor_zero (env : Env χ) (fuel : Nat) (p q : PrettySecureProcessor χ) :
    QuietFor env fuel 0 p q ↔ q = p := by
  simp only [QuietFor, stepN, Option.some.injEq]
  constructor
  · rintro ⟨_, h⟩; exact h.symm
  · intro h; exact ⟨fun i hi => absurd hi (Nat.not_lt_zero i), h.symm⟩

theorem quietFor_succ (env : Env χ) (fuel n : Nat) (p q : PrettySecureProcessor χ) :
    QuietFor env fuel (n + 1) p q ↔
      p.sys.gotFinish = false ∧ ∃ p1, step env fuel p = .ret () p1 ∧ p1.at_breakpoint = false ∧
        QuietFor env fuel n p1 q := by
  simp only [QuietFor, quiet_prefix_succ]
  constructor
  · rintro ⟨⟨h2, p1, h3, h4, h5⟩, h6⟩
    rw [stepN_succ_of_step env fuel n p p1 h3] at h6
    exact ⟨h2, p1, h3, h4, h5, h6⟩
  · rintro ⟨h2, p1, h3, h4, h5, h6⟩
    rw [stepN_succ_of_step env fuel n p p1 h3]
    exact ⟨⟨h2, p1, h3, h4, h5⟩, h6⟩

theorem stopWithin_zero (env : Env χ) (fuel : Nat) (p q : PrettySecureProcessor χ) :
    ¬ StopWithin env fuel 0 p q := by
  rintro ⟨j, hj, _⟩
  exact Nat.not_lt_zero j hj

theorem stopWithin_succ (env : Env χ) (fuel n : Nat) (p q : PrettySecureProcessor χ) :
    StopWithin env fuel (n + 1) p q ↔
      (p.sys.gotFinish = true ∧ q = p) ∨
      (p.sys.gotFinish = false ∧ ∃ p1, step env fuel p = .ret () p1 ∧
        ((p1.at_breakpoint = true ∧ q = p1) ∨
         (p1.at_breakpoint = false ∧ StopWithin env fuel n p1 q))) := by
  constructor
  · rintro ⟨j, hj, hq, r, hr, hfin⟩
    cases j with
    | zero =>
      simp only [stepN, Option.some.injEq] at hr
      subst hr
      rcases hfin with ⟨h1, h2⟩ | ⟨h1, h2, h3⟩
      · exact Or.inl ⟨h1, h2⟩
      · exact Or.inr ⟨h1, q, h2, Or.inl ⟨h3, rfl⟩⟩
    | succ j =>
      obtain ⟨h2, p1, h3, h4, h5⟩ := (quiet_prefix_succ env fuel j p).1 hq
      rw [stepN_succ_of_step env fuel j p p1 h3] at hr
      exact Or.inr ⟨h2, p1, h3, Or.inr ⟨h4, j, by omega, h5, r, hr, hfin⟩⟩
  · rintro (⟨h1, h2⟩ | ⟨h1, p1, h3, ⟨h4, h5⟩ | ⟨h4, j, hj, hq, r, hr, hfin⟩⟩)
    · exact ⟨0, by omega, fun i hi => absurd hi (Nat.not_lt_zero i), p, rfl, Or.inl ⟨h1, h2⟩⟩
    · subst h5
      exact ⟨0, by omega, fun i hi => absurd hi (Nat.not_lt_zero i), p, rfl,
        Or.inr ⟨h1, h3, h4⟩⟩
    · refine ⟨j + 1, by omega, (quiet_prefix_succ env fuel j p).2 ⟨h1, p1, h3, h4, hq⟩, r, ?_,
        hfin⟩
      rw [stepN_succ_of_step env fuel j p p1 h3]
      exact hr

theorem step_iters_loop_finished (env : Env χ) (fuel k : Nat) (remaining : Int)
    (p : PrettySecureProcessor χ) (hfin : p.sys.gotFinish = true) :
    step_iters_loop env fuel k remaining p = .ret true p := by
  cases k with
  | zero => rw [step_iters_loop, if_pos hfin]
  | succ k => rw [step_iters_loop, if_pos hfin]

theorem step_iters_loop_hit (env : Env χ) (fuel k : Nat) (remaining : Int)
    (p p1 : PrettySecureProcessor χ) (hfin : p.sys.gotFinish = false)
    (hstep : step env fuel p = .ret () p1) (hbp : p1.at_breakpoint = true) :
    step_iters_loop env fuel (k + 1) remaining p = .ret true p1 := by
  rw [step_iters_loop, if_neg (by rw [hfin]; decide), hstep]
  simp only [Outcome.andThen]
  rw [if_pos hbp]

theorem step_iters_loop_last (env : Env χ) (fuel k : Nat)
    (p p1 : PrettySecureProcessor χ) (hfin : p.sys.gotFinish = false)
    (hstep : step env fuel p = .ret () p1) (hbp : p1.at_breakpoint = false) :
    step_iters_loop env fuel (k + 1) 1 p = .ret false p1 := by
  rw [step_iters_loop, if_neg (by rw [hfin]; decide), hstep]
  simp only [Outcome.andThen]
  rw [if_neg (by rw [hbp]; decide), if_neg (by decide), if_pos (by decide)]

theorem step_iters_loop_next (env : Env χ) (fuel k n : Nat)
    (p p1 : PrettySecureProcessor χ) (hn : n + 2 < 2 ^ 31) (hfin : p.sys.gotFinish = false)
    (hstep : step env fuel p = .ret () p1) (hbp : p1.at_breakpoint = false) :
    step_iters_loop env fuel (k + 1) ((n + 2 : Nat) : Int) p
      = step_iters_loop env fuel k ((n + 1 : Nat) : Int) p1 := by
  have e3 : ((n + 2 : Nat) : Int) - 1 = ((n + 1 : Nat) : Int) := by omega
  rw [step_iters_loop, if_neg (by rw [hfin]; decide), hstep]
  simp only [Outcome.andThen]
  rw [if_neg (by rw [hbp]; decide), if_neg (by omega), if_neg (by omega), e3]

theorem step_iters_loop_stuck (env : Env χ) (fuel k : Nat) (remaining : Int)
    (p : PrettySecureProcessor χ) (hfin : p.sys.gotFinish = false)
    (hstep : ∀ p1, step env fuel p ≠ .ret () p1) (b : Bool) (q : PrettySecureProcessor χ) :
    step_iters_loop env fuel (k + 1) remaining p ≠ .ret b q := by
  rw [step_iters_loop, if_neg (by rw [hfin]; decide)]
  cases h : step env fuel p with
  | ret u p1 => cases u; exact absurd h (hstep p1)
  | exited p1 => exact fun e => Outcome.noConfusion e
  | timeout p1 => exact fun e => Outcome.noConfusion e
  | undefined => exact fun e => Outcome.noConfusion e

theorem step_iters_loop_spec (env : Env χ) (fuel : Nat) (n : Nat) :
    ∀ (k : Nat) (p : PrettySecureProcessor χ), n + 1 ≤ k → n + 1 < 2 ^ 31 →
      (∀ q, step_iters_loop env fuel k ((n + 1 : Nat) : Int) p = .ret true q ↔
        StopWithin env fuel (n + 1) p q) ∧
      (∀ q, step_iters_loop env fuel k ((n + 1 : Nat) : Int) p = .ret false q ↔
        QuietFor env fuel (n + 1) p q) := by
  induction n with
  | zero =>
    intro k p hk _
    obtain ⟨k', rfl⟩ : ∃ k', k = k' + 1 := ⟨k - 1, by omega⟩
    have e0 : ((0 + 1 : Nat) : Int) = 1 := by omega
    rw [e0]
    by_cases hfin : p.sys.gotFinish = true
    · rw [step_iters_loop_finished env fuel _ _ p hfin]
      constructor
      · intro q
        rw [stopWithin_succ]
        simp [hfin]
        exact eq_comm
      · intro q
        rw [quietFor_succ]
        simp [hfin]
    · have hfin2 : p.sys.gotFinish = false := by simpa using hfin
      by_cases hret : ∃ p1, step env fuel p = .ret () p1
      · obtain ⟨p1, hstep⟩ := hret
        by_cases hbp : p1.at_breakpoint = true
        · rw [step_iters_loop_hit env fuel _ _ p p1 hfin2 hstep hbp]
          constructor
          · intro q
            rw [stopWithin_succ]
            simp [hfin2, hstep, hbp]
            exact eq_comm
          · intro q
            rw [quietFor_succ]
            simp [hfin2, hstep, hbp]
        · have hbp2 : p1.at_breakpoint = false := by simpa using hbp
          rw [step_iters_loop_last env fuel _ p p1 hfin2 hstep hbp2]
          constructor
          · intro q
            rw [stopWithin_succ]
            simp [hfin2, hstep, hbp2, stopWithin_zero]
          · intro q
            rw [quietFor_succ]
            simp [hfin2, hstep, hbp2, quietFor_zero]
            exact eq_comm
      · have hno : ∀ p1, step env fuel p ≠ .ret () p1 := fun p1 h => hret ⟨p1, h⟩
        constructor
        · intro q
          rw [stopWithin_succ]
          simp [hfin2, hno, step_iters_loop_stuck env fuel _ _ p hfin2 hno]
        · intro q
          rw [quietFor_succ]
          simp [hfin2, hno, step_iters_loop_stuck env fuel _ _ p hfin2 hno]
  | succ n ih =>
    intro k p hk hn
    obtain ⟨k', rfl⟩ : ∃ k', k = k' + 1 := ⟨k - 1, by omega⟩
    by_cases hfin : p.sys.gotFinish = true
    · rw [step_iters_loop_finished env fuel _ _ p hfin]
      constructor
      · intro q
        rw [stopWithin_succ]
        simp [hfin]
        exact eq_comm
      · intro q
        rw [quietFor_succ]
        simp [hfin]
    · have hfin2 : p.sys.gotFinish = false := by simpa using hfin
      by_cases hret : ∃ p1, step env fuel p = .ret () p1
      · obtain ⟨p1, hstep⟩ := hret
        by_cases hbp : p1.at_breakpoint = true
        · rw [step_iters_loop_hit env fuel _ _ p p1 hfin2 hstep hbp]
          constructor
          · intro q
            rw [stopWithin_succ]
            simp [hfin2, hstep, hbp]
            exact eq_comm
          · intro q
            rw [quietFor_succ]
            simp [hfin2, hstep, hbp]
        · have hbp2 : p1.at_breakpoint = false := by simpa using hbp
          rw [step_iters_loop_next env fuel k' n p p1 (by omega) hfin2 hstep hbp2]
          have ih2 := ih k' p1 (by omega) (by omega)
          constructor
          · intro q
            rw [stopWithin_succ, ih2.1 q]
            simp [hfin2, hstep, hbp2]
          · intro q
            rw [quietFor_succ, ih2.2 q]
            simp [hfin2, hstep, hbp2]
      · have hno : ∀ p1, step env fuel p ≠ .ret () p1 := fun p1 h => hret ⟨p1, h⟩
        constructor
        · intro q
          rw [stopWithin_succ]
          simp [hfin2, hno, step_iters_loop_stuck env fuel _ _ p hfin2 hno]
        · intro q
          rw [quietFor_succ]
          simp [hfin2, hno, step_iters_loop_stuck env fuel _ _ p hfin2 hno]


theorem toInt32_small (n : Nat) (h : n < 2 ^ 31) : toInt32 n = (n : Int) := by
  have h1 : n % 2 ^ 32 = n := Nat.mod_eq_of_lt (by omega)
  unfold toInt32
  rw [h1, if_pos h]

theorem breakpoint_hit_iff (t : BreakpointTable) (pc k i : Nat) :
    breakpoint_hit t pc i k = true ↔
      ∃ j, i ≤ j ∧ j < i + k ∧ (t.get j).enabled = true ∧ (t.get j).addr = pc := by
  induction k generalizing i with
  | zero =>
    simp only [breakpoint_hit]
    constructor
    · intro h; exact Bool.noConfusion h
    · rintro ⟨j, h1, h2, _⟩; omega
  | succ k ih =>
    unfold breakpoint_hit
    by_cases h : ((t.get i).enabled && pc == (t.get i).addr) = true
    · rw [if_pos h]
      simp only [Bool.and_eq_true, beq_iff_eq] at h
      exact ⟨fun _ => ⟨i, le_refl _, by omega, h.1, h.2.symm⟩, fun _ => rfl⟩
    · rw [if_neg h, ih]
      simp only [Bool.and_eq_true, beq_iff_eq, not_and] at h
      constructor
      · rintro ⟨j, h1, h2, h3, h4⟩
        exact ⟨j, by omega, by omega, h3, h4⟩
      · rintro ⟨j, h1, h2, h3, h4⟩
        have hne : j ≠ i := by
          intro e
          subst e
          exact h h3 h4.symm
        exact ⟨j, by omega, by omega, h3, h4⟩

/-- C2, amended: for every budget `n` with `1 ≤ n < 2 ^ 31` (and fuel for `n` iterations),
`step_iters(n)` returns true in state `q` if and only if, for some `j < n`, the first `j`
steps are quiet and then either the engine is found finished when step `j + 1` is due, or
step `j + 1` returns with the program counter equal to the address of an enabled
breakpoint; it returns false in state `q` if and only if all `n` steps are quiet and lead
to `q`. Completion is looked at only before a step: a completion signalled during the
`n`-th step gives false. The budget 0 is not covered. -/
theorem step_iters_stops (env : Env χ) (fuel n : Nat) (p : PrettySecureProcessor χ)
    (h1 : 1 ≤ n) (h2 : n < 2 ^ 31) (h3 : n ≤ fuel) :
    (∀ q, step_iters env fuel n p = .ret true q ↔ StopWithin env fuel n p q) ∧
    (∀ q, step_iters env fuel n p = .ret false q ↔ QuietFor env fuel n p q) ∧
    (∀ q : PrettySecureProcessor χ, q.at_breakpoint = true ↔
      ∃ j, j < NUM_BREAKPOINTS ∧ (q.breakpoints.get j).enabled = true ∧
        (q.breakpoints.get j).addr = q.get_reg PC_REG) := by
  obtain ⟨m, rfl⟩ : ∃ m, n = m + 1 := ⟨n - 1, by omega⟩
  have h := step_iters_loop_spec env fuel m fuel p h3 h2
  unfold step_iters
  rw [toInt32_small _ h2]
  refine ⟨h.1, h.2, fun q => ?_⟩
  unfold at_breakpoint
  rw [breakpoint_hit_iff]
  constructor
  · rintro ⟨j, _, h5, h6, h7⟩
    exact ⟨j, by omega, h6, h7⟩
  · rintro ⟨j, h5, h6, h7⟩
    exact ⟨j, Nat.zero_le _, by omega, h6, h7⟩

/-- C2 as stated fails. With the budget 1 on an engine that signals completion during its
first step, `step_iters` returns false although completion was signalled within the first
step; and with the budget 0 on an engine that reaches a breakpoint with its first step,
`step_iters` takes that step and returns true. -/
theorem step_iters_claim_fails :
    (∃ q, step_iters finishEnv 1 1 demoPsp = .ret false q ∧
        stepN finishEnv 1 1 demoPsp = some q ∧ q.sys.gotFinish = true) ∧
    (∃ q, step_iters demoEnv 1 0 aheadPsp = .ret true q) :=
  ⟨⟨_, rfl, rfl, rfl⟩, ⟨_, rfl⟩⟩

/-- C2, amended, with the budget 2 on the demo processor. -/
theorem step_iters_stops_witness :
    1 ≤ 2 ∧ 2 < 2 ^ 31 ∧ 2 ≤ 2 ∧
    (∀ q, step_iters demoEnv 2 2 demoPsp = .ret true q ↔ StopWithin demoEnv 2 2 demoPsp q) ∧
    (∀ q, step_iters demoEnv 2 2 demoPsp = .ret false q ↔ QuietFor demoEnv 2 2 demoPsp q) ∧
    (∀ q : PrettySecureProcessor Unit, q.at_breakpoint = true ↔
      ∃ j, j < NUM_BREAKPOINTS ∧ (q.breakpoints.get j).enabled = true ∧
        (q.breakpoints.get j).addr = q.get_reg PC_REG) :=
  ⟨by decide, by decide, by decide,
   step_iters_stops demoEnv 2 2 demoPsp (by decide) (by decide) (by decide)⟩

/-! ### The server loop -/

theorem step_iters_one (env : Env χ) (fuel : Nat) (p p1 : PrettySecureProcessor χ)
    (stopped : Bool) (h : step_iters env fuel 1 p = .ret stopped p1) :
    stopped = true ↔ p.sys.gotFinish = true ∨ p1.at_breakpoint = true := by
  unfold step_iters at h
  have e : toInt32 1 = 1 := by decide
  rw [e] at h
  by_cases hfin : p.sys.gotFinish = true
  · rw [step_iters_loop_finished env fuel _ _ p hfin] at h
    simp only [Outcome.ret.injEq] at h
    simp [← h.1, hfin]
  · have hfin2 : p.sys.gotFinish = false := by simpa using hfin
    cases fuel with
    | zero =>
      rw [step_iters_loop, if_neg hfin] at h
      exact Outcome.noConfusion h
    | succ k =>
      by_cases hret : ∃ p2, step env (k + 1) p = .ret () p2
      · obtain ⟨p2, hstep⟩ := hret
        by_cases hbp : p2.at_breakpoint = true
        · rw [step_iters_loop_hit env (k + 1) _ _ p p2 hfin2 hstep hbp] at h
          simp only [Outcome.ret.injEq] at h
          rw [← h.1, ← h.2]
          simp [hbp]
        · have hbp2 : p2.at_breakpoint = false := by simpa using hbp
          rw [step_iters_loop_last env (k + 1) _ p p2 hfin2 hstep hbp2] at h
          simp only [Outcome.ret.injEq] at h
          rw [← h.1, ← h.2]
          simp [hbp2, hfin2]
      · exact absurd h (step_iters_loop_stuck env (k + 1) _ _ p hfin2
          (fun p2 e => hret ⟨p2, e⟩) stopped p1)

/-- C9, amended: in continuous mode, for an iteration of the server loop whose step burst
returns, the burst reports a stop exactly when the engine was already finished or the step
leaves the program counter on the address of an enabled breakpoint, and the run flag is
cleared by the burst in exactly those iterations. The unsolicited frame `$S05#b8` is sent
exactly when a stop is reported and the poll finds no data. When data is pending, the
iteration sends only what `handle_packet` sends for that data, started from the state with
the flag already cleared; when the read fails, nothing is sent. -/
theorem gdb_server_iteration_stop_notice (env : Env χ) (fuel : Nat) (st : GdbServer χ)
    (stopped : Bool) (p1 : PrettySecureProcessor χ) (received : List Nat)
    (hrun : st.running_continuously = true)
    (hstep : st.sys.step_iters env fuel GDB_CONTINUE_NUM_STEPS = .ret stopped p1)
    (hlen : received.length < PKTBUF_SIZE) :
    (stopped = true ↔ st.sys.sys.gotFinish = true ∨
      ∃ j, j < NUM_BREAKPOINTS ∧ (p1.breakpoints.get j).enabled = true ∧
        (p1.breakpoints.get j).addr = p1.get_reg PC_REG) ∧
    gdb_server_iteration env fuel .nothing st
      = .ret .again
          { st with sys := p1, running_continuously := !stopped,
                    sent := if stopped then st.sent ++ [bytes "$S05#b8"] else st.sent } ∧
    gdb_server_iteration env fuel (.data received) st
      = (handle_packet env fuel (received ++ List.replicate (PKTBUF_SIZE - received.length) 0)
          { st with sys := p1, running_continuously := !stopped }).andThen
          (fun _ st2 => .ret .again st2) ∧
    gdb_server_iteration env fuel .readError st
      = .ret .disconnected { st with sys := p1, running_continuously := !stopped } := by
  have htake : received.take PKTBUF_SIZE = received := List.take_of_length_le (by omega)
  have hbp : p1.at_breakpoint = true ↔
      ∃ j, j < NUM_BREAKPOINTS ∧ (p1.breakpoints.get j).enabled = true ∧
        (p1.breakpoints.get j).addr = p1.get_reg PC_REG := by
    unfold at_breakpoint
    rw [breakpoint_hit_iff]
    constructor
    · rintro ⟨j, _, h5, h6, h7⟩
      exact ⟨j, by omega, h6, h7⟩
    · rintro ⟨j, h5, h6, h7⟩
      exact ⟨j, Nat.zero_le _, by omega, h6, h7⟩
  refine ⟨?_, ?_, ?_, ?_⟩
  · rw [← hbp]
    exact step_iters_one env fuel st.sys p1 stopped hstep
  · unfold gdb_server_iteration
    rw [if_pos hrun, hstep]
    cases stopped with
    | true => simp [liftSys, Outcome.andThen, reply_with_S05, send]
    | false => simp [liftSys, Outcome.andThen, hrun]
  · unfold gdb_server_iteration
    rw [if_pos hrun, hstep]
    cases stopped with
    | true => simp [liftSys, Outcome.andThen, htake, Nat.ne_of_lt hlen]
    | false => simp [liftSys, Outcome.andThen, htake, Nat.ne_of_lt hlen, hrun]
  · unfold gdb_server_iteration
    rw [if_pos hrun, hstep]
    cases stopped with
    | true => simp [liftSys, Outcome.andThen]
    | false => simp [liftSys, Outcome.andThen, hrun]

/-- C9 as stated fails. After `$Z0,ffc,4#45` and `$c#63`, an iteration that finds the byte
`+` pending steps the engine onto the breakpoint at `0x0ffc` and clears the run flag, but
sends only the acknowledgment: no `$S05#b8` frame. And in continuous mode around an engine
that has finished, an iteration without pending data sends `$S05#b8` and clears the run
flag although the program counter, `0x0ff8`, is not on the breakpoint. -/
theorem stop_notice_lost :
    handle_packet demoEnv 1 (bytes "$Z0,ffc,4#45") demoGdb = .ret () afterInsertGdb ∧
    handle_packet demoEnv 1 (bytes "$c#63") afterInsertGdb = .ret () runningGdb ∧
    (∃ st', gdb_server_iteration demoEnv 1 (.data (bytes "+")) runningGdb = .ret .again st' ∧
      st'.sys.get_reg PC_REG = 0x0ffc ∧ st'.running_continuously = false ∧
      st'.sent = runningGdb.sent ++ [[43, 0]]) ∧
    (∃ st', gdb_server_iteration demoEnv 1 .nothing finishedGdb = .ret .again st' ∧
      st'.sys.get_reg PC_REG = 0x0ff8 ∧ st'.running_continuously = false ∧
      st'.sent = finishedGdb.sent ++ [bytes "$S05#b8"]) := by
  refine ⟨?_, ?_, ?_, ?_⟩
  · have h := handle_packet_Z0_insert demoEnv 1 (bytes "ffc") (bytes "4#45") demoGdb
      (by decide) (by decide)
    have e : bytes "$Z0,ffc,4#45" = bytes "$Z0," ++ bytes "ffc" ++ 44 :: bytes "4#45" := by
      decide
    rw [e, h]
    rfl
  · have h := handle_packet_c demoEnv 1 (bytes "#63") afterInsertGdb
    have e : bytes "$c#63" = bytes "$c" ++ bytes "#63" := by decide
    rw [e, h]
    rfl
  · exact ⟨_, rfl, rfl, rfl, rfl⟩
  · have h : gdb_server_iteration demoEnv 1 .nothing finishedGdb
        = (reply_with demoEnv (lit "S05")
            { finishedGdb with running_continuously := false }).andThen
            (fun _ st2 => .ret .again st2) := rfl
    rw [h, reply_with_S05]
    exact ⟨_, rfl, rfl, rfl, rfl⟩

/-- C9, amended, on the stub in continuous mode with the breakpoint one step ahead. -/
theorem gdb_server_iteration_stop_notice_witness :
    runningGdb.running_continuously = true ∧
    runningGdb.sys.step_iters demoEnv 1 GDB_CONTINUE_NUM_STEPS = .ret true stoppedPsp ∧
    (bytes "+").length < PKTBUF_SIZE ∧
    (true = true ↔ runningGdb.sys.sys.gotFinish = true ∨
      ∃ j, j < NUM_BREAKPOINTS ∧ (stoppedPsp.breakpoints.get j).enabled = true ∧
        (stoppedPsp.breakpoints.get j).addr = stoppedPsp.get_reg PC_REG) ∧
    gdb_server_iteration demoEnv 1 .nothing runningGdb
      = .ret .again
          { runningGdb with sys := stoppedPsp, running_continuously := !true,
                            sent := if true then runningGdb.sent ++ [bytes "$S05#b8"]
                                    else runningGdb.sent } :=
  have h := gdb_server_iteration_stop_notice demoEnv 1 runningGdb true stoppedPsp (bytes "+")
    rfl rfl (by decide)
  ⟨rfl, rfl, by decide, h.1, h.2.1⟩

/-! ### Memory reads -/

theorem hex_dump_length (p : PrettySecureProcessor χ) (addr k i : Nat) :
    (hex_dump p addr i k).length = 2 * k := by
  induction k generalizing i with
  | zero => rfl
  | succ k ih => simp only [hex_dump, List.length_append, ih, fmt_02x, List.length_cons,
      List.length_nil]; omega

theorem hex_dump_ne_zero (p : PrettySecureProcessor χ) (addr k i : Nat) :
    ∀ c ∈ hex_dump p addr i k, c ≠ 0 := by
  induction k generalizing i with
  | zero => intro c hc; simp [hex_dump] at hc
  | succ k ih =>
    intro c hc
    simp only [hex_dump, fmt_02x, List.mem_append, List.mem_cons, List.not_mem_nil,
      or_false] at hc
    rcases hc with (h | h) | h
    · rw [h]; exact hexDigit_ne_zero _
    · rw [h]; exact hexDigit_ne_zero _
    · exact ih _ c h

theorem snprintf_02x (buf : List Nat) (off size v : Nat) (hsize : 3 ≤ size) :
    snprintf buf off size (fmt_02x v)
      = buf.take off ++ (fmt_02x v ++ [0]) ++ buf.drop (off + 3) := by
  have h1 : (fmt_02x v).take (size - 1) = fmt_02x v := by
    apply List.take_of_length_le
    simp only [fmt_02x, List.length_cons, List.length_nil]
    omega
  simp only [snprintf, writeAt]
  rw [if_neg (by omega), h1]
  simp [fmt_02x]

theorem read_mem_buf_printable_loop_spec (p : PrettySecureProcessor χ) (addr : Nat) (k : Nat) :
    ∀ (i off : Nat) (buf : List Nat), off + 2 * (k + 1) + 1 ≤ buf.length →
      read_mem_buf_printable_loop p addr buf off (buf.length - off) i (k + 1)
        = buf.take off ++ hex_dump p addr i (k + 1) ++ [0]
            ++ buf.drop (off + 2 * (k + 1) + 1) := by
  induction k with
  | zero =>
    intro i off buf h
    rw [read_mem_buf_printable_loop]
    rw [if_neg (by omega), read_mem_buf_printable_loop,
      snprintf_02x buf off _ _ (by omega)]
    simp [hex_dump]
  | succ k ih =>
    intro i off buf h
    rw [read_mem_buf_printable_loop]
    rw [if_neg (by omega), snprintf_02x buf off _ _ (by omega)]
    generalize hv : fmt_02x (p.read_mem_byte ((addr + i) % 2 ^ 32)) = F
    have hF : F.length = 2 := by rw [← hv]; rfl
    have hA : (buf.take off).length = off := by
      rw [List.length_take]; omega
    have hlen1 : (buf.take off ++ (F ++ [0]) ++ buf.drop (off + 3)).length = buf.length := by
      simp only [List.length_append, hA, hF, List.length_drop, List.length_cons,
        List.length_nil]
      omega
    have ih2 := ih (i + 1) (off + 2) (buf.take off ++ (F ++ [0]) ++ buf.drop (off + 3))
      (by rw [hlen1]; omega)
    rw [hlen1] at ih2
    have e : buf.length - off - 2 = buf.length - (off + 2) := by omega
    rw [e, ih2]
    have t1 : (buf.take off ++ (F ++ [0]) ++ buf.drop (off + 3)).take (off + 2)
        = buf.take off ++ F := by
      have : buf.take off ++ (F ++ [0]) ++ buf.drop (off + 3)
          = (buf.take off ++ F) ++ ([0] ++ buf.drop (off + 3)) := by simp
      rw [this]
      apply List.take_left'
      simp [hA, hF]
    have t2 : (buf.take off ++ (F ++ [0]) ++ buf.drop (off + 3)).drop
          (off + 2 + 2 * (k + 1) + 1)
        = buf.drop (off + 2 * (k + 1 + 1) + 1) := by
      have h3 : (buf.take off ++ (F ++ [0])).length = off + 3 := by simp [hA, hF]
      have e2 : off + 2 + 2 * (k + 1) + 1 = (buf.take off ++ (F ++ [0])).length + (2 * k + 2) := by
        rw [h3]; omega
      rw [e2, List.drop_append, List.drop_drop]
      congr 1
      omega
    rw [t1, t2]
    conv_rhs => rw [hex_dump, hv]
    simp

theorem hexval_isSome_range (c : Nat) (h : (hexval c).isSome = true) :
    (48 ≤ c ∧ c ≤ 57) ∨ (97 ≤ c ∧ c ≤ 102) ∨ (65 ≤ c ∧ c ≤ 70) := by
  unfold hexval at h
  split_ifs at h with h1 h2 h3
  · exact Or.inl h1
  · exact Or.inr (Or.inl h2)
  · exact Or.inr (Or.inr h3)
  · exact Bool.noConfusion h

theorem hexval_lt (c d : Nat) (h : hexval c = some d) : d < 16 := by
  unfold hexval at h
  split_ifs at h with h1 h2 h3 <;> simp only [Option.some.injEq] at h <;> omega

theorem strtoul_digits_append (ds t : List Nat) (acc : Nat)
    (hds : ∀ c ∈ ds, (hexval c).isSome = true) (ht : hexval (t.headD 0) = none) :
    strtoul_digits (ds ++ t) acc
      = ds.foldl (fun a c => a * 16 + (hexval c).getD 0) acc := by
  induction ds generalizing acc with
  | nil =>
    cases t with
    | nil => rfl
    | cons x xs =>
      simp only [List.headD_cons] at ht
      simp [strtoul_digits, ht]
  | cons c cs ih =>
    have hc := hds c (List.mem_cons_self _ _)
    obtain ⟨d, hd⟩ := Option.isSome_iff_exists.1 hc
    simp only [List.cons_append, strtoul_digits, hd, List.foldl_cons, Option.getD_some]
    exact ih _ (fun x hx => hds x (List.mem_cons_of_mem _ hx))

theorem foldl_hex_lt (ds : List Nat) (acc : Nat) :
    ds.foldl (fun a c => a * 16 + (hexval c).getD 0) acc < (acc + 1) * 16 ^ ds.length := by
  induction ds generalizing acc with
  | nil => simp
  | cons c cs ih =>
    simp only [List.foldl_cons, List.length_cons]
    have hd : (hexval c).getD 0 < 16 := by
      cases h : hexval c with
      | none => simp
      | some d => simpa using hexval_lt c d h
    calc cs.foldl (fun a c => a * 16 + (hexval c).getD 0) (acc * 16 + (hexval c).getD 0)
        < (acc * 16 + (hexval c).getD 0 + 1) * 16 ^ cs.length := ih _
      _ ≤ ((acc + 1) * 16) * 16 ^ cs.length := Nat.mul_le_mul_right _ (by omega)
      _ = (acc + 1) * 16 ^ (cs.length + 1) := by rw [Nat.pow_succ]; ring

theorem hex_value_lt (ds : List Nat) (h : ds.length ≤ 8) : hex_value ds < 2 ^ 32 := by
  have h1 := foldl_hex_lt ds 0
  have h2 : 16 ^ ds.length ≤ 16 ^ 8 := Nat.pow_le_pow_right (by decide) h
  unfold hex_value
  have e : (16 : Nat) ^ 8 = 2 ^ 32 := by norm_num
  omega

theorem strtoul16_hex (ds t : List Nat) (hds : IsHex32 ds)
    (ht : hexval (t.headD 0) = none ∧ t.headD 0 ≠ 120 ∧ t.headD 0 ≠ 88) :
    strtoul16 (ds ++ t) = hex_value ds := by
  obtain ⟨hne, hlen, hall⟩ := hds
  obtain ⟨c, cs, rfl⟩ : ∃ c cs, ds = c :: cs := by
    cases ds with
    | nil => exact absurd rfl hne
    | cons c cs => exact ⟨c, cs, rfl⟩
  have hc := hexval_isSome_range c (hall c (List.mem_cons_self _ _))
  have hsp : isspace c = false := by
    unfold isspace
    rcases hc with h | h | h <;> simp <;> omega
  have hval := strtoul_digits_append (c :: cs) t 0 hall ht.1
  have hlt := hex_value_lt (c :: cs) hlen
  unfold hex_value at hlt
  have hm : (some c == some 45) = false := by
    rcases hc with h | h | h <;> simp <;> omega
  have hp : (some c == some 43) = false := by
    rcases hc with h | h | h <;> simp <;> omega
  have h3 : skip_0x (c :: (cs ++ t)) = c :: (cs ++ t) := by
    unfold skip_0x
    split
    · rename_i x t' heq
      have hx : ¬ ((x == 120 || x == 88) = true) := by
        intro hx
        simp only [Bool.or_eq_true, beq_iff_eq] at hx
        cases cs with
        | nil =>
          simp only [List.nil_append, List.cons.injEq] at heq
          have : t.headD 0 = x := by rw [heq.2]; rfl
          rcases hx with h | h
          · exact ht.2.1 (by rw [this, h])
          · exact ht.2.2 (by rw [this, h])
        | cons y ys =>
          simp only [List.cons_append, List.cons.injEq] at heq
          have hy := hexval_isSome_range y (hall y (by simp))
          rw [heq.2.1] at hy
          omega
      rw [if_neg hx]
    · rfl
  unfold strtoul16
  simp only [List.cons_append, List.dropWhile_cons, hsp, Bool.false_eq_true, if_false,
    List.head?_cons, hm, hp, Bool.or_self, h3]
  simp only [List.cons_append] at hval
  rw [hval]
  unfold hex_value
  rw [if_neg (by simp only [ULONG_MAX]; omega)]

theorem cstring_hex_append (ds t : List Nat) (hds : ∀ c ∈ ds, (hexval c).isSome = true) :
    cstring (ds ++ t) = ds ++ cstring t := by
  induction ds with
  | nil => rfl
  | cons c cs ih =>
    have hc := hexval_isSome_range c (hds c (List.mem_cons_self _ _))
    have hc0 : c ≠ 0 := by omega
    have ih2 := ih (fun x hx => hds x (List.mem_cons_of_mem _ hx))
    simp only [cstring] at ih2 ⊢
    simp [List.takeWhile_cons, hc0, ih2]

theorem cstring_headD (t : List Nat)
    (ht : hexval (t.headD 0) = none ∧ t.headD 0 ≠ 120 ∧ t.headD 0 ≠ 88) :
    hexval ((cstring t).headD 0) = none ∧ (cstring t).headD 0 ≠ 120 ∧
      (cstring t).headD 0 ≠ 88 := by
  cases t with
  | nil => exact ⟨rfl, by decide, by decide⟩
  | cons x xs =>
    by_cases hx : x = 0
    · subst hx
      have : cstring (0 :: xs) = [] := by simp [cstring]
      rw [this]
      exact ⟨rfl, by decide, by decide⟩
    · have : cstring (x :: xs) = x :: cstring xs := by
        simp [cstring, List.takeWhile_cons, hx]
      rw [this]
      exact ht

theorem isPrefixOf_append_zeros (pat : List Nat) (hpat : ∀ x ∈ pat, x ≠ 0) :
    ∀ (P : List Nat) (n : Nat), pat.isPrefixOf (P ++ List.replicate n 0) = pat.isPrefixOf P := by
  induction pat with
  | nil => intro P n; simp [List.isPrefixOf]
  | cons a as ih =>
    intro P n
    have ha : a ≠ 0 := hpat a (List.mem_cons_self _ _)
    cases P with
    | nil =>
      cases n with
      | zero => rfl
      | succ n => simp [List.replicate_succ, List.isPrefixOf, ha]
    | cons b bs =>
      show ((a == b) && as.isPrefixOf (bs ++ List.replicate n 0))
        = ((a == b) && as.isPrefixOf bs)
      rw [ih (fun x hx => hpat x (List.mem_cons_of_mem _ hx))]

/-- A well-formed memory read: the dump is written to `model_buf` and the reply is built
from it. -/
theorem handle_packet_m_read (env : Env χ) (fuel : Nat) (st : GdbServer χ)
    (ha hl tail : List Nat) (hha : IsHex32 ha) (hhl : IsHex32 hl)
    (htail : hexval (tail.headD 0) = none ∧ tail.headD 0 ≠ 120 ∧ tail.headD 0 ≠ 88) :
    handle_packet env fuel (bytes "$m" ++ ha ++ 44 :: (hl ++ tail)) st
      = reply_with env
          (read_mem_buf_printable st.sys st.model_buf MODEL_BUF_SIZE (hex_value ha)
            (hex_value hl))
          { send st [43, 0] with
            model_buf := read_mem_buf_printable st.sys st.model_buf MODEL_BUF_SIZE
              (hex_value ha) (hex_value hl) } := by
  have e : bytes "$m" ++ ha ++ 44 :: (hl ++ tail) = 36 :: 109 :: (ha ++ 44 :: (hl ++ tail)) := by
    simp [bytes]
  rw [e, handle_packet_frame]
  generalize PKTBUF_SIZE - _ = n
  have e2 : (109 :: (ha ++ 44 :: (hl ++ tail))) ++ List.replicate n 0
      = 109 :: (ha ++ 44 :: (hl ++ (tail ++ List.replicate n 0))) := by simp
  rw [e2]
  have htail2 : hexval ((tail ++ List.replicate n 0).headD 0) = none ∧
      (tail ++ List.replicate n 0).headD 0 ≠ 120 ∧
      (tail ++ List.replicate n 0).headD 0 ≠ 88 := by
    rw [headD_append_zeros]
    exact htail
  generalize tail ++ List.replicate n 0 = tail2 at htail2 ⊢
  have hA : strtoul16 ha % 4294967296 = hex_value ha := by
    have h := strtoul16_hex ha [] hha ⟨rfl, by decide, by decide⟩
    rw [List.append_nil] at h
    rw [h]
    exact Nat.mod_eq_of_lt (hex_value_lt ha hha.2.1)
  have hL : strtoul16 (cstring (hl ++ tail2)) % 4294967296 = hex_value hl := by
    rw [cstring_hex_append hl tail2 hhl.2.2,
      strtoul16_hex hl _ hhl (cstring_headD tail2 htail2)]
    exact Nat.mod_eq_of_lt (hex_value_lt hl hhl.2.1)
  have hscan : scan_field (ha ++ 44 :: (hl ++ tail2)) = (ha, 44 :: (hl ++ tail2)) := by
    apply scan_field_comma
    intro c hc
    have := hexval_isSome_range c (hha.2.2 c hc)
    omega
  simp only [handle_payload, bytes, List.headD_cons, List.drop_succ_cons, List.drop_zero,
    hscan]
  simp [List.isPrefixOf, hscan, hA, hL]
  rfl

/-- A memory read of 1 to 1021 bytes is answered with the dump of these bytes. -/
theorem handle_packet_m_dump (env : Env χ) (fuel : Nat) (st : GdbServer χ)
    (ha hl tail : List Nat) (hha : IsHex32 ha) (hhl : IsHex32 hl)
    (htail : hexval (tail.headD 0) = none ∧ tail.headD 0 ≠ 120 ∧ tail.headD 0 ≠ 88)
    (hL1 : 1 ≤ hex_value hl) (hL1021 : hex_value hl ≤ 1021)
    (hbuf : st.model_buf.length = MODEL_BUF_SIZE) :
    ∃ buf, handle_packet env fuel (bytes "$m" ++ ha ++ 44 :: (hl ++ tail)) st
      = .ret () { st with
          model_buf := buf,
          sent := st.sent ++ [[43, 0],
            bytes "$" ++ hex_dump st.sys (hex_value ha) 0 (hex_value hl) ++ bytes "#" ++
              fmt_02x ((hex_dump st.sys (hex_value ha) 0 (hex_value hl)).sum % 256)] } := by
  have h2048 : MODEL_BUF_SIZE = 2048 := rfl
  obtain ⟨k, hk⟩ : ∃ k, hex_value hl = k + 1 := ⟨hex_value hl - 1, by omega⟩
  have hloop := read_mem_buf_printable_loop_spec st.sys (hex_value ha) k 0 0 st.model_buf
    (by rw [hbuf, h2048]; omega)
  have hread : read_mem_buf_printable st.sys st.model_buf MODEL_BUF_SIZE (hex_value ha)
        (hex_value hl)
      = hex_dump st.sys (hex_value ha) 0 (hex_value hl) ++
          0 :: st.model_buf.drop (0 + 2 * (k + 1) + 1) := by
    unfold read_mem_buf_printable
    rw [hk, ← hbuf]
    simpa using hloop
  have hreply := reply_with_short env
    { send st [43, 0] with
      model_buf := read_mem_buf_printable st.sys st.model_buf MODEL_BUF_SIZE (hex_value ha)
        (hex_value hl) }
    (hex_dump st.sys (hex_value ha) 0 (hex_value hl))
    (st.model_buf.drop (0 + 2 * (k + 1) + 1))
    (hex_dump_ne_zero _ _ _ _) (by rw [hex_dump_length]; omega)
  rw [← hread] at hreply
  refine ⟨read_mem_buf_printable st.sys st.model_buf MODEL_BUF_SIZE (hex_value ha)
    (hex_value hl), ?_⟩
  rw [handle_packet_m_read env fuel st ha hl tail hha hhl htail, hreply]
  simp [send, bytes]

/-- The read of 4 bytes at the unaligned address `0x1001` on the demo processor. -/
theorem handle_packet_m_dump_example :
    ∃ buf, handle_packet demoEnv 0 (bytes "$m1001,4#67") demoGdb
      = .ret () { demoGdb with
          model_buf := buf, sent := [[43, 0], bytes "$37221145#99"] } := by
  have h := handle_packet_m_dump demoEnv 0 demoGdb (bytes "1001") (bytes "4") (bytes "#67")
    ⟨by decide, by decide, by decide⟩ ⟨by decide, by decide, by decide⟩ (by decide)
    (by decide) (by decide) (List.length_replicate _ _)
  exact h

set_option maxRecDepth 100000 in
/-- C10 fails for the length 0 after an earlier command has used `model_buf`: handling
`$g#67` and then `$m1000,0#8a` from program start sends the same 268-byte frame twice, the
register dump; the reply to the read of 0 bytes is not the frame with an empty payload. -/
theorem read_zero_bytes_stale :
    ∃ frame, frame.length = 268 ∧
      sent_log ((handle_packet demoEnv 0 (bytes "$g#67") demoGdb).andThen fun _ s =>
        handle_packet demoEnv 0 (bytes "$m1000,0#8a") s)
        = some [[43, 0], frame, [43, 0], frame] :=
  ⟨bytes "$0000000004030201080604020c090603100c0804140f0a0518120c061c150e0720181008241b1209281e140a2c21160b3024180c34271a0d382a1c0e3c2d1e0f4030201044332211483624124c392613503c2814543f2a1558422c165c452e1760483018644b3219684e341a6c51361b7054381c74573a1d785a3c1e7c5d3e1ff80f0000#26",
   by decide, by decide⟩

/-! ### The register dump -/

theorem and_mask_shift (v s : Nat) : v &&& (255 <<< s) = ((v >>> s) % 256) <<< s := by
  have h256 : (v >>> s) % 256 = (v >>> s) &&& 255 :=
    (Nat.and_pow_two_sub_one_eq_mod (v >>> s) 8).symm
  rw [h256]
  apply Nat.eq_of_testBit_eq
  intro j
  simp only [Nat.testBit_and, Nat.testBit_shiftLeft, Nat.testBit_shiftRight]
  by_cases h : s ≤ j
  · have e : s + (j - s) = j := by omega
    simp [h, e]
  · simp [h]

theorem to_little_endian_eq (v : Nat) :
    to_little_endian v
      = (v % 256) * 2 ^ 24 + (v / 2 ^ 8 % 256) * 2 ^ 16 + (v / 2 ^ 16 % 256) * 2 ^ 8
          + v / 2 ^ 24 % 256 := by
  unfold to_little_endian
  have m0 := and_mask_shift v 0
  have m1 := and_mask_shift v 8
  have m2 := and_mask_shift v 16
  have m3 := and_mask_shift v 24
  simp only [Nat.shiftRight_eq_div_pow, Nat.shiftLeft_eq] at m0 m1 m2 m3 ⊢
  simp only [Nat.pow_zero, Nat.mul_one, Nat.div_one] at m0 m1 m2 m3 ⊢
  rw [m0, m1, m2, m3]
  have hb0 : v % 256 < 256 := Nat.mod_lt _ (by decide)
  have hb1 : v / 2 ^ 8 % 256 < 256 := Nat.mod_lt _ (by decide)
  have hb2 : v / 2 ^ 16 % 256 < 256 := Nat.mod_lt _ (by decide)
  have hb3 : v / 2 ^ 24 % 256 < 256 := Nat.mod_lt _ (by decide)
  generalize v % 256 = b0 at *
  generalize v / 2 ^ 8 % 256 = b1 at *
  generalize v / 2 ^ 16 % 256 = b2 at *
  generalize v / 2 ^ 24 % 256 = b3 at *
  have t1 : b0 * 2 ^ 24 % 2 ^ 32 = b0 * 2 ^ 24 := Nat.mod_eq_of_lt (by omega)
  have t2 : b1 * 2 ^ 8 * 2 ^ 8 % 2 ^ 32 = b1 * 2 ^ 16 := by omega
  have t3 : b2 * 2 ^ 16 / 2 ^ 8 = b2 * 2 ^ 8 := by omega
  have t4 : b3 * 2 ^ 24 / 2 ^ 24 = b3 := by omega
  rw [t1, t2, t3, t4]
  have o1 : b0 * 2 ^ 24 ||| b1 * 2 ^ 16 = 2 ^ 24 * b0 + b1 * 2 ^ 16 := by
    rw [Nat.mul_add_lt_is_or (show b1 * 2 ^ 16 < 2 ^ 24 by omega) b0, Nat.mul_comm]
  have e1 : 2 ^ 24 * b0 + b1 * 2 ^ 16 = 2 ^ 16 * (b0 * 2 ^ 8 + b1) := by omega
  have o2 : 2 ^ 16 * (b0 * 2 ^ 8 + b1) ||| b2 * 2 ^ 8
      = 2 ^ 16 * (b0 * 2 ^ 8 + b1) + b2 * 2 ^ 8 :=
    (Nat.mul_add_lt_is_or (show b2 * 2 ^ 8 < 2 ^ 16 by omega) _).symm
  have e2 : 2 ^ 16 * (b0 * 2 ^ 8 + b1) + b2 * 2 ^ 8
      = 2 ^ 8 * (b0 * 2 ^ 16 + b1 * 2 ^ 8 + b2) := by omega
  have o3 : 2 ^ 8 * (b0 * 2 ^ 16 + b1 * 2 ^ 8 + b2) ||| b3
      = 2 ^ 8 * (b0 * 2 ^ 16 + b1 * 2 ^ 8 + b2) + b3 :=
    (Nat.mul_add_lt_is_or (show b3 < 2 ^ 8 by omega) _).symm
  rw [o1, e1, o2, e2, o3]
  omega

theorem fmt_08x_to_little_endian (v : Nat) :
    fmt_08x (to_little_endian v) = le_hex v := by
  unfold le_hex
  rw [to_little_endian_eq v]
  have hb0 : v % 256 < 256 := Nat.mod_lt _ (by decide)
  have hb1 : v / 2 ^ 8 % 256 < 256 := Nat.mod_lt _ (by decide)
  have hb2 : v / 2 ^ 16 % 256 < 256 := Nat.mod_lt _ (by decide)
  have hb3 : v / 2 ^ 24 % 256 < 256 := Nat.mod_lt _ (by decide)
  generalize v % 256 = b0 at *
  generalize v / 2 ^ 8 % 256 = b1 at *
  generalize v / 2 ^ 16 % 256 = b2 at *
  generalize v / 2 ^ 24 % 256 = b3 at *
  simp only [fmt_08x, fmt_02x, List.cons_append, List.nil_append, List.cons.injEq, and_true]
  refine ⟨?_, ?_, ?_, ?_, ?_, ?_, ?_, ?_⟩ <;> congr 1 <;> omega

theorem le_hex_length (v : Nat) : (le_hex v).length = 8 := rfl

theorem reg_dump_length (p : PrettySecureProcessor χ) (k i : Nat) :
    (reg_dump p i k).length = 8 * k := by
  induction k generalizing i with
  | zero => rfl
  | succ k ih =>
    simp only [reg_dump, List.length_append, ih, le_hex_length]
    omega

theorem reg_dump_ne_zero (p : PrettySecureProcessor χ) (k i : Nat) :
    ∀ c ∈ reg_dump p i k, c ≠ 0 := by
  induction k generalizing i with
  | zero => intro c hc; simp [reg_dump] at hc
  | succ k ih =>
    intro c hc
    simp only [reg_dump, le_hex, fmt_02x, List.mem_append, List.mem_cons, List.not_mem_nil,
      or_false] at hc
    rcases hc with ((((h | h) | (h | h)) | (h | h)) | (h | h)) | h
    all_goals first | exact ih _ c h | (rw [h]; exact hexDigit_ne_zero _)

theorem reg_dump_group (p : PrettySecureProcessor χ) (k : Nat) :
    ∀ i j, i < k → ((reg_dump p j k).drop (8 * i)).take 8 = le_hex (p.get_reg (j + i)) := by
  induction k with
  | zero => intro i j h; omega
  | succ k ih =>
    intro i j h
    cases i with
    | zero =>
      simp only [reg_dump, Nat.mul_zero, List.drop_zero, Nat.add_zero]
      exact List.take_left' (le_hex_length _)
    | succ i =>
      have e : 8 * (i + 1) = (le_hex (p.get_reg j)).length + 8 * i := by
        rw [le_hex_length]; omega
      rw [reg_dump, e, List.drop_append, ih i (j + 1) (by omega)]
      congr 2
      omega

theorem snprintf_08x (buf : List Nat) (off size v : Nat) (hsize : 9 ≤ size) :
    snprintf buf off size (fmt_08x v)
      = buf.take off ++ (fmt_08x v ++ [0]) ++ buf.drop (off + 9) := by
  have h1 : (fmt_08x v).take (size - 1) = fmt_08x v := by
    apply List.take_of_length_le
    simp only [fmt_08x, List.length_cons, List.length_nil]
    omega
  simp only [snprintf, writeAt]
  rw [if_neg (by omega), h1]
  simp [fmt_08x]

theorem get_regs_loop_spec (p : PrettySecureProcessor χ) (k : Nat) :
    ∀ (i off : Nat) (buf : List Nat), off + 8 * (k + 1) + 1 ≤ buf.length →
      get_regs_loop p buf off (buf.length - off) i (k + 1)
        = buf.take off ++ reg_dump p i (k + 1) ++ [0]
            ++ buf.drop (off + 8 * (k + 1) + 1) := by
  induction k with
  | zero =>
    intro i off buf h
    rw [get_regs_loop]
    rw [if_neg (by omega), get_regs_loop, snprintf_08x buf off _ _ (by omega),
      fmt_08x_to_little_endian]
    simp [reg_dump]
  | succ k ih =>
    intro i off buf h
    rw [get_regs_loop]
    rw [if_neg (by omega), snprintf_08x buf off _ _ (by omega), fmt_08x_to_little_endian]
    generalize hv : le_hex (p.get_reg i) = F
    have hF : F.length = 8 := by rw [← hv]; rfl
    have hA : (buf.take off).length = off := by
      rw [List.length_take]; omega
    have hlen1 : (buf.take off ++ (F ++ [0]) ++ buf.drop (off + 9)).length = buf.length := by
      simp only [List.length_append, hA, hF, List.length_drop, List.length_cons,
        List.length_nil]
      omega
    have ih2 := ih (i + 1) (off + 8) (buf.take off ++ (F ++ [0]) ++ buf.drop (off + 9))
      (by rw [hlen1]; omega)
    rw [hlen1] at ih2
    have e : buf.length - off - 8 = buf.length - (off + 8) := by omega
    rw [e, ih2]
    have t1 : (buf.take off ++ (F ++ [0]) ++ buf.drop (off + 9)).take (off + 8)
        = buf.take off ++ F := by
      have : buf.take off ++ (F ++ [0]) ++ buf.drop (off + 9)
          = (buf.take off ++ F) ++ ([0] ++ buf.drop (off + 9)) := by simp
      rw [this]
      apply List.take_left'
      simp [hA, hF]
    have t2 : (buf.take off ++ (F ++ [0]) ++ buf.drop (off + 9)).drop
          (off + 8 + 8 * (k + 1) + 1)
        = buf.drop (off + 8 * (k + 1 + 1) + 1) := by
      have h3 : (buf.take off ++ (F ++ [0])).length = off + 9 := by simp [hA, hF]
      have e2 : off + 8 + 8 * (k + 1) + 1 = (buf.take off ++ (F ++ [0])).length + (8 * k + 8) := by
        rw [h3]; omega
      rw [e2, List.drop_append, List.drop_drop]
      congr 1
      omega
    rw [t1, t2]
    conv_rhs => rw [reg_dump, hv]
    simp

theorem handle_packet_g_frame (env : Env χ) (fuel : Nat) (st : GdbServer χ)
    (rest : List Nat) (hbuf : st.model_buf.length = MODEL_BUF_SIZE) :
    ∃ buf, handle_packet env fuel (bytes "$g" ++ rest) st
      = .ret () { st with
          model_buf := buf,
          sent := st.sent ++ [[43, 0],
            bytes "$" ++ reg_dump st.sys 0 NUM_REGS ++ bytes "#" ++
              fmt_02x ((reg_dump st.sys 0 NUM_REGS).sum % 256)] } := by
  have h2048 : MODEL_BUF_SIZE = 2048 := rfl
  have h33 : NUM_REGS = 32 + 1 := rfl
  have hloop := get_regs_loop_spec st.sys 32 0 0 st.model_buf (by rw [hbuf, h2048]; omega)
  have hread : get_regs st.sys st.model_buf MODEL_BUF_SIZE
      = reg_dump st.sys 0 NUM_REGS ++ 0 :: st.model_buf.drop (0 + 8 * (32 + 1) + 1) := by
    unfold get_regs
    rw [h33, ← hbuf]
    simpa using hloop
  have hreply := reply_with_short env
    { send st [43, 0] with model_buf := get_regs st.sys st.model_buf MODEL_BUF_SIZE }
    (reg_dump st.sys 0 NUM_REGS) (st.model_buf.drop (0 + 8 * (32 + 1) + 1))
    (reg_dump_ne_zero _ _ _) (by rw [reg_dump_length, h33]; omega)
  rw [← hread] at hreply
  have e : bytes "$g" ++ rest = 36 :: 103 :: rest := by simp [bytes]
  refine ⟨get_regs st.sys st.model_buf MODEL_BUF_SIZE, ?_⟩
  rw [e, handle_packet_frame]
  simp only [List.cons_append, handle_payload, bytes, List.headD_cons]
  simp only [List.isPrefixOf, send, List.append_assoc, List.cons_append, List.nil_append]
    at hreply ⊢
  simp [hreply]

/-- C11: for every engine state, the reply to payload `g` is one frame, sent after the
acknowledgement; its payload `reg_dump` has exactly 264 characters, and characters
`8i .. 8i+7` are the four bytes of register `i`, least significant byte first, each byte
as two lowercase hexadecimal digits, where register `i < 32` is the general register `i`
and register 32 is the program counter. -/
theorem handle_packet_g_reply (env : Env χ) (fuel : Nat) (st : GdbServer χ)
    (rest : List Nat) (hbuf : st.model_buf.length = MODEL_BUF_SIZE) :
    (∃ buf, handle_packet env fuel (bytes "$g" ++ rest) st
      = .ret () { st with
          model_buf := buf,
          sent := st.sent ++ [[43, 0],
            bytes "$" ++ reg_dump st.sys 0 NUM_REGS ++ bytes "#" ++
              fmt_02x ((reg_dump st.sys 0 NUM_REGS).sum % 256)] }) ∧
    (reg_dump st.sys 0 NUM_REGS).length = 264 ∧
    (∀ i, i < NUM_REGS →
      ((reg_dump st.sys 0 NUM_REGS).drop (8 * i)).take 8
        = [hexDigit (st.sys.get_reg i % 256 / 16), hexDigit (st.sys.get_reg i % 256 % 16),
           hexDigit (st.sys.get_reg i / 2 ^ 8 % 256 / 16),
           hexDigit (st.sys.get_reg i / 2 ^ 8 % 256 % 16),
           hexDigit (st.sys.get_reg i / 2 ^ 16 % 256 / 16),
           hexDigit (st.sys.get_reg i / 2 ^ 16 % 256 % 16),
           hexDigit (st.sys.get_reg i / 2 ^ 24 % 256 / 16),
           hexDigit (st.sys.get_reg i / 2 ^ 24 % 256 % 16)]) ∧
    (∀ i, i < 32 → st.sys.get_reg i = st.sys.sys.regs i % 2 ^ 32) ∧
    st.sys.get_reg 32 = st.sys.sys.pc_out % 2 ^ 32 := by
  refine ⟨handle_packet_g_frame env fuel st rest hbuf, reg_dump_length _ _ _, ?_, ?_, ?_⟩
  · intro i hi
    have h := reg_dump_group st.sys NUM_REGS i 0 hi
    rw [Nat.zero_add] at h
    rw [h]
    rfl
  · intro i hi
    have hne : i ≠ PC_REG := by
      have h32 : PC_REG = 32 := rfl
      omega
    simp [get_reg, hne]
  · have h32 : PC_REG = 32 := rfl
    simp [get_reg, h32]

/-- C11, witness: the register dump of the demo processor. -/
theorem handle_packet_g_reply_witness :
    demoGdb.model_buf.length = MODEL_BUF_SIZE ∧
    (reg_dump demoGdb.sys 0 NUM_REGS).length = 264 ∧
    ((reg_dump demoGdb.sys 0 NUM_REGS).drop (8 * 1)).take 8 = bytes "04030201" ∧
    ((reg_dump demoGdb.sys 0 NUM_REGS).drop (8 * 32)).take 8 = bytes "f80f0000" :=
  ⟨List.length_replicate _ _,
   (handle_packet_g_reply demoEnv 0 demoGdb (bytes "#67") (List.length_replicate _ _)).2.1,
   by decide, by decide⟩

/-! ### Payloads `c`, `qSupported`, `z0`, and input that is dropped -/

/-- C20: for a frame with payload `c`, whatever follows the `c` and whatever the state of
the stub, `handle_packet` returns; it has set `running_continuously`, has sent the
acknowledgment and then the one frame `$OK#9a`, and the processor (engine state and
breakpoint table) and every other field are the same as before: no step was taken. -/
theorem handle_packet_continue (env : Env χ) (fuel : Nat) (rest : List Nat)
    (st : GdbServer χ) :
    ∃ st', handle_packet env fuel (bytes "$c" ++ rest) st = .ret () st' ∧
      st'.running_continuously = true ∧
      st'.sent = st.sent ++ [[43, 0], bytes "$OK#9a"] ∧
      st'.sys = st.sys ∧ st'.sys.sys = st.sys.sys ∧
      st'.sys.breakpoints = st.sys.breakpoints ∧ st'.model_buf = st.model_buf :=
  ⟨_, handle_packet_c env fuel rest st, rfl, rfl, rfl, rfl, rfl, rfl⟩

theorem handle_packet_qSupported_sent (env : Env χ) (fuel : Nat) (rest : List Nat)
    (st : GdbServer χ) :
    handle_packet env fuel (bytes "$qSupported" ++ rest) st
      = .ret () { st with
          sent := st.sent ++ [[43, 0], bytes "$swbreak+;hwbreak+#64"] } := by
  have e : bytes "$qSupported" ++ rest
      = 36 :: 113 :: 83 :: 117 :: 112 :: 112 :: 111 :: 114 :: 116 :: 101 :: 100 :: rest := by
    simp [bytes]
  rw [e, handle_packet_frame]
  simp [handle_payload, bytes, List.isPrefixOf, reply_with_qSupported, send]

/-- C16, amended: for a frame whose payload begins with `qSupported`, `handle_packet`
sends, in order, the two bytes `+` and NUL of the acknowledgment and then the frame
`$swbreak+;hwbreak+#64`, and nothing else; the run flag, the processor (engine state and
breakpoint table) and every other field are unchanged. -/
theorem handle_packet_qSupported (env : Env χ) (fuel : Nat) (rest : List Nat)
    (st : GdbServer χ) :
    ∃ st', handle_packet env fuel (bytes "$qSupported" ++ rest) st = .ret () st' ∧
      st'.sent = st.sent ++ [[43, 0], bytes "$swbreak+;hwbreak+#64"] ∧
      st'.running_continuously = st.running_continuously ∧
      st'.sys = st.sys ∧ st'.sys.sys = st.sys.sys ∧
      st'.sys.breakpoints = st.sys.breakpoints ∧ st'.model_buf = st.model_buf :=
  ⟨_, handle_packet_qSupported_sent env fuel rest st, rfl, rfl, rfl, rfl, rfl, rfl⟩

/-- C16 as stated fails on the frame `$qSupported#37` at program start: the bytes sent
are `+`, NUL and then the frame, which is not `+` followed by the frame. -/
theorem handle_packet_qSupported_bytes :
    ∃ st', handle_packet demoEnv 0 (bytes "$qSupported#37") demoGdb = .ret () st' ∧
      st'.sent = [[43, 0], bytes "$swbreak+;hwbreak+#64"] ∧
      st'.sent.flatten = 43 :: 0 :: bytes "$swbreak+;hwbreak+#64" ∧
      st'.sent.flatten ≠ bytes "+" ++ bytes "$swbreak+;hwbreak+#64" := by
  have h := handle_packet_qSupported_sent demoEnv 0 (bytes "#37") demoGdb
  exact ⟨_, h, rfl, rfl, by decide⟩

theorem set_breakpoint_remove_true (p : PrettySecureProcessor χ) (a : Nat) :
    (p.set_breakpoint a 0).1 = true := by
  have hspec := set_breakpoint_remove_spec a p.breakpoints NUM_BREAKPOINTS 0 (by omega)
  simp only [set_breakpoint, set_breakpoint_table, if_neg (show ¬ ((0 : Nat) ≠ 0) by decide)]
  rcases hspec with ⟨j, _, _, _, _, _, h6⟩ | ⟨_, h2⟩
  · rw [h6]
  · rw [h2]

/-- C12: for a frame with payload `z0,<addr>,<kind>`, where the address field `A` holds
neither a NUL nor a comma, and for every state of the breakpoint table, `handle_packet`
returns having sent the acknowledgment and then the one frame `$OK#9a`, and nothing else
(so never `E 01`); the processor is the one `set_breakpoint(addr, false)` leaves, and the
run flag is unchanged. -/
theorem handle_packet_z0_reply (env : Env χ) (fuel : Nat) (A tail : List Nat)
    (st : GdbServer χ) (hA : ∀ c ∈ A, c ≠ 0 ∧ c ≠ 44) :
    handle_packet env fuel (bytes "$z0," ++ A ++ 44 :: tail) st
      = .ret () { st with
          sys := (st.sys.set_breakpoint (strtoul16 A % 2 ^ 32) 0).2,
          sent := st.sent ++ [[43, 0], bytes "$OK#9a"] } := by
  have htrue : ∀ a, (st.sys.set_breakpoint a 0).1 = true := set_breakpoint_remove_true st.sys
  have e : bytes "$z0," ++ A ++ 44 :: tail = 36 :: 122 :: 48 :: 44 :: (A ++ 44 :: tail) := by
    simp [bytes]
  rw [e, handle_packet_frame]
  generalize List.replicate _ 0 = Z
  have hs := scan_field_comma A (tail ++ Z) hA
  simp [handle_payload, bytes, List.isPrefixOf, hs, htrue, reply_with_OK, send]

/-- C12, witness: the frame `$z0,1000,4#f7` at program start, when no breakpoint is set. -/
theorem handle_packet_z0_reply_witness :
    (∀ c ∈ bytes "1000", c ≠ 0 ∧ c ≠ 44) ∧
    sent_log (handle_packet demoEnv 0 (bytes "$z0," ++ bytes "1000" ++ 44 :: bytes "4#f7")
      demoGdb) = some [[43, 0], bytes "$OK#9a"] := by
  have hA : ∀ c ∈ bytes "1000", c ≠ 0 ∧ c ≠ 44 := by decide
  refine ⟨hA, ?_⟩
  rw [handle_packet_z0_reply demoEnv 0 (bytes "1000") (bytes "4#f7") demoGdb hA]
  rfl

theorem handle_packet_dropped (env : Env χ) (fuel : Nat) (pkt : List Nat)
    (st : GdbServer χ) (hbreak : pkt.headD 0 ≠ GDB_PACKET_BREAK)
    (hhead : (pkt.dropWhile (fun c => c == 43)).headD 0 ≠ 36) :
    handle_packet env fuel pkt st = .ret () { st with sent := st.sent ++ [[43, 0]] } := by
  unfold handle_packet
  dsimp only
  have h1 : (pktbuf_of pkt).headD 0 = pkt.headD 0 := headD_append_zeros pkt _
  have h2 : ((pktbuf_of pkt).dropWhile (fun c => c == 43)).headD 0
      = (pkt.dropWhile (fun c => c == 43)).headD 0 := dropWhile_acks_append_zeros pkt _
  rw [h1, h2, if_neg hbreak]
  simp only [send]
  split_ifs <;> rfl

/-- C14, amended: for every input whose first byte is not the break byte `0x03` and that,
once its leading `+` characters are removed, is empty or begins with a character other than
`$` (a `-` or any other one), `handle_packet` returns having sent the acknowledgment only:
no reply frame; the breakpoint table, the run flag and the engine state are unchanged. -/
theorem handle_packet_not_a_frame (env : Env χ) (fuel : Nat) (pkt : List Nat)
    (st : GdbServer χ) (hbreak : pkt.headD 0 ≠ GDB_PACKET_BREAK)
    (hhead : (pkt.dropWhile (fun c => c == 43)).headD 0 ≠ 36) :
    ∃ st', handle_packet env fuel pkt st = .ret () st' ∧
      st'.sent = st.sent ++ [[43, 0]] ∧
      st'.running_continuously = st.running_continuously ∧
      st'.sys = st.sys ∧ st'.sys.sys = st.sys.sys ∧
      st'.sys.breakpoints = st.sys.breakpoints :=
  ⟨_, handle_packet_dropped env fuel pkt st hbreak hhead, rfl, rfl, rfl, rfl, rfl⟩

/-- C14, witness: the input `++-` received in continuous mode. -/
theorem handle_packet_not_a_frame_witness :
    (bytes "++-").headD 0 ≠ GDB_PACKET_BREAK ∧
    ((bytes "++-").dropWhile (fun c => c == 43)).headD 0 ≠ 36 ∧
    ∃ st', handle_packet demoEnv 0 (bytes "++-") runningGdb = .ret () st' ∧
      st'.sent = runningGdb.sent ++ [[43, 0]] ∧
      st'.running_continuously = runningGdb.running_continuously ∧
      st'.sys = runningGdb.sys ∧ st'.sys.sys = runningGdb.sys.sys ∧
      st'.sys.breakpoints = runningGdb.sys.breakpoints :=
  ⟨by decide, by decide,
   handle_packet_not_a_frame demoEnv 0 (bytes "++-") runningGdb (by decide) (by decide)⟩

/-- C14 as stated fails on the one-byte input `0x03` received in continuous mode: with
its leading `+` characters removed (there is none) it begins with a character that is not
`$`, yet the frame `$S05#b8` is sent and the run flag is cleared. -/
theorem handle_packet_break_answered :
    ([3].dropWhile (fun c => c == 43)).headD 0 ≠ 36 ∧
    ([3].dropWhile (fun c => c == 43)).headD 0 ≠ 0 ∧
    runningGdb.running_continuously = true ∧
    ∃ st', handle_packet demoEnv 0 [3] runningGdb = .ret () st' ∧
      st'.sent = runningGdb.sent ++ [[43, 0], bytes "$S05#b8"] ∧
      st'.running_continuously = false := by
  have h : handle_packet demoEnv 0 [3] runningGdb
      = reply_with demoEnv (lit "S05")
          { send runningGdb [43, 0] with running_continuously := false } := rfl
  rw [h, reply_with_S05]
  exact ⟨by decide, by decide, rfl, _, rfl, rfl, rfl⟩

theorem scan_field_no_comma (mem : List Nat) (h : ∀ c ∈ cstring mem, c ≠ 44) :
    (scan_field mem).2.headD 0 = 0 := by
  induction mem with
  | nil => rfl
  | cons c cs ih =>
    by_cases hc : c = 0
    · subst hc
      simp [scan_field, List.dropWhile_cons]
    · have hmem : cstring (c :: cs) = c :: cstring cs := by
        simp [cstring, List.takeWhile_cons, hc]
      rw [hmem] at h
      have hc2 : c ≠ 44 := h c (List.mem_cons_self _ _)
      have ih2 := ih (fun x hx => h x (List.mem_cons_of_mem _ hx))
      simp only [scan_field] at ih2 ⊢
      simpa [List.dropWhile_cons, hc, hc2] using ih2

/-- A string of 2043 to 2046 characters is not sent. -/
theorem reply_with_too_big (env : Env χ) (st : GdbServer χ) (P rest : List Nat)
    (hP : ∀ c ∈ P, c ≠ 0) (h1 : 2043 ≤ P.length) (h2 : P.length ≤ 2046) :
    reply_with env (P ++ 0 :: rest) st = .ret () st := by
  obtain ⟨m, hm⟩ : ∃ m, 2047 - P.length = m + 1 := ⟨2046 - P.length, by omega⟩
  have hall : (P ++ 0 :: rest).all (fun c => c != 0) = false := by simp
  have hcopy : strncpy (P ++ 0 :: rest) (FORMATTED_BUF_SIZE - 1)
      = P ++ 0 :: List.replicate m 0 := by
    have h1 : P.take 2047 = P := List.take_of_length_le (by omega)
    simp only [strncpy, cstring_append_nul P rest hP, FORMATTED_BUF_SIZE]
    rw [h1, hm]
    rfl
  have hP1 : ∀ c ∈ 36 :: P, c ≠ 0 := by
    intro c hc
    rcases List.mem_cons.1 hc with h | h
    · omega
    · exact hP c h
  have hlen1 : strlen (36 :: (P ++ 0 :: List.replicate m 0)) = some (P.length + 1) := by
    have := strlen_append_nul (36 :: P) (List.replicate m 0) hP1
    simpa using this
  unfold reply_with
  rw [if_neg (by rw [hall]; decide), hcopy]
  dsimp only
  rw [hlen1]
  dsimp only
  rw [if_pos (by simp only [FORMATTED_BUF_SIZE]; omega)]

/-- From 2047 characters on, `strncpy` fills `formatted_buf` without storing a NUL, and
`strlen(formatted_buf)` reads past the end of the array. -/
theorem reply_with_overrun (env : Env χ) (st : GdbServer χ) (P rest : List Nat)
    (hP : ∀ c ∈ P, c ≠ 0) (h1 : 2047 ≤ P.length) :
    reply_with env (P ++ 0 :: rest) st = .undefined st := by
  have hall : (P ++ 0 :: rest).all (fun c => c != 0) = false := by simp
  have hlen : (P.take 2047).length = 2047 := by
    rw [List.length_take]; omega
  have hcopy : strncpy (P ++ 0 :: rest) (FORMATTED_BUF_SIZE - 1) = P.take 2047 := by
    simp only [strncpy, cstring_append_nul P rest hP, FORMATTED_BUF_SIZE]
    rw [hlen]
    simp
  have hnone : strlen (36 :: P.take 2047) = none := by
    unfold strlen
    rw [if_pos]
    simp only [List.all_cons, List.all_eq_true, Bool.and_eq_true]
    refine ⟨by decide, fun c hc => ?_⟩
    have := hP c (List.mem_of_mem_take hc)
    simpa using this
  unfold reply_with
  rw [if_neg (by rw [hall]; decide), hcopy]
  dsimp only
  rw [hnone]

/-- With two bytes of the buffer left, the dump loop stores the first digit of the next
byte and a NUL, and nothing after that. -/
theorem read_mem_buf_printable_loop_last (p : PrettySecureProcessor χ) (addr i off r : Nat)
    (buf : List Nat) (h : buf.length = off + 2) :
    read_mem_buf_printable_loop p addr buf off 2 i (r + 1)
      = buf.take off ++ [hexDigit (p.read_mem_byte ((addr + i) % 2 ^ 32) / 16), 0] := by
  have hd : buf.drop (off + 2) = [] := List.drop_of_length_le (by omega)
  rw [read_mem_buf_printable_loop]
  rw [if_neg (by omega)]
  cases r with
  | zero =>
    rw [read_mem_buf_printable_loop]
    simp [snprintf, writeAt, fmt_02x, hd]
  | succ r =>
    rw [read_mem_buf_printable_loop]
    simp [snprintf, writeAt, fmt_02x, hd]

/-- When more bytes are asked for than the buffer has room for, the dump loop fills the
buffer: the digits of the bytes that fit, the first digit of the next byte, and a NUL. -/
theorem read_mem_buf_printable_loop_fill (p : PrettySecureProcessor χ) (addr r : Nat)
    (k : Nat) :
    ∀ (i off : Nat) (buf : List Nat), buf.length = off + 2 * k + 2 →
      read_mem_buf_printable_loop p addr buf off (2 * k + 2) i (k + (r + 1))
        = buf.take off ++ hex_dump p addr i k
            ++ [hexDigit (p.read_mem_byte ((addr + (i + k)) % 2 ^ 32) / 16), 0] := by
  induction k with
  | zero =>
    intro i off buf h
    have := read_mem_buf_printable_loop_last p addr i off r buf (by omega)
    simpa [hex_dump] using this
  | succ k ih =>
    intro i off buf h
    have e1 : k + 1 + (r + 1) = (k + (r + 1)) + 1 := by omega
    rw [e1, read_mem_buf_printable_loop]
    rw [if_neg (by omega), snprintf_02x buf off _ _ (by omega)]
    generalize hv : fmt_02x (p.read_mem_byte ((addr + i) % 2 ^ 32)) = F
    have hF : F.length = 2 := by rw [← hv]; rfl
    have hA : (buf.take off).length = off := by
      rw [List.length_take]; omega
    have hlen1 : (buf.take off ++ (F ++ [0]) ++ buf.drop (off + 3)).length = buf.length := by
      simp only [List.length_append, hA, hF, List.length_drop, List.length_cons,
        List.length_nil]
      omega
    have e2 : 2 * (k + 1) + 2 - 2 = 2 * k + 2 := by omega
    rw [e2, ih (i + 1) (off + 2) _ (by rw [hlen1]; omega)]
    have t1 : (buf.take off ++ (F ++ [0]) ++ buf.drop (off + 3)).take (off + 2)
        = buf.take off ++ F := by
      have : buf.take off ++ (F ++ [0]) ++ buf.drop (off + 3)
          = (buf.take off ++ F) ++ ([0] ++ buf.drop (off + 3)) := by simp
      rw [this]
      apply List.take_left'
      simp [hA, hF]
    rw [t1]
    have e3 : addr + (i + 1 + k) = addr + (i + (k + 1)) := by omega
    conv_rhs => rw [hex_dump, hv]
    rw [e3]
    simp

/-- A memory read of 1024 bytes or more fills `model_buf` with 2047 digits and a NUL; the
reply built from it overruns `formatted_buf`. -/
theorem handle_packet_m_overrun (env : Env χ) (fuel : Nat) (st : GdbServer χ)
    (ha hl tail : List Nat) (hha : IsHex32 ha) (hhl : IsHex32 hl)
    (htail : hexval (tail.headD 0) = none ∧ tail.headD 0 ≠ 120 ∧ tail.headD 0 ≠ 88)
    (hL : 1024 ≤ hex_value hl) (hbuf : st.model_buf.length = MODEL_BUF_SIZE) :
    ∃ buf, handle_packet env fuel (bytes "$m" ++ ha ++ 44 :: (hl ++ tail)) st
      = .undefined { send st [43, 0] with model_buf := buf } := by
  obtain ⟨k, hk⟩ : ∃ k : Nat, k = 1023 := ⟨_, rfl⟩
  have hsz : MODEL_BUF_SIZE = 2 * k + 2 := by rw [hk]; rfl
  obtain ⟨r, hr⟩ : ∃ r, hex_value hl = k + (r + 1) := ⟨hex_value hl - 1024, by omega⟩
  have hloop := read_mem_buf_printable_loop_fill st.sys (hex_value ha) r k 0 0
    st.model_buf (by rw [hbuf, hsz]; omega)
  generalize hd : hexDigit (st.sys.read_mem_byte ((hex_value ha + (0 + k)) % 2 ^ 32) / 16)
    = d at hloop
  have hd0 : d ≠ 0 := by rw [← hd]; exact hexDigit_ne_zero _
  have hread : read_mem_buf_printable st.sys st.model_buf MODEL_BUF_SIZE (hex_value ha)
        (hex_value hl)
      = (hex_dump st.sys (hex_value ha) 0 k ++ [d]) ++ 0 :: [] := by
    unfold read_mem_buf_printable
    rw [hr, hsz, hloop]
    simp
  have hreply := reply_with_overrun env
    { send st [43, 0] with
      model_buf := read_mem_buf_printable st.sys st.model_buf MODEL_BUF_SIZE (hex_value ha)
        (hex_value hl) }
    (hex_dump st.sys (hex_value ha) 0 k ++ [d]) []
    (by
      intro c hc
      rcases List.mem_append.1 hc with h | h
      · exact hex_dump_ne_zero _ _ _ _ c h
      · rw [List.mem_singleton.1 h]; exact hd0)
    (by rw [List.length_append, hex_dump_length, List.length_singleton]; omega)
  rw [← hread] at hreply
  refine ⟨read_mem_buf_printable st.sys st.model_buf MODEL_BUF_SIZE (hex_value ha)
    (hex_value hl), ?_⟩
  rw [handle_packet_m_read env fuel st ha hl tail hha hhl htail, hreply]

/-- C15 fails for a payload of 2047 characters, whose frame of 2047 + 4 bytes is longer
than the frame buffer: the code does not get as far as the size check, because `strncpy` has
filled `formatted_buf` without a NUL and `strlen` reads past the end of the array. The
stub makes this call for the frame `$m0,400#5d`, a read of `0x400` bytes, after it has sent
the acknowledgment. -/
theorem reply_with_unterminated :
    (List.replicate 2047 65).length = 2047 ∧
    reply_with demoEnv (List.replicate 2047 65 ++ 0 :: []) demoGdb = .undefined demoGdb ∧
    ∃ buf, handle_packet demoEnv 0 (bytes "$m0,400#5d") demoGdb
      = .undefined { send demoGdb [43, 0] with model_buf := buf } := by
  have h1 := reply_with_overrun demoEnv demoGdb (List.replicate 2047 65) []
    (fun c hc => by rw [List.eq_of_mem_replicate hc]; decide)
    (by rw [List.length_replicate])
  have h2 := handle_packet_m_overrun demoEnv 0 demoGdb (bytes "0") (bytes "400")
    (bytes "#5d") ⟨by decide, by decide, by decide⟩ ⟨by decide, by decide, by decide⟩
    (by decide) (by decide) (List.length_replicate _ _)
  exact ⟨List.length_replicate _ _, h1, h2⟩

/-! ### Interrupt requests -/

theorem toggle_clock_inputs (env : Env χ) (p : PrettySecureProcessor χ) :
    (toggle_clock env p).sys.keycode = p.sys.keycode ∧
    (toggle_clock env p).sys.external_interrupt = p.sys.external_interrupt ∧
    (toggle_clock env p).sys.clk = !p.sys.clk ∧
    (toggle_clock env p).should_do_interrupt = p.should_do_interrupt :=
  ⟨rfl, rfl, rfl, rfl⟩

theorem clear_interrupt_keycode (p : PrettySecureProcessor χ) :
    (clear_interrupt p).sys.keycode = p.sys.keycode := by
  unfold clear_interrupt
  split_ifs <;> rfl

theorem clear_interrupt_cleared (p : PrettySecureProcessor χ)
    (h : p.should_do_interrupt = true) :
    (clear_interrupt p).should_do_interrupt = false ∧
    (clear_interrupt p).sys.external_interrupt = false := by
  unfold clear_interrupt
  rw [if_pos h]
  exact ⟨rfl, rfl⟩

theorem clear_interrupt_idle (p : PrettySecureProcessor χ)
    (h : p.should_do_interrupt = false) : clear_interrupt p = p := by
  unfold clear_interrupt
  rw [if_neg (by rw [h]; decide)]

theorem feed_serial_inputs (p : PrettySecureProcessor χ) :
    (feed_serial p).sys.keycode = p.sys.keycode ∧
    (feed_serial p).sys.external_interrupt = p.sys.external_interrupt ∧
    (feed_serial p).should_do_interrupt = p.should_do_interrupt ∧
    (feed_serial p).keycode = p.keycode := by
  unfold feed_serial
  split_ifs <;> exact ⟨rfl, rfl, rfl, rfl⟩

/-- Every evaluation in the loop of `step` sees the key code that is on the port when
the loop is entered. -/
theorem step_loop_evals_keycode (env : Env χ) (fuel : Nat) :
    ∀ (p : PrettySecureProcessor χ), ∀ v ∈ step_loop_evals env fuel p,
      v.keycode = p.sys.keycode := by
  induction fuel with
  | zero => intro p v hv; simp [step_loop_evals] at hv
  | succ n ih =>
    intro p v hv
    unfold step_loop_evals at hv
    split_ifs at hv with h1 h2 h3
    · simp at hv
    · rw [List.mem_singleton.1 hv]
    · rw [List.mem_singleton.1 hv]
    · rcases List.mem_cons.1 hv with h | h
      · rw [h]
      · rw [ih _ v h, clear_interrupt_keycode]
        rfl

/-- With no request pending and the interrupt line low, no evaluation in the loop of
`step` sees the line high. -/
theorem step_loop_evals_idle (env : Env χ) (fuel : Nat) :
    ∀ (p : PrettySecureProcessor χ), p.should_do_interrupt = false →
      p.sys.external_interrupt = false →
      ∀ v ∈ step_loop_evals env fuel p, v.external_interrupt = false := by
  induction fuel with
  | zero => intro p _ _ v hv; simp [step_loop_evals] at hv
  | succ n ih =>
    intro p hs he v hv
    have hc : clear_interrupt (toggle_clock env p) = toggle_clock env p :=
      clear_interrupt_idle _ hs
    unfold step_loop_evals at hv
    rw [hc] at hv
    split_ifs at hv with h1 h2 h3
    · simp at hv
    · rw [List.mem_singleton.1 hv]; exact he
    · rw [List.mem_singleton.1 hv]; exact he
    · rcases List.mem_cons.1 hv with h | h
      · rw [h]; exact he
      · exact ih (toggle_clock env p) hs he v h

/-- With no request pending and the interrupt line low, the loop of `step` ends in a state
with no request pending and the line low. -/
theorem step_loop_idle (env : Env χ) (fuel : Nat) :
    ∀ (p : PrettySecureProcessor χ), p.should_do_interrupt = false →
      p.sys.external_interrupt = false →
      ∃ p', (step_loop env fuel p).state? = some p' ∧ p'.should_do_interrupt = false ∧
        p'.sys.external_interrupt = false := by
  induction fuel with
  | zero =>
    intro p hs he
    unfold step_loop
    split_ifs <;> exact ⟨p, rfl, hs, he⟩
  | succ n ih =>
    intro p hs he
    have hc : clear_interrupt (toggle_clock env p) = toggle_clock env p :=
      clear_interrupt_idle _ hs
    unfold step_loop
    rw [hc]
    split_ifs with h1 h2 h3
    · exact ⟨p, rfl, hs, he⟩
    · exact ⟨_, rfl, hs, he⟩
    · exact ⟨_, rfl, hs, he⟩
    · exact ih _ hs he

/-- A step from a state with no request pending and the interrupt line low never shows
the engine a high interrupt line. -/
theorem step_evals_idle (env : Env χ) (fuel : Nat) (p : PrettySecureProcessor χ)
    (hs : p.should_do_interrupt = false) (he : p.sys.external_interrupt = false) :
    ∀ v ∈ step_evals env fuel p, v.external_interrupt = false := by
  have hr : raise_interrupt p = p := by
    unfold raise_interrupt
    rw [if_neg (by rw [hs]; decide)]
  have hf := feed_serial_inputs p
  intro v hv
  unfold step_evals at hv
  rw [hr] at hv
  rcases List.mem_cons.1 hv with h | h
  · rw [h]
    exact hf.2.1.trans he
  · exact step_loop_evals_idle env fuel (clock_low env (feed_serial p))
      (hf.2.2.1.trans hs) (hf.2.1.trans he) v h

/-- C17: two calls of `schedule_interrupt`, with key codes `a` and then `b`, leave the
processor as the second call alone would. In the next `step`, whatever the engine state,
the first evaluation sees `external_interrupt` raised with key code `b`, every evaluation
of the step sees key code `b`, and the port holds `b` when the step ends: `a` is never
presented to the engine. -/
theorem schedule_interrupt_twice (env : Env χ) (fuel : Nat) (p : PrettySecureProcessor χ)
    (a b : Nat) :
    (p.schedule_interrupt a).schedule_interrupt b = p.schedule_interrupt b ∧
    (∃ v rest, step_evals env fuel ((p.schedule_interrupt a).schedule_interrupt b)
        = v :: rest ∧ v.external_interrupt = true ∧ v.keycode = b) ∧
    (∀ v ∈ step_evals env fuel ((p.schedule_interrupt a).schedule_interrupt b),
      v.keycode = b) ∧
    (∃ p', (step env fuel ((p.schedule_interrupt a).schedule_interrupt b)).state? = some p' ∧
      p'.sys.keycode = b) := by
  have e : (p.schedule_interrupt a).schedule_interrupt b = p.schedule_interrupt b := rfl
  have hr : raise_interrupt (p.schedule_interrupt b)
      = { p.schedule_interrupt b with
          sys := { p.sys with external_interrupt := true, keycode := b } } := rfl
  have hf := feed_serial_inputs (raise_interrupt (p.schedule_interrupt b))
  rw [e]
  refine ⟨rfl, ⟨_, _, rfl, ?_, ?_⟩, ?_, ?_⟩
  · exact hf.2.1
  · exact hf.1
  · intro v hv
    unfold step_evals at hv
    rcases List.mem_cons.1 hv with h | h
    · rw [h]
      exact hf.1
    · rw [step_loop_evals_keycode env fuel _ v h]
      exact hf.1
  · have hk : ∀ (n : Nat) (q : PrettySecureProcessor χ),
        ∃ p', (step_loop env n q).state? = some p' ∧ p'.sys.keycode = q.sys.keycode := by
      intro n
      induction n with
      | zero =>
        intro q
        unfold step_loop
        split_ifs <;> exact ⟨q, rfl, rfl⟩
      | succ n ih =>
        intro q
        have hq : (clear_interrupt (toggle_clock env q)).sys.keycode = q.sys.keycode :=
          clear_interrupt_keycode _
        unfold step_loop
        split_ifs
        · exact ⟨q, rfl, rfl⟩
        · exact ⟨_, rfl, hq⟩
        · exact ⟨_, rfl, hq⟩
        · obtain ⟨p', h1, h2⟩ := ih (clear_interrupt (toggle_clock env q))
          exact ⟨p', h1, h2.trans hq⟩
    obtain ⟨p', h1, h2⟩ := hk fuel (clock_low env (feed_serial
      (raise_interrupt (p.schedule_interrupt b))))
    exact ⟨p', h1, h2.trans hf.1⟩

/-- C17 on the demo processor: after key codes `0x41` and `0x42` are scheduled, the two
evaluations of the next step see the interrupt raised with key code `0x42`. -/
theorem schedule_interrupt_twice_witness :
    (step_evals demoEnv 4 ((demoPsp.schedule_interrupt 0x41).schedule_interrupt 0x42)).map
        (fun v => (v.external_interrupt, v.keycode)) = [(true, 0x42), (true, 0x42)] ∧
    ∀ v ∈ step_evals demoEnv 4 ((demoPsp.schedule_interrupt 0x41).schedule_interrupt 0x42),
      v.keycode = 0x42 :=
  ⟨by decide, (schedule_interrupt_twice demoEnv 4 demoPsp 0x41 0x42).2.2.1⟩

/-- C18, amended: in a `step` with a request pending in which the engine has not finished
once the evaluation with `clk = 0` is done, so that the loop of clock toggles is entered,
the first two evaluations (the one with `clk = 0` and the first clock toggle) see
`external_interrupt` raised and every later evaluation of the step sees it lowered; the
step ends with `should_do_interrupt` false and the line low, and no evaluation of a
following `step` sees the line raised. -/
theorem step_consumes_interrupt (env : Env χ) (fuel : Nat) (p : PrettySecureProcessor χ)
    (hpending : p.should_do_interrupt = true)
    (hrun : (clock_low env (feed_serial (raise_interrupt p))).sys.gotFinish = false) :
    (∃ v0 v1 rest, step_evals env (fuel + 1) p = v0 :: v1 :: rest ∧
      v0.clk = false ∧ v0.external_interrupt = true ∧
      v1.clk = true ∧ v1.external_interrupt = true ∧
      ∀ v ∈ rest, v.external_interrupt = false) ∧
    (∃ p', (step env (fuel + 1) p).state? = some p' ∧
      p'.should_do_interrupt = false ∧ p'.sys.external_interrupt = false ∧
      ∀ fuel2, ∀ v ∈ step_evals env fuel2 p', v.external_interrupt = false) := by
  have hr : raise_interrupt p
      = { p with sys := { p.sys with external_interrupt := true, keycode := p.keycode } } := by
    unfold raise_interrupt
    rw [if_pos hpending]
  have hf := feed_serial_inputs (raise_interrupt p)
  have he : (feed_serial (raise_interrupt p)).sys.external_interrupt = true := by
    rw [hf.2.1, hr]
  have hs : (feed_serial (raise_interrupt p)).should_do_interrupt = true := by
    rw [hf.2.2.1, hr]
    exact hpending
  generalize hq : clock_low env (feed_serial (raise_interrupt p)) = q at hrun
  have hqe : q.sys.external_interrupt = true := by rw [← hq]; exact he
  have hqs : q.should_do_interrupt = true := by rw [← hq]; exact hs
  have hqc : q.sys.clk = false := by rw [← hq]; rfl
  have hcl := clear_interrupt_cleared (toggle_clock env q) hqs
  generalize hq1 : clear_interrupt (toggle_clock env q) = q1 at hcl
  have hne : ¬ (q.sys.gotFinish = true) := by rw [hrun]; decide
  constructor
  · refine ⟨{ (feed_serial (raise_interrupt p)).sys with clk := false },
      { q.sys with clk := !q.sys.clk },
      (if q1.sys.clk && q1.sys.valid && q1.sys.shutdown then []
       else if q1.sys.clk && (q1.sys.valid || q1.sys.core0_sleeping) then []
       else step_loop_evals env fuel q1), ?_, rfl, he, ?_, hqe, ?_⟩
    · unfold step_evals
      rw [hq, step_loop_evals, if_neg hne, hq1]
    · simp [hqc]
    · intro v hv
      split_ifs at hv
      · simp at hv
      · simp at hv
      · exact step_loop_evals_idle env fuel q1 hcl.1 hcl.2 v hv
  · have key : ∃ p', (step env (fuel + 1) p).state? = some p' ∧
        p'.should_do_interrupt = false ∧ p'.sys.external_interrupt = false := by
      unfold step
      rw [hq, step_loop, if_neg hne, hq1]
      split_ifs
      · exact ⟨q1, rfl, hcl.1, hcl.2⟩
      · exact ⟨q1, rfl, hcl.1, hcl.2⟩
      · exact step_loop_idle env fuel q1 hcl.1 hcl.2
    obtain ⟨p', h1, h2, h3⟩ := key
    exact ⟨p', h1, h2, h3, fun fuel2 => step_evals_idle env fuel2 p' h2 h3⟩

/-- C18 on the demo processor with key code `0x41` scheduled: the evaluation with
`clk = 0` and the one clock toggle of the step see the interrupt raised, and the step
ends with the request cleared. -/
theorem step_consumes_interrupt_witness :
    (demoPsp.schedule_interrupt 0x41).should_do_interrupt = true ∧
    (clock_low demoEnv (feed_serial (raise_interrupt (demoPsp.schedule_interrupt 0x41)))
      ).sys.gotFinish = false ∧
    (step_evals demoEnv 4 (demoPsp.schedule_interrupt 0x41)).map
        (fun v => (v.clk, v.external_interrupt)) = [(false, true), (true, true)] ∧
    ∃ p', (step demoEnv 4 (demoPsp.schedule_interrupt 0x41)).state? = some p' ∧
      p'.should_do_interrupt = false ∧ p'.sys.external_interrupt = false ∧
      ∀ fuel2, ∀ v ∈ step_evals demoEnv fuel2 p', v.external_interrupt = false :=
  ⟨rfl, rfl, by decide,
   (step_consumes_interrupt demoEnv 3 (demoPsp.schedule_interrupt 0x41) rfl rfl).2⟩

/-- C18 as stated fails on an engine that is not finished when `step` is called but
finishes at the evaluation with `clk = 0`: the loop of clock toggles is not entered, so
the request is not cleared; the step ends with `should_do_interrupt` true and the line
high, and the following `step`, with no new `schedule_interrupt`, raises the line again and
evaluates the engine with it. -/
theorem step_keeps_interrupt :
    (demoPsp.schedule_interrupt 0x41).sys.gotFinish = false ∧
    (demoPsp.schedule_interrupt 0x41).should_do_interrupt = true ∧
    (step_evals fallEnv 4 (demoPsp.schedule_interrupt 0x41)).map
        (fun v => (v.clk, v.external_interrupt)) = [(false, true)] ∧
    ∃ p', step fallEnv 4 (demoPsp.schedule_interrupt 0x41) = .ret () p' ∧
      p'.should_do_interrupt = true ∧ p'.sys.external_interrupt = true ∧
      (raise_interrupt p').sys.external_interrupt = true ∧
      (step_evals fallEnv 4 p').map
        (fun v => (v.clk, v.external_interrupt)) = [(false, true)] :=
  ⟨rfl, rfl, by decide, _, rfl, rfl, rfl, rfl, by decide⟩

/-! ### `cont` and `step_iters` -/

/-- The counting loop of `step_iters` computes what the loop of `step_iters` computes. -/
theorem step_iters_loop_count_fst (env : Env χ) (fuel : Nat) :
    ∀ (k : Nat) (remaining : Int) (p : PrettySecureProcessor χ) (steps : Nat),
      (step_iters_loop_count env fuel k remaining p steps).andThen (fun r s => .ret r.1 s)
        = step_iters_loop env fuel k remaining p := by
  intro k
  induction k with
  | zero =>
    intro remaining p steps
    unfold step_iters_loop_count step_iters_loop
    split_ifs <;> rfl
  | succ k ih =>
    intro remaining p steps
    unfold step_iters_loop_count step_iters_loop
    by_cases h1 : p.sys.gotFinish = true
    · rw [if_pos h1, if_pos h1]
      rfl
    · rw [if_neg h1, if_neg h1]
      cases hs : step env fuel p with
      | ret u p1 =>
        simp only [Outcome.andThen]
        split_ifs
        · rfl
        · rfl
        · rfl
        · exact ih _ _ _
      | exited p1 => rfl
      | timeout p1 => rfl
      | undefined => rfl

/-- The counting loop of `cont` computes what the loop of `cont` computes. -/
theorem cont_loop_count_unit (env : Env χ) (fuel : Nat) :
    ∀ (k : Nat) (p : PrettySecureProcessor χ) (steps : Nat),
      (cont_loop_count env fuel k p steps).andThen (fun _ s => .ret () s)
        = cont_loop env fuel k p := by
  intro k
  induction k with
  | zero =>
    intro p steps
    unfold cont_loop_count cont_loop
    split_ifs <;> rfl
  | succ k ih =>
    intro p steps
    unfold cont_loop_count cont_loop
    by_cases h1 : p.sys.gotFinish = true
    · rw [if_pos h1, if_pos h1]
      rfl
    · rw [if_neg h1, if_neg h1]
      cases hs : step env fuel p with
      | ret u p1 =>
        simp only [Outcome.andThen]
        split_ifs
        · rfl
        · exact ih _ _
      | exited p1 => rfl
      | timeout p1 => rfl
      | undefined => rfl

theorem firstStopAfter_one (env : Env χ) (fuel : Nat) (p r : PrettySecureProcessor χ) :
    FirstStopAfter env fuel p 1 r ↔
      p.sys.gotFinish = false ∧ step env fuel p = .ret () r ∧
        (r.at_breakpoint = true ∨ r.sys.gotFinish = true) := by
  constructor
  · rintro ⟨_, q, h1, h2, h3, h4⟩
    simp only [stepN, Option.some.injEq] at h1
    subst h1
    exact ⟨h2, h3, h4⟩
  · rintro ⟨h2, h3, h4⟩
    exact ⟨fun i hi => absurd hi (Nat.not_lt_zero i), p, rfl, h2, h3, h4⟩

theorem firstStopAfter_succ_succ (env : Env χ) (fuel k : Nat)
    (p r : PrettySecureProcessor χ) :
    FirstStopAfter env fuel p (k + 2) r ↔
      p.sys.gotFinish = false ∧ ∃ p1, step env fuel p = .ret () p1 ∧
        p1.at_breakpoint = false ∧ FirstStopAfter env fuel p1 (k + 1) r := by
  constructor
  · rintro ⟨hq, q, h1, h2, h3, h4⟩
    obtain ⟨a1, p1, a2, a3, a4⟩ := (quiet_prefix_succ env fuel k p).1 hq
    rw [stepN_succ_of_step env fuel k p p1 a2] at h1
    exact ⟨a1, p1, a2, a3, a4, q, h1, h2, h3, h4⟩
  · rintro ⟨a1, p1, a2, a3, a4, q, h1, h2, h3, h4⟩
    refine ⟨(quiet_prefix_succ env fuel k p).2 ⟨a1, p1, a2, a3, a4⟩, q, ?_, h2, h3, h4⟩
    rw [stepN_succ_of_step env fuel k p p1 a2]
    exact h1

theorem cont_loop_count_finished (env : Env χ) (fuel m : Nat)
    (p : PrettySecureProcessor χ) (c : Nat) (h : p.sys.gotFinish = true) :
    cont_loop_count env fuel m p c = .ret c p := by
  cases m with
  | zero => rw [cont_loop_count, if_pos h]
  | succ m => rw [cont_loop_count, if_pos h]

theorem step_iters_loop_count_finished (env : Env χ) (fuel m : Nat) (remaining : Int)
    (p : PrettySecureProcessor χ) (c : Nat) (h : p.sys.gotFinish = true) :
    step_iters_loop_count env fuel m remaining p c = .ret (true, c) p := by
  cases m with
  | zero => rw [step_iters_loop_count, if_pos h]
  | succ m => rw [step_iters_loop_count, if_pos h]

/-- When the first stop condition occurs after `k + 1` steps, the loop of `cont` makes
`k + 1` calls of `step`. -/
theorem cont_loop_count_spec (env : Env χ) (fuel : Nat) (r : PrettySecureProcessor χ)
    (k : Nat) :
    ∀ (p : PrettySecureProcessor χ) (m c : Nat), FirstStopAfter env fuel p (k + 1) r →
      k + 1 ≤ m → cont_loop_count env fuel m p c = .ret (c + (k + 1)) r := by
  induction k with
  | zero =>
    intro p m c h hm
    obtain ⟨h1, h2, h3⟩ := (firstStopAfter_one env fuel p r).1 h
    obtain ⟨m, rfl⟩ : ∃ m1, m = m1 + 1 := ⟨m - 1, by omega⟩
    rw [cont_loop_count, if_neg (by rw [h1]; decide), h2]
    simp only [Outcome.andThen]
    by_cases hb : r.at_breakpoint = true
    · rw [if_pos hb]
    · rw [if_neg hb]
      rcases h3 with h3 | h3
      · exact absurd h3 hb
      · exact cont_loop_count_finished env fuel m r _ h3
  | succ k ih =>
    intro p m c h hm
    obtain ⟨h1, p1, h2, h3, h4⟩ := (firstStopAfter_succ_succ env fuel k p r).1 h
    obtain ⟨m, rfl⟩ : ∃ m1, m = m1 + 1 := ⟨m - 1, by omega⟩
    rw [cont_loop_count, if_neg (by rw [h1]; decide), h2]
    simp only [Outcome.andThen]
    rw [if_neg (by rw [h3]; decide), ih p1 m (c + 1) h4 (by omega)]
    congr 1
    omega

/-- When the first stop condition occurs after `k + 1` steps and the budget `n` is at
least `k + 1` and below `2 ^ 31`, the loop of `step_iters` makes `k + 1` calls of `step`. -/
theorem step_iters_loop_count_spec (env : Env χ) (fuel : Nat) (r : PrettySecureProcessor χ)
    (k : Nat) :
    ∀ (p : PrettySecureProcessor χ) (m c n : Nat), FirstStopAfter env fuel p (k + 1) r →
      k + 1 ≤ m → k + 1 ≤ n → n < 2 ^ 31 →
      ∃ b, step_iters_loop_count env fuel m (n : Int) p c = .ret (b, c + (k + 1)) r := by
  induction k with
  | zero =>
    intro p m c n h hm hn hn2
    obtain ⟨h1, h2, h3⟩ := (firstStopAfter_one env fuel p r).1 h
    obtain ⟨m, rfl⟩ : ∃ m1, m = m1 + 1 := ⟨m - 1, by omega⟩
    rw [step_iters_loop_count, if_neg (by rw [h1]; decide), h2]
    simp only [Outcome.andThen]
    by_cases hb : r.at_breakpoint = true
    · rw [if_pos hb]
      exact ⟨true, rfl⟩
    · rw [if_neg hb, if_neg (by omega)]
      rcases h3 with h3 | h3
      · exact absurd h3 hb
      · by_cases h0 : (n : Int) - 1 = 0
        · rw [if_pos h0]
          exact ⟨false, rfl⟩
        · rw [if_neg h0, step_iters_loop_count_finished env fuel m _ r _ h3]
          exact ⟨true, rfl⟩
  | succ k ih =>
    intro p m c n h hm hn hn2
    obtain ⟨h1, p1, h2, h3, h4⟩ := (firstStopAfter_succ_succ env fuel k p r).1 h
    obtain ⟨m, rfl⟩ : ∃ m1, m = m1 + 1 := ⟨m - 1, by omega⟩
    obtain ⟨n, rfl⟩ : ∃ n1, n = n1 + 1 := ⟨n - 1, by omega⟩
    have e : ((n + 1 : Nat) : Int) - 1 = (n : Int) := by omega
    rw [step_iters_loop_count, if_neg (by rw [h1]; decide), h2]
    simp only [Outcome.andThen]
    rw [if_neg (by rw [h3]; decide), if_neg (by omega), if_neg (by omega), e]
    obtain ⟨b, hb⟩ := ih p1 m (c + 1) n h4 (by omega) (by omega) (by omega)
    refine ⟨b, ?_⟩
    rw [hb]
    congr 2
    omega

/-- For budgets below `2 ^ 31`, `cont` is `step_iters` with an unbounded count: when the
first stop condition occurs after `k` steps and leaves the processor in state `r`, `cont`
and `step_iters(n)` with `max k 1 ≤ n < 2 ^ 31` both make `k` calls of `step` and both
return in state `r`. -/
theorem cont_step_iters_agree (env : Env χ) (fuel k n : Nat)
    (p r : PrettySecureProcessor χ) (h : FirstStopAfter env fuel p k r) (hk : k ≤ fuel)
    (hn : max k 1 ≤ n) (hn2 : n < 2 ^ 31) :
    cont_count env fuel p = .ret k r ∧
    (∃ b, step_iters_count env fuel n p = .ret (b, k) r) ∧
    cont env fuel p = .ret () r ∧
    (∃ b, step_iters env fuel n p = .ret b r) := by
  have key : cont_count env fuel p = .ret k r ∧
      ∃ b, step_iters_count env fuel n p = .ret (b, k) r := by
    unfold cont_count step_iters_count
    rw [toInt32_small n hn2]
    cases k with
    | zero =>
      obtain ⟨h1, h2⟩ := h
      subst h2
      rw [cont_loop_count_finished env fuel _ _ _ h1,
        step_iters_loop_count_finished env fuel _ _ _ _ h1]
      exact ⟨rfl, true, rfl⟩
    | succ k =>
      have hn1 : k + 1 ≤ n := le_trans (le_max_left _ _) hn
      have h1 := cont_loop_count_spec env fuel r k p fuel 0 h hk
      obtain ⟨b, h2⟩ := step_iters_loop_count_spec env fuel r k p fuel 0 n h hk hn1 hn2
      rw [Nat.zero_add] at h1 h2
      exact ⟨h1, b, h2⟩
  obtain ⟨k1, b, k2⟩ := key
  refine ⟨k1, ⟨b, k2⟩, ?_, b, ?_⟩
  · have := cont_loop_count_unit env fuel fuel p 0
    unfold cont
    unfold cont_count at k1
    rw [← this, k1]
    rfl
  · have := step_iters_loop_count_fst env fuel fuel (toInt32 n) p 0
    unfold step_iters
    unfold step_iters_count at k2
    rw [← this, k2]
    rfl

/-- C19 fails for the count `2 ^ 32 + 1` on the demo processor with a breakpoint two
instructions ahead: the first stop condition occurs after 2 steps, and `cont` makes 2
calls of `step` and stops on the breakpoint at `0x1000`; `step_iters(4294967297)` keeps
its count in an `int32_t`, where it is 1, makes 1 call of `step` and returns false at
`0x0ffc`. -/
theorem cont_step_iters_differ :
    max 2 1 ≤ 4294967297 ∧
    ∃ q1 q2, FirstStopAfter demoEnv 4 onePsp 2 q2 ∧
      cont_count demoEnv 4 onePsp = .ret 2 q2 ∧
      step_iters_count demoEnv 4 4294967297 onePsp = .ret (false, 1) q1 ∧
      cont demoEnv 4 onePsp = .ret () q2 ∧
      step_iters demoEnv 4 4294967297 onePsp = .ret false q1 ∧
      q2.get_reg PC_REG = 0x1000 ∧ q1.get_reg PC_REG = 0x0ffc :=
  ⟨by decide, _, _,
   ⟨fun i hi => by
      have e : i = 0 := Nat.lt_one_iff.1 hi
      subst e
      exact ⟨_, _, rfl, rfl, rfl, rfl⟩,
    _, rfl, rfl, rfl, Or.inl rfl⟩,
   rfl, rfl, rfl, rfl, rfl, rfl⟩

/-- The agreement of `cont` and `step_iters` on the demo processor with a breakpoint two
instructions ahead and the count 5: both make 2 calls of `step`. -/
theorem cont_step_iters_agree_example :
    ∃ q b, cont_count demoEnv 4 onePsp = .ret 2 q ∧
      step_iters_count demoEnv 4 5 onePsp = .ret (b, 2) q := by
  have h : ∃ q, FirstStopAfter demoEnv 4 onePsp 2 q :=
    ⟨_, fun i hi => by
        have e : i = 0 := Nat.lt_one_iff.1 hi
        subst e
        exact ⟨_, _, rfl, rfl, rfl, rfl⟩,
      _, rfl, rfl, rfl, Or.inl rfl⟩
  obtain ⟨q, hq⟩ := h
  obtain ⟨h1, ⟨b, h2⟩, _⟩ := cont_step_iters_agree demoEnv 4 2 5 onePsp q hq (by decide)
    (by decide) (by decide)
  exact ⟨q, b, h1, h2⟩

/-! ### Payload `s`, unknown payloads, the break byte, the packet buffer -/

theorem step_loop_breakpoints (env : Env χ) (fuel : Nat) :
    ∀ (p p1 : PrettySecureProcessor χ), (step_loop env fuel p).state? = some p1 →
      p1.breakpoints = p.breakpoints := by
  induction fuel with
  | zero =>
    intro p p1 h
    unfold step_loop at h
    split_ifs at h <;> simp only [Outcome.state?, Option.some.injEq] at h <;> rw [← h]
  | succ n ih =>
    intro p p1 h
    have hc : (clear_interrupt (toggle_clock env p)).breakpoints = p.breakpoints := by
      unfold clear_interrupt
      split_ifs <;> rfl
    unfold step_loop at h
    split_ifs at h
    · simp only [Outcome.state?, Option.some.injEq] at h
      rw [← h]
    · simp only [Outcome.state?, Option.some.injEq] at h
      rw [← h, hc]
    · simp only [Outcome.state?, Option.some.injEq] at h
      rw [← h, hc]
    · rw [ih _ p1 h, hc]

/-- A call of `step` does not touch the breakpoint table. -/
theorem step_breakpoints (env : Env χ) (fuel : Nat) (p p1 : PrettySecureProcessor χ)
    (h : (step env fuel p).state? = some p1) : p1.breakpoints = p.breakpoints := by
  have hf : (feed_serial (raise_interrupt p)).breakpoints = p.breakpoints := by
    unfold feed_serial raise_interrupt
    split_ifs <;> rfl
  unfold step at h
  rw [step_loop_breakpoints env fuel _ p1 h]
  exact hf

theorem handle_packet_s (env : Env χ) (fuel : Nat) (rest : List Nat) (st : GdbServer χ) :
    handle_packet env fuel (bytes "$s" ++ rest) st
      = (liftSys (send st [43, 0]) (st.sys.step env fuel)).andThen
          fun _ st1 => reply_with env (lit "S05") st1 := by
  have e : bytes "$s" ++ rest = 36 :: 115 :: rest := by simp [bytes]
  rw [e, handle_packet_frame]
  simp [handle_payload, bytes, List.isPrefixOf, send]

/-- When the step ends in `exit(0)`, nothing is sent after the acknowledgment. -/
theorem handle_packet_s_exited (env : Env χ) (fuel : Nat) (rest : List Nat)
    (st : GdbServer χ) (p1 : PrettySecureProcessor χ) (h : step env fuel st.sys = .exited p1) :
    handle_packet env fuel (bytes "$s" ++ rest) st
      = .exited { st with sys := p1, sent := st.sent ++ [[43, 0]] } := by
  rw [handle_packet_s, h]
  rfl

/-- C21, amended: for a frame with payload `s`, when the call of `step` returns (in state
`p1`), `handle_packet` returns with the processor in the state `p1` that exactly one call
of `step` leaves, the breakpoint table and the run flag as before, having sent the
acknowledgment and the one frame `$S05#b8`; nothing is asked about whether `p1` is on a
breakpoint. When the call of `step` ends the process through `exit(0)`, in state `p1`, the
acknowledgment is all that has been sent, and the breakpoint table and the run flag are as
before. -/
theorem handle_packet_single_step (env : Env χ) (fuel : Nat) (rest : List Nat)
    (st : GdbServer χ) :
    (∀ p1, step env fuel st.sys = .ret () p1 →
      handle_packet env fuel (bytes "$s" ++ rest) st
        = .ret () { st with sys := p1, sent := st.sent ++ [[43, 0], bytes "$S05#b8"] } ∧
      stepN env fuel 1 st.sys = some p1 ∧
      p1.breakpoints = st.sys.breakpoints) ∧
    (∀ p1, step env fuel st.sys = .exited p1 →
      handle_packet env fuel (bytes "$s" ++ rest) st
        = .exited { st with sys := p1, sent := st.sent ++ [[43, 0]] } ∧
      p1.breakpoints = st.sys.breakpoints) := by
  refine ⟨fun p1 hstep => ⟨?_, ?_, ?_⟩, fun p1 hstep => ⟨?_, ?_⟩⟩
  · rw [handle_packet_s, hstep]
    simp only [liftSys, Outcome.andThen, reply_with_S05, send]
    simp
  · simp only [stepN, hstep]
  · apply step_breakpoints env fuel st.sys p1
    rw [hstep]
    rfl
  · exact handle_packet_s_exited env fuel rest st p1 hstep
  · apply step_breakpoints env fuel st.sys p1
    rw [hstep]
    rfl

/-- C21, amended, on the demo processor with the breakpoint at `0x0ffc` set: the frame
`$s#73` steps onto the breakpoint and `$S05#b8` is sent. -/
theorem handle_packet_single_step_witness :
    ∃ p1, step demoEnv 4 afterInsertGdb.sys = .ret () p1 ∧ p1.at_breakpoint = true ∧
      sent_log (handle_packet demoEnv 4 (bytes "$s" ++ bytes "#73") afterInsertGdb)
        = some [[43, 0], bytes "$OK#9a", [43, 0], bytes "$S05#b8"] := by
  have hs : ∃ p1, step demoEnv 4 afterInsertGdb.sys = .ret () p1 ∧ p1.at_breakpoint = true :=
    ⟨_, rfl, rfl⟩
  obtain ⟨p1, h1, h2⟩ := hs
  refine ⟨p1, h1, h2, ?_⟩
  rw [((handle_packet_single_step demoEnv 4 (bytes "#73") afterInsertGdb).1 p1 h1).1]
  rfl

/-- C21 as stated fails on an engine that shuts down during the step: `step` leaves
through `exit(0)`, and for the frame `$s#73` the acknowledgment is all that is sent: there
is no `$S05#b8` frame. -/
theorem handle_packet_step_exits :
    ∃ st', handle_packet shutEnv 4 (bytes "$s#73") demoGdb = .exited st' ∧
      st'.sent = [[43, 0]] ∧ st'.sys.sys.shutdown = true := by
  have hs : ∃ p1, step shutEnv 4 demoGdb.sys = .exited p1 ∧ p1.sys.shutdown = true :=
    ⟨_, rfl, rfl⟩
  obtain ⟨p1, h1, h2⟩ := hs
  have h := handle_packet_s_exited shutEnv 4 (bytes "#73") demoGdb p1 h1
  have e : bytes "$s#73" = bytes "$s" ++ bytes "#73" := by decide
  rw [e, h]
  exact ⟨_, rfl, rfl, h2⟩

/-- C22: for every frame whose payload does not begin with `qSupported`, `Z0` or `z0` and
whose first character (NUL for an empty payload) is none of `?`, `g`, `s`, `c` and `m`,
`handle_packet` returns having sent the acknowledgment and the one frame `$#00`; the
breakpoint table, the run flag, the engine and every other field are unchanged. -/
theorem handle_packet_unknown (env : Env χ) (fuel : Nat) (P : List Nat) (st : GdbServer χ)
    (hq : ¬ bytes "qSupported" <+: P) (hZ : ¬ bytes "Z0" <+: P) (hz : ¬ bytes "z0" <+: P)
    (hc : ∀ c ∈ bytes "?gscm", P.headD 0 ≠ c) :
    handle_packet env fuel (bytes "$" ++ P) st
      = .ret () { st with sent := st.sent ++ [[43, 0], bytes "$#00"] } := by
  have hq2 : (bytes "qSupported").isPrefixOf P = false := by
    rw [← Bool.not_eq_true, List.isPrefixOf_iff_prefix]; exact hq
  have hZ2 : (bytes "Z0").isPrefixOf P = false := by
    rw [← Bool.not_eq_true, List.isPrefixOf_iff_prefix]; exact hZ
  have hz2 : (bytes "z0").isPrefixOf P = false := by
    rw [← Bool.not_eq_true, List.isPrefixOf_iff_prefix]; exact hz
  have h63 : P.headD 0 ≠ 63 := hc 63 (by decide)
  have h103 : P.headD 0 ≠ 103 := hc 103 (by decide)
  have h115 : P.headD 0 ≠ 115 := hc 115 (by decide)
  have h99 : P.headD 0 ≠ 99 := hc 99 (by decide)
  have h109 : P.headD 0 ≠ 109 := hc 109 (by decide)
  have e : bytes "$" ++ P = 36 :: P := by simp [bytes]
  rw [e, handle_packet_frame]
  generalize PKTBUF_SIZE - _ = n
  unfold handle_payload
  rw [isPrefixOf_append_zeros _ (by decide), isPrefixOf_append_zeros _ (by decide),
    isPrefixOf_append_zeros _ (by decide), headD_append_zeros, hq2, hZ2, hz2]
  simp only [Bool.false_eq_true, if_false]
  rw [if_neg h63, if_neg h103, if_neg h115, if_neg h99, if_neg h109]
  simp [reply_with_empty, send]

/-- C22 on the frames `$vMustReplyEmpty#3a` and `$#00` (the empty payload). -/
theorem handle_packet_unknown_witness :
    handle_packet demoEnv 0 (bytes "$" ++ bytes "vMustReplyEmpty#3a") runningGdb
      = .ret () { runningGdb with sent := runningGdb.sent ++ [[43, 0], bytes "$#00"] } ∧
    handle_packet demoEnv 0 (bytes "$" ++ bytes "#00") runningGdb
      = .ret () { runningGdb with sent := runningGdb.sent ++ [[43, 0], bytes "$#00"] } :=
  ⟨handle_packet_unknown demoEnv 0 (bytes "vMustReplyEmpty#3a") runningGdb
     (by decide) (by decide) (by decide) (by decide),
   handle_packet_unknown demoEnv 0 (bytes "#00") runningGdb
     (by decide) (by decide) (by decide) (by decide)⟩

/-- C27: for every input whose first byte is the break byte `0x03` and every state,
`handle_packet` returns with `running_continuously` false, having sent the acknowledgment
and then one frame, `$S05#b8` when the flag was true and `$OK#9a` when it was false; the
processor (engine state and breakpoint table) is as before, so no step was taken. An input
in which one or more `+` characters come before the `0x03` is dropped: only the
acknowledgment is sent and nothing changes. -/
theorem handle_packet_break (env : Env χ) (fuel k : Nat) (rest : List Nat)
    (st : GdbServer χ) :
    handle_packet env fuel (GDB_PACKET_BREAK :: rest) st
      = .ret () { st with
          running_continuously := false,
          sent := st.sent ++ [[43, 0],
            if st.running_continuously then bytes "$S05#b8" else bytes "$OK#9a"] } ∧
    handle_packet env fuel (List.replicate (k + 1) 43 ++ GDB_PACKET_BREAK :: rest) st
      = .ret () { st with sent := st.sent ++ [[43, 0]] } := by
  constructor
  · obtain ⟨sys, run, buf, sent⟩ := st
    unfold handle_packet
    rw [pktbuf_of_cons]
    simp only [List.headD_cons, if_true]
    cases run <;> simp [send, reply_with_S05, reply_with_OK]
  · have hd : ∀ j, (List.replicate j 43 ++ GDB_PACKET_BREAK :: rest).dropWhile
        (fun c => c == 43) = GDB_PACKET_BREAK :: rest := by
      intro j
      induction j with
      | zero => simp [List.dropWhile_cons, GDB_PACKET_BREAK]
      | succ j ih => simp [List.replicate_succ, List.dropWhile_cons, ih]
    apply handle_packet_dropped
    · simp [List.replicate_succ, GDB_PACKET_BREAK]
    · rw [hd]
      simp [GDB_PACKET_BREAK]

/-- A `read` that fills the whole packet buffer makes the store of the terminator fall
outside the buffer. -/
theorem gdb_server_iteration_full_read (env : Env χ) (fuel : Nat) (received : List Nat)
    (st : GdbServer χ) (hrun : st.running_continuously = false)
    (hlen : PKTBUF_SIZE ≤ received.length) :
    gdb_server_iteration env fuel (.data received) st = .undefined st := by
  have h : (received.take PKTBUF_SIZE).length = PKTBUF_SIZE := by
    rw [List.length_take]
    exact Nat.min_eq_left hlen
  unfold gdb_server_iteration
  simp only [hrun, Bool.false_eq_true, if_false, Outcome.andThen, h, if_true]

/-- C28 fails for the byte count 2048, which a `read` of up to `sizeof(pktbuf)` bytes can
return: the index of the terminator is then not below the size of the buffer, and the
iteration of the server loop that receives 2048 bytes stores outside `pktbuf`. -/
theorem pktbuf_terminator_outside :
    (List.replicate 2048 43).length ≤ PKTBUF_SIZE ∧
    ¬ ((List.replicate 2048 43).length < PKTBUF_SIZE) ∧
    gdb_server_iteration demoEnv 0 (.data (List.replicate 2048 43)) demoGdb
      = .undefined demoGdb := by
  have hl : (List.replicate 2048 43).length = 2048 := List.length_replicate _ _
  have hp : PKTBUF_SIZE = 2048 := rfl
  have h := gdb_server_iteration_full_read demoEnv 0 (List.replicate 2048 43) demoGdb rfl
    (by rw [hl, hp])
  rw [hl, hp]
  exact ⟨le_refl _, lt_irrefl _, h⟩

/-! ### Bytes of a memory word -/

theorem read_mem_byte_eq (p : PrettySecureProcessor χ) (addr : Nat) :
    p.read_mem_byte addr = p.sys.ram (addr / 4) / 2 ^ (8 * (addr % 4)) % 256 := by
  have h3 : addr &&& 3 = addr % 4 := Nat.and_pow_two_sub_one_eq_mod addr 2
  have h255 : ∀ x : Nat, x &&& 255 = x % 256 := fun x => Nat.and_pow_two_sub_one_eq_mod x 8
  unfold read_mem_byte
  rw [h255, h3, Nat.shiftRight_eq_div_pow, Nat.shiftRight_eq_div_pow]

/-- C30: for every word-aligned address `A`, the bytes that `read_mem_byte` returns for
`A`, `A + 1`, `A + 2`, `A + 3` are each below 256 and, with weights `1`, `2 ^ 8`,
`2 ^ 16`, `2 ^ 24`, add up to the 32-bit RAM word at index `A / 4`; and for every address
the result depends only on the RAM word at index `addr >> 2` and on `addr mod 4`. -/
theorem read_mem_byte_little_endian (p : PrettySecureProcessor χ) (A : Nat)
    (hA : A % 4 = 0) :
    p.read_mem_byte A < 256 ∧ p.read_mem_byte (A + 1) < 256 ∧
    p.read_mem_byte (A + 2) < 256 ∧ p.read_mem_byte (A + 3) < 256 ∧
    p.read_mem_byte A + 2 ^ 8 * p.read_mem_byte (A + 1) + 2 ^ 16 * p.read_mem_byte (A + 2)
        + 2 ^ 24 * p.read_mem_byte (A + 3)
      = p.sys.ram (A / 4) % 2 ^ 32 ∧
    (∀ (q : PrettySecureProcessor χ) (addr1 addr2 : Nat),
      p.sys.ram (addr1 >>> 2) = q.sys.ram (addr2 >>> 2) → addr1 % 4 = addr2 % 4 →
      p.read_mem_byte addr1 = q.read_mem_byte addr2) := by
  have d0 : A / 4 = A / 4 := rfl
  have d1 : (A + 1) / 4 = A / 4 := by omega
  have d2 : (A + 2) / 4 = A / 4 := by omega
  have d3 : (A + 3) / 4 = A / 4 := by omega
  have m1 : (A + 1) % 4 = 1 := by omega
  have m2 : (A + 2) % 4 = 2 := by omega
  have m3 : (A + 3) % 4 = 3 := by omega
  rw [read_mem_byte_eq p A, read_mem_byte_eq p (A + 1), read_mem_byte_eq p (A + 2),
    read_mem_byte_eq p (A + 3), d1, d2, d3, m1, m2, m3, hA]
  generalize p.sys.ram (A / 4) = w
  refine ⟨Nat.mod_lt _ (by decide), Nat.mod_lt _ (by decide), Nat.mod_lt _ (by decide),
    Nat.mod_lt _ (by decide), ?_, ?_⟩
  · norm_num
    omega
  · intro q addr1 addr2 hw hm
    rw [read_mem_byte_eq, read_mem_byte_eq, hm]
    rw [Nat.shiftRight_eq_div_pow, Nat.shiftRight_eq_div_pow] at hw
    have e : (2 : Nat) ^ 2 = 4 := rfl
    rw [e] at hw
    rw [hw]

/-- C30 on the demo processor at the address `0x1000`, whose RAM word is `0x11223744`. -/
theorem read_mem_byte_little_endian_witness :
    0x1000 % 4 = 0 ∧
    demoPsp.read_mem_byte 0x1000 = 0x44 ∧ demoPsp.read_mem_byte 0x1001 = 0x37 ∧
    demoPsp.read_mem_byte 0x1002 = 0x22 ∧ demoPsp.read_mem_byte 0x1003 = 0x11 ∧
    demoPsp.read_mem_byte 0x1000 + 2 ^ 8 * demoPsp.read_mem_byte (0x1000 + 1)
        + 2 ^ 16 * demoPsp.read_mem_byte (0x1000 + 2)
        + 2 ^ 24 * demoPsp.read_mem_byte (0x1000 + 3)
      = demoPsp.sys.ram (0x1000 / 4) % 2 ^ 32 :=
  ⟨by decide, by decide, by decide, by decide, by decide,
   (read_mem_byte_little_endian demoPsp 0x1000 (by decide)).2.2.2.2.1⟩

/-! ### Duplicate breakpoints and reachable tables -/

theorem BreakpointTable.ext_get (t1 t2 : BreakpointTable)
    (h : ∀ i, i < NUM_BREAKPOINTS → t1.get i = t2.get i) : t1 = t2 := by
  obtain ⟨s1, h1⟩ := t1
  obtain ⟨s2, h2⟩ := t2
  have hs : s1 = s2 := by
    apply List.ext_getElem (by rw [h1, h2])
    intro i hi1 hi2
    have := h i (by rw [← h1]; exact hi1)
    simpa [BreakpointTable.get, List.getD_eq_getElem?_getD, hi1, hi2] using this
  subst hs
  rfl

/-- The removal on a table: the lowest-index enabled slot that holds `a` is disabled and
zeroed, or no enabled slot holds `a` and the table is unchanged. -/
theorem set_breakpoint_table_remove (t : BreakpointTable) (a : Nat) :
    (∃ j, j < NUM_BREAKPOINTS ∧
        (∀ m, m < j → ¬ ((t.get m).enabled = true ∧ (t.get m).addr = a)) ∧
        (t.get j).enabled = true ∧ (t.get j).addr = a ∧
        set_breakpoint_table t a 0 = (true, t.set j ⟨0, false⟩)) ∨
    ((∀ m, m < NUM_BREAKPOINTS → ¬ ((t.get m).enabled = true ∧ (t.get m).addr = a)) ∧
        set_breakpoint_table t a 0 = (true, t)) := by
  have hspec := set_breakpoint_remove_spec a t NUM_BREAKPOINTS 0 (by omega)
  simp only [set_breakpoint_table, if_neg (show ¬ ((0 : Nat) ≠ 0) by decide)]
  rcases hspec with ⟨j, _, h2, h3, h4, h5, h6⟩ | ⟨h1, h2⟩
  · exact Or.inl ⟨j, by omega, fun m hm => h3 m (Nat.zero_le _) hm, h4, h5, h6⟩
  · exact Or.inr ⟨fun m hm => h1 m (Nat.zero_le _) (by omega), h2⟩

/-- The insertion on a table: the lowest-index disabled slot is enabled with address `a`,
or every slot is enabled and the table is unchanged. -/
theorem set_breakpoint_table_add (t : BreakpointTable) (a e : Nat) (he : e ≠ 0) :
    (∃ j, j < NUM_BREAKPOINTS ∧ (∀ m, m < j → (t.get m).enabled = true) ∧
        (t.get j).enabled = false ∧
        set_breakpoint_table t a e = (true, t.set j ⟨a, true⟩)) ∨
    ((∀ m, m < NUM_BREAKPOINTS → (t.get m).enabled = true) ∧
        set_breakpoint_table t a e = (false, t)) := by
  have hspec := set_breakpoint_add_spec a t NUM_BREAKPOINTS 0 (by omega)
  simp only [set_breakpoint_table, if_pos he]
  rcases hspec with ⟨j, _, h2, h3, h4, h5⟩ | ⟨h1, h2⟩
  · exact Or.inl ⟨j, by omega, fun m hm => h3 m (Nat.zero_le _) hm, h4, h5⟩
  · exact Or.inr ⟨fun m hm => h1 m (Nat.zero_le _) (by omega), h2⟩

theorem set_breakpoint_table_remove_none (t : BreakpointTable) (a : Nat)
    (h : ∀ m, m < NUM_BREAKPOINTS → ¬ ((t.get m).enabled = true ∧ (t.get m).addr = a)) :
    set_breakpoint_table t a 0 = (true, t) := by
  rcases set_breakpoint_table_remove t a with ⟨j, hj, _, h4, h5, _⟩ | ⟨_, h2⟩
  · exact absurd ⟨h4, h5⟩ (h j hj)
  · exact h2

/-- C23, amended: for every table `t` and address `a`, `set_breakpoint(a, false)` returns
true the first and the second time; and the table after two calls is the table after one
call if and only if at most one enabled slot of `t` holds `a`. -/
theorem set_breakpoint_remove_twice (t : BreakpointTable) (a : Nat) :
    (set_breakpoint_table t a 0).1 = true ∧
    (set_breakpoint_table (set_breakpoint_table t a 0).2 a 0).1 = true ∧
    ((set_breakpoint_table (set_breakpoint_table t a 0).2 a 0).2
        = (set_breakpoint_table t a 0).2 ↔
      ∀ i j, i < NUM_BREAKPOINTS → j < NUM_BREAKPOINTS →
        (t.get i).enabled = true ∧ (t.get i).addr = a →
        (t.get j).enabled = true ∧ (t.get j).addr = a → i = j) := by
  have r1 : ∀ u : BreakpointTable, (set_breakpoint_table u a 0).1 = true := by
    intro u
    rcases set_breakpoint_table_remove u a with ⟨j, _, _, _, _, h⟩ | ⟨_, h⟩ <;> rw [h]
  refine ⟨r1 t, r1 _, ?_⟩
  rcases set_breakpoint_table_remove t a with ⟨j, hj, h3, h4, h5, h6⟩ | ⟨h1, h2⟩
  · rw [h6]
    show (set_breakpoint_table (t.set j ⟨0, false⟩) a 0).2 = t.set j ⟨0, false⟩ ↔ _
    have hget : ∀ m, (t.set j ⟨0, false⟩).get m = if m = j then ⟨0, false⟩ else t.get m :=
      fun m => BreakpointTable.get_set t j m _ hj
    constructor
    · intro heq i k hi hk hti htk
      by_contra hne
      -- one of `i`, `k` is not `j` and still holds `a` after the first call
      obtain ⟨m, hm, hmj, hme, hma⟩ : ∃ m, m < NUM_BREAKPOINTS ∧ m ≠ j ∧
          (t.get m).enabled = true ∧ (t.get m).addr = a := by
        by_cases hij : i = j
        · exact ⟨k, hk, fun e => hne (hij.trans e.symm), htk.1, htk.2⟩
        · exact ⟨i, hi, hij, hti.1, hti.2⟩
      rcases set_breakpoint_table_remove (t.set j ⟨0, false⟩) a with
        ⟨j2, hj2, _, g4, _, g6⟩ | ⟨g1, _⟩
      · rw [g6] at heq
        have : ((t.set j ⟨0, false⟩).set j2 ⟨0, false⟩).get j2
            = (t.set j ⟨0, false⟩).get j2 := by
          rw [show ((t.set j ⟨0, false⟩).set j2 ⟨0, false⟩) = t.set j ⟨0, false⟩ from heq]
        rw [BreakpointTable.get_set _ _ _ _ hj2, if_pos rfl] at this
        rw [← this] at g4
        exact Bool.noConfusion g4
      · apply g1 m hm
        rw [hget m, if_neg hmj]
        exact ⟨hme, hma⟩
    · intro huniq
      have hnone : ∀ m, m < NUM_BREAKPOINTS →
          ¬ (((t.set j ⟨0, false⟩).get m).enabled = true ∧
            ((t.set j ⟨0, false⟩).get m).addr = a) := by
        intro m hm hh
        rw [hget m] at hh
        by_cases hmj : m = j
        · rw [if_pos hmj] at hh
          exact Bool.noConfusion hh.1
        · rw [if_neg hmj] at hh
          exact hmj (huniq m j hm hj hh ⟨h4, h5⟩)
      rw [set_breakpoint_table_remove_none _ a hnone]
  · rw [h2]
    show (set_breakpoint_table t a 0).2 = t ↔ _
    rw [h2]
    constructor
    · intro _ i k hi _ hti _
      exact absurd hti (h1 i hi)
    · intro _
      rfl

/-- C23, amended, on the demo processor with one breakpoint at `0x1000`: the second removal
changes nothing. -/
theorem set_breakpoint_remove_twice_witness :
    (set_breakpoint_table (set_breakpoint_table onePsp.breakpoints 0x1000 0).2 0x1000 0).2
      = (set_breakpoint_table onePsp.breakpoints 0x1000 0).2 :=
  (set_breakpoint_remove_twice onePsp.breakpoints 0x1000).2.2.2
    (by
      intro i j hi hj h1 h2
      have key : ∀ m, m < NUM_BREAKPOINTS → (onePsp.breakpoints.get m).enabled = true →
          m = 0 := by decide
      rw [key i hi h1.1, key j hj h2.1])

/-- C23 as stated fails on the table with two breakpoints at `0x1000` (two inserts of the
same address): one removal leaves one of them enabled, a second removal disables it too,
so the table after two removals is not the table after one. -/
theorem set_breakpoint_remove_not_idempotent :
    (set_breakpoint_table (set_breakpoint_table twicePsp.breakpoints 0x1000 0).2 0x1000 0).2
      ≠ (set_breakpoint_table twicePsp.breakpoints 0x1000 0).2 ∧
    ((set_breakpoint_table twicePsp.breakpoints 0x1000 0).2.get 1) = ⟨0x1000, true⟩ ∧
    ((set_breakpoint_table (set_breakpoint_table twicePsp.breakpoints 0x1000 0).2
        0x1000 0).2.get 1) = ⟨0, false⟩ := by
  decide

theorem Breakpoint.eq_mk (b : Breakpoint) (a : Nat) (e : Bool) (h1 : b.enabled = e)
    (h2 : b.addr = a) : b = ⟨a, e⟩ := by
  cases b
  simp only [Breakpoint.mk.injEq]
  exact ⟨h2, h1⟩

/-- Two inserts of `a` into a table with two disabled slots fill two different slots with
`a`; the removal of `a` then clears one slot that held `a`, and another slot still holds
it. -/
theorem set_breakpoint_table_add_add_remove (t : BreakpointTable) (a : Nat)
    (h2 : ∃ i j, i < j ∧ j < NUM_BREAKPOINTS ∧ (t.get i).enabled = false ∧
      (t.get j).enabled = false) :
    ∃ j1 j2 j3 s, j1 < j2 ∧ j2 < NUM_BREAKPOINTS ∧ j3 < NUM_BREAKPOINTS ∧
      s < NUM_BREAKPOINTS ∧ s ≠ j3 ∧
      (t.get j1).enabled = false ∧ (t.get j2).enabled = false ∧
      set_breakpoint_table t a 1 = (true, t.set j1 ⟨a, true⟩) ∧
      set_breakpoint_table (t.set j1 ⟨a, true⟩) a 1
        = (true, (t.set j1 ⟨a, true⟩).set j2 ⟨a, true⟩) ∧
      ((t.set j1 ⟨a, true⟩).set j2 ⟨a, true⟩).get j1 = ⟨a, true⟩ ∧
      ((t.set j1 ⟨a, true⟩).set j2 ⟨a, true⟩).get j2 = ⟨a, true⟩ ∧
      ((t.set j1 ⟨a, true⟩).set j2 ⟨a, true⟩).get j3 = ⟨a, true⟩ ∧
      set_breakpoint_table ((t.set j1 ⟨a, true⟩).set j2 ⟨a, true⟩) a 0
        = (true, ((t.set j1 ⟨a, true⟩).set j2 ⟨a, true⟩).set j3 ⟨0, false⟩) ∧
      (((t.set j1 ⟨a, true⟩).set j2 ⟨a, true⟩).set j3 ⟨0, false⟩).get s = ⟨a, true⟩ := by
  obtain ⟨i0, j0, hij, hj0, hdi, hdj⟩ := h2
  rcases set_breakpoint_table_add t a 1 (by decide) with ⟨j1, hj1, f3, f4, f5⟩ | ⟨f1, _⟩
  swap
  · have := f1 j0 hj0
    rw [hdj] at this
    exact Bool.noConfusion this
  have g1 : ∀ m, (t.set j1 ⟨a, true⟩).get m = if m = j1 then ⟨a, true⟩ else t.get m :=
    fun m => BreakpointTable.get_set t j1 m _ hj1
  rcases set_breakpoint_table_add (t.set j1 ⟨a, true⟩) a 1 (by decide) with
    ⟨j2, hj2, e3, e4, e5⟩ | ⟨e1, _⟩
  swap
  · -- one of the two disabled slots of `t` is not `j1` and is still disabled
    by_cases hc : i0 = j1
    · have := e1 j0 hj0
      rw [g1 j0, if_neg (by omega), hdj] at this
      exact Bool.noConfusion this
    · have := e1 i0 (by omega)
      rw [g1 i0, if_neg hc, hdi] at this
      exact Bool.noConfusion this
  have hne : j2 ≠ j1 := by
    intro e
    rw [e, g1 j1, if_pos rfl] at e4
    exact Bool.noConfusion e4
  have hd2 : (t.get j2).enabled = false := by
    rw [g1 j2, if_neg hne] at e4
    exact e4
  have hlt : j1 < j2 := by
    rcases Nat.lt_or_ge j1 j2 with h | h
    · exact h
    · have hlt2 : j2 < j1 := by omega
      have := f3 j2 hlt2
      rw [hd2] at this
      exact Bool.noConfusion this
  have g2 : ∀ m, ((t.set j1 ⟨a, true⟩).set j2 ⟨a, true⟩).get m
      = if m = j2 then ⟨a, true⟩ else (t.set j1 ⟨a, true⟩).get m :=
    fun m => BreakpointTable.get_set _ j2 m _ hj2
  have v1 : ((t.set j1 ⟨a, true⟩).set j2 ⟨a, true⟩).get j1 = ⟨a, true⟩ := by
    rw [g2 j1, if_neg (fun e => hne e.symm), g1 j1, if_pos rfl]
  have v2 : ((t.set j1 ⟨a, true⟩).set j2 ⟨a, true⟩).get j2 = ⟨a, true⟩ := by
    rw [g2 j2, if_pos rfl]
  rcases set_breakpoint_table_remove ((t.set j1 ⟨a, true⟩).set j2 ⟨a, true⟩) a with
    ⟨j3, hj3, _, r4, r5, r6⟩ | ⟨r1, _⟩
  swap
  · exact absurd (by rw [v1]; exact ⟨rfl, rfl⟩) (r1 j1 hj1)
  have v3 := Breakpoint.eq_mk _ a true r4 r5
  have g3 : ∀ m, (((t.set j1 ⟨a, true⟩).set j2 ⟨a, true⟩).set j3 ⟨0, false⟩).get m
      = if m = j3 then ⟨0, false⟩ else ((t.set j1 ⟨a, true⟩).set j2 ⟨a, true⟩).get m :=
    fun m => BreakpointTable.get_set _ j3 m _ hj3
  by_cases hc : j3 = j1
  · refine ⟨j1, j2, j3, j2, hlt, hj2, hj3, hj2, by omega, f4, hd2, f5, e5, v1, v2, v3, r6, ?_⟩
    rw [g3 j2, if_neg (by omega), v2]
  · refine ⟨j1, j2, j3, j1, hlt, hj2, hj3, hj1, fun e => hc e.symm, f4, hd2, f5, e5, v1, v2,
      v3, r6, ?_⟩
    rw [g3 j1, if_neg (fun e => hc e.symm), v1]

/-- C25: for every address `a` and every table with at least two disabled slots, two
consecutive calls `set_breakpoint(a, true)` both return true and fill two different slots,
disabled before, with `a`; a call `set_breakpoint(a, false)` after them returns true and
clears exactly one slot that held `a`, another enabled slot still holds `a`, and on every
processor with that table a step that returns with the program counter at `a` makes
`step_iters` return true. -/
theorem set_breakpoint_not_deduplicated (t : BreakpointTable) (a : Nat)
    (h2 : ∃ i j, i < j ∧ j < NUM_BREAKPOINTS ∧ (t.get i).enabled = false ∧
      (t.get j).enabled = false) :
    (set_breakpoint_table t a 1).1 = true ∧
    (set_breakpoint_table (set_breakpoint_table t a 1).2 a 1).1 = true ∧
    (∃ i j, i < j ∧ j < NUM_BREAKPOINTS ∧ (t.get i).enabled = false ∧
      (t.get j).enabled = false ∧
      (set_breakpoint_table (set_breakpoint_table t a 1).2 a 1).2.get i = ⟨a, true⟩ ∧
      (set_breakpoint_table (set_breakpoint_table t a 1).2 a 1).2.get j = ⟨a, true⟩) ∧
    (set_breakpoint_table (set_breakpoint_table (set_breakpoint_table t a 1).2 a 1).2 a 0).1
      = true ∧
    (∃ j, j < NUM_BREAKPOINTS ∧
      (set_breakpoint_table (set_breakpoint_table t a 1).2 a 1).2.get j = ⟨a, true⟩ ∧
      (set_breakpoint_table (set_breakpoint_table (set_breakpoint_table t a 1).2 a 1).2 a 0).2
        = (set_breakpoint_table (set_breakpoint_table t a 1).2 a 1).2.set j ⟨0, false⟩) ∧
    (∃ s, s < NUM_BREAKPOINTS ∧
      (set_breakpoint_table (set_breakpoint_table (set_breakpoint_table t a 1).2 a 1).2
        a 0).2.get s = ⟨a, true⟩) ∧
    (∀ (env : Env χ) (fuel n : Nat) (q q1 : PrettySecureProcessor χ),
      q.breakpoints
        = (set_breakpoint_table (set_breakpoint_table (set_breakpoint_table t a 1).2 a 1).2
            a 0).2 →
      q.sys.gotFinish = false → step env (fuel + 1) q = .ret () q1 →
      q1.get_reg PC_REG = a → step_iters env (fuel + 1) n q = .ret true q1) := by
  obtain ⟨j1, j2, j3, s, hlt, hj2, hj3, hs, hs3, d1, d2, c1, c2, v1, v2, v3, c3, v4⟩ :=
    set_breakpoint_table_add_add_remove t a h2
  rw [c1]
  simp only []
  rw [c2]
  simp only []
  rw [c3]
  refine ⟨by trivial, by trivial,
    ⟨j1, j2, hlt, hj2, d1, d2, v1, v2⟩, by trivial, ⟨j3, hj3, v3, rfl⟩,
    ⟨s, hs, v4⟩, ?_⟩
  intro env fuel n q q1 hq hfin hstep hpc
  have hb : q1.breakpoints = q.breakpoints :=
    step_breakpoints env (fuel + 1) q q1 (by rw [hstep]; rfl)
  have hhit : q1.at_breakpoint = true := by
    unfold at_breakpoint
    rw [breakpoint_hit_iff, hb, hq, hpc]
    exact ⟨s, Nat.zero_le _, by omega, by rw [v4], by rw [v4]⟩
  exact step_iters_loop_hit env (fuel + 1) fuel _ q q1 hfin hstep hhit

/-- C25 on the demo processor with the address `0x0ffc`, one instruction ahead: after two
inserts and one removal `step_iters` still stops there. -/
theorem set_breakpoint_not_deduplicated_witness :
    (∃ i j, i < j ∧ j < NUM_BREAKPOINTS ∧ (demoPsp.breakpoints.get i).enabled = false ∧
      (demoPsp.breakpoints.get j).enabled = false) ∧
    ∃ q1, step_iters demoEnv 4 1000
        { demoPsp with breakpoints :=
            (set_breakpoint_table (set_breakpoint_table
              (set_breakpoint_table demoPsp.breakpoints 0x0ffc 1).2 0x0ffc 1).2 0x0ffc 0).2 }
        = .ret true q1 ∧ q1.get_reg PC_REG = 0x0ffc := by
  have h2 : ∃ i j, i < j ∧ j < NUM_BREAKPOINTS ∧ (demoPsp.breakpoints.get i).enabled = false ∧
      (demoPsp.breakpoints.get j).enabled = false := ⟨0, 1, by decide, by decide, rfl, rfl⟩
  have hs : ∃ q1, step demoEnv (3 + 1)
      { demoPsp with breakpoints :=
          (set_breakpoint_table (set_breakpoint_table
            (set_breakpoint_table demoPsp.breakpoints 0x0ffc 1).2 0x0ffc 1).2 0x0ffc 0).2 }
      = .ret () q1 ∧ q1.get_reg PC_REG = 0x0ffc := ⟨_, rfl, rfl⟩
  obtain ⟨q1, hq1, hpc⟩ := hs
  exact ⟨h2, q1,
    (set_breakpoint_not_deduplicated demoPsp.breakpoints 0x0ffc h2).2.2.2.2.2.2
      demoEnv 3 1000 _ q1 rfl rfl hq1 hpc, hpc⟩

/-- In a reachable table every disabled slot has address 0. -/
theorem reachable_disabled_addr (t : BreakpointTable) (hr : Reachable t) :
    ∀ i, i < NUM_BREAKPOINTS → (t.get i).enabled = false → (t.get i).addr = 0 := by
  induction hr with
  | constructed =>
    intro i hi _
    simp [BreakpointTable.get, BreakpointTable.empty, List.getD_eq_getElem?_getD, hi]
  | call t a e _ ih =>
    intro i hi hdis
    by_cases he : e = 0
    · subst he
      rcases set_breakpoint_table_remove t a with ⟨j, hj, _, _, _, h6⟩ | ⟨_, h2⟩
      · rw [h6] at hdis ⊢
        simp only [] at hdis ⊢
        rw [BreakpointTable.get_set _ _ _ _ hj] at hdis ⊢
        by_cases hij : i = j
        · rw [if_pos hij]
        · rw [if_neg hij] at hdis ⊢
          exact ih i hi hdis
      · rw [h2] at hdis ⊢
        exact ih i hi hdis
    · rcases set_breakpoint_table_add t a e he with ⟨j, hj, _, _, h5⟩ | ⟨_, h2⟩
      · rw [h5] at hdis ⊢
        simp only [] at hdis ⊢
        rw [BreakpointTable.get_set _ _ _ _ hj] at hdis ⊢
        by_cases hij : i = j
        · rw [if_pos hij] at hdis
          exact Bool.noConfusion hdis
        · rw [if_neg hij] at hdis ⊢
          exact ih i hi hdis
      · rw [h2] at hdis ⊢
        exact ih i hi hdis

/-- C26: in every table reachable from the constructor's table by calls of
`set_breakpoint`, every disabled slot has address 0; and when such a table is not full and
no enabled slot holds `a`, `set_breakpoint(a, true)` returns true and
`set_breakpoint(a, false)` after it returns true and leaves exactly the original table. -/
theorem set_breakpoint_add_remove_restores (t : BreakpointTable) (hr : Reachable t) :
    (∀ i, i < NUM_BREAKPOINTS → (t.get i).enabled = false → (t.get i).addr = 0) ∧
    ∀ a, (∃ i, i < NUM_BREAKPOINTS ∧ (t.get i).enabled = false) →
      (∀ m, m < NUM_BREAKPOINTS → ¬ ((t.get m).enabled = true ∧ (t.get m).addr = a)) →
      (set_breakpoint_table t a 1).1 = true ∧
      set_breakpoint_table (set_breakpoint_table t a 1).2 a 0 = (true, t) := by
  have hinv := reachable_disabled_addr t hr
  refine ⟨hinv, ?_⟩
  rintro a ⟨i, hi, hdis⟩ hno
  rcases set_breakpoint_table_add t a 1 (by decide) with ⟨j, hj, _, f4, f5⟩ | ⟨f1, _⟩
  swap
  · have := f1 i hi
    rw [hdis] at this
    exact Bool.noConfusion this
  rw [f5]
  refine ⟨rfl, ?_⟩
  show set_breakpoint_table (t.set j ⟨a, true⟩) a 0 = (true, t)
  have g1 : ∀ m, (t.set j ⟨a, true⟩).get m = if m = j then ⟨a, true⟩ else t.get m :=
    fun m => BreakpointTable.get_set t j m _ hj
  have hold : t.get j = ⟨0, false⟩ := Breakpoint.eq_mk _ 0 false f4 (hinv j hj f4)
  rcases set_breakpoint_table_remove (t.set j ⟨a, true⟩) a with
    ⟨j3, hj3, _, r4, r5, r6⟩ | ⟨r1, _⟩
  · have hj3j : j3 = j := by
      by_contra hne
      rw [g1 j3, if_neg hne] at r4 r5
      exact hno j3 hj3 ⟨r4, r5⟩
    subst hj3j
    rw [r6]
    congr 1
    apply BreakpointTable.ext_get
    intro m hm
    rw [BreakpointTable.get_set _ _ _ _ hj3, g1 m]
    by_cases hmj : m = j3
    · rw [if_pos hmj, hmj, hold]
    · rw [if_neg hmj, if_neg hmj]
  · exact absurd (by rw [g1 j, if_pos rfl]; exact ⟨rfl, rfl⟩) (r1 j hj)

/-- C26 on the table of the demo processor with one breakpoint at `0x1000`: inserting and
removing `0x2000` gives the table back. -/
theorem set_breakpoint_add_remove_restores_witness :
    Reachable onePsp.breakpoints ∧
    set_breakpoint_table (set_breakpoint_table onePsp.breakpoints 0x2000 1).2 0x2000 0
      = (true, onePsp.breakpoints) := by
  have hr : Reachable onePsp.breakpoints :=
    Reachable.call BreakpointTable.empty 0x1000 1 Reachable.constructed
  exact ⟨hr, ((set_breakpoint_add_remove_restores onePsp.breakpoints hr).2 0x2000
    ⟨1, by decide, by decide⟩ (by decide)).2⟩

/-! ### The checksum field is not read -/

theorem strtoul_digits_hash (B Y : List Nat) (acc : Nat) :
    strtoul_digits (B ++ 35 :: Y) acc = strtoul_digits B acc := by
  induction B generalizing acc with
  | nil =>
    have h : hexval 35 = none := by decide
    simp [strtoul_digits, h]
  | cons c cs ih =>
    simp only [List.cons_append, strtoul_digits]
    cases hexval c with
    | none => rfl
    | some d => exact ih _

theorem skip_0x_hash (B : List Nat) :
    ∃ B1, ∀ Y, skip_0x (B ++ 35 :: Y) = B1 ++ 35 :: Y := by
  match B with
  | [] => exact ⟨[], fun Y => by simp [skip_0x]⟩
  | [a] =>
    refine ⟨[a], fun Y => ?_⟩
    by_cases h : a = 48
    · subst h
      simp [skip_0x]
    · simp [skip_0x, h]
  | a :: b :: t =>
    by_cases h : a = 48
    · subst h
      by_cases hb : (b == 120 || b == 88) = true
      · exact ⟨t, fun Y => by simp [skip_0x, hb]⟩
      · exact ⟨48 :: b :: t, fun Y => by simp [skip_0x, hb]⟩
    · exact ⟨a :: b :: t, fun Y => by simp [skip_0x, h]⟩

theorem dropWhile_isspace_hash (B Y : List Nat) :
    (B ++ 35 :: Y).dropWhile isspace = B.dropWhile isspace ++ 35 :: Y := by
  induction B with
  | nil =>
    have h : isspace 35 = false := by decide
    simp [List.dropWhile_cons, h]
  | cons c cs ih =>
    by_cases hc : isspace c = true
    · simp [List.dropWhile_cons, hc, ih]
    · simp [List.dropWhile_cons, hc]

/-- The value `strtoul` finds does not depend on what follows a `#`. -/
theorem strtoul16_hash (B Y1 Y2 : List Nat) :
    strtoul16 (B ++ 35 :: Y1) = strtoul16 (B ++ 35 :: Y2) := by
  unfold strtoul16
  simp only [dropWhile_isspace_hash]
  generalize B.dropWhile isspace = B1
  cases B1 with
  | nil =>
    obtain ⟨B2, hB2⟩ := skip_0x_hash []
    simp only [List.nil_append] at hB2
    have e : ∀ Y : List Nat,
        (if (some 35 == some 45 || some 35 == some 43) = true then (35 :: Y).tail
          else 35 :: Y) = 35 :: Y := fun Y => rfl
    simp only [List.nil_append, List.head?_cons, e]
    rw [hB2 Y1, hB2 Y2, strtoul_digits_hash, strtoul_digits_hash]
  | cons x t =>
    simp only [List.cons_append, List.head?_cons, List.tail_cons]
    by_cases hs : (some x == some 45 || some x == some 43) = true
    · obtain ⟨B2, hB2⟩ := skip_0x_hash t
      rw [if_pos hs, if_pos hs, hB2 Y1, hB2 Y2, strtoul_digits_hash, strtoul_digits_hash]
    · obtain ⟨B2, hB2⟩ := skip_0x_hash (x :: t)
      simp only [List.cons_append] at hB2
      rw [if_neg hs, if_neg hs, hB2 Y1, hB2 Y2, strtoul_digits_hash, strtoul_digits_hash]

theorem cstring_hash (B : List Nat) :
    (∃ D, ∀ Y, cstring (B ++ 35 :: Y) = D) ∨
    (∀ Y, cstring (B ++ 35 :: Y) = B ++ 35 :: cstring Y) := by
  induction B with
  | nil =>
    right
    intro Y
    simp [cstring, List.takeWhile_cons]
  | cons x B ih =>
    by_cases hx : x = 0
    · left
      subst hx
      exact ⟨[], fun Y => by simp [cstring, List.takeWhile_cons]⟩
    · have hcons : ∀ Z, cstring (x :: Z) = x :: cstring Z := by
        intro Z
        simp [cstring, List.takeWhile_cons, hx]
      rcases ih with ⟨D, hD⟩ | h
      · left
        exact ⟨x :: D, fun Y => by rw [List.cons_append, hcons, hD]⟩
      · right
        intro Y
        rw [List.cons_append, hcons, h, List.cons_append]

theorem strtoul16_cstring_hash (B Y1 Y2 : List Nat) :
    strtoul16 (cstring (B ++ 35 :: Y1)) = strtoul16 (cstring (B ++ 35 :: Y2)) := by
  rcases cstring_hash B with ⟨D, hD⟩ | h
  · rw [hD, hD]
  · rw [h, h]
    exact strtoul16_hash B _ _

theorem scan_field_cons (x : Nat) (X : List Nat) (h0 : x ≠ 0) (h44 : x ≠ 44) :
    scan_field (x :: X) = (x :: (scan_field X).1, (scan_field X).2) := by
  simp [scan_field, List.takeWhile_cons, List.dropWhile_cons, h0, h44]

/-- The scan for the comma in two arrays that differ only behind a `#`, in fields without
a comma: either both scans end on a NUL, or both end on the same comma after the same field,
with the rest again two arrays that differ only behind the `#`. -/
theorem scan_field_hash (B c1 c2 : List Nat) (h1 : ∀ x ∈ c1, x ≠ 44)
    (h2 : ∀ x ∈ c2, x ≠ 44) :
    ((scan_field (B ++ 35 :: c1)).2.headD 0 = 0 ∧ (scan_field (B ++ 35 :: c2)).2.headD 0 = 0) ∨
    (∃ F B1, scan_field (B ++ 35 :: c1) = (F, 44 :: (B1 ++ 35 :: c1)) ∧
      scan_field (B ++ 35 :: c2) = (F, 44 :: (B1 ++ 35 :: c2))) := by
  have hno : ∀ c : List Nat, (∀ x ∈ c, x ≠ 44) → (scan_field (35 :: c)).2.headD 0 = 0 := by
    intro c hc
    apply scan_field_no_comma
    intro x hx
    have hx2 : x ∈ 35 :: c := List.takeWhile_subset _ hx
    rcases List.mem_cons.1 hx2 with h | h
    · rw [h]; decide
    · exact hc x h
  induction B with
  | nil => exact Or.inl ⟨hno c1 h1, hno c2 h2⟩
  | cons x B ih =>
    by_cases h0 : x = 0
    · left
      subst h0
      simp [scan_field, List.dropWhile_cons]
    · by_cases h44 : x = 44
      · right
        subst h44
        exact ⟨[], B, by simp [scan_field, List.takeWhile_cons, List.dropWhile_cons],
          by simp [scan_field, List.takeWhile_cons, List.dropWhile_cons]⟩
      · rw [List.cons_append, List.cons_append, scan_field_cons x _ h0 h44,
          scan_field_cons x _ h0 h44]
        rcases ih with h | ⟨F, B1, e1, e2⟩
        · exact Or.inl h
        · right
          exact ⟨x :: F, B1, by rw [e1], by rw [e2]⟩

/-- What the scans of `handle_packet` see of two payloads that differ only behind a `#`, in
fields without a comma. -/
theorem scan_drop_hash (P c1 c2 : List Nat) (k : Nat) (h1 : ∀ x ∈ c1, x ≠ 44)
    (h2 : ∀ x ∈ c2, x ≠ 44) :
    (scan_field ((P ++ 35 :: c1).drop k)).2.headD 0
      = (scan_field ((P ++ 35 :: c2).drop k)).2.headD 0 ∧
    ((scan_field ((P ++ 35 :: c2).drop k)).2.headD 0 ≠ 0 →
      strtoul16 (scan_field ((P ++ 35 :: c1).drop k)).1
        = strtoul16 (scan_field ((P ++ 35 :: c2).drop k)).1 ∧
      strtoul16 (cstring ((scan_field ((P ++ 35 :: c1).drop k)).2.drop 1))
        = strtoul16 (cstring ((scan_field ((P ++ 35 :: c2).drop k)).2.drop 1))) := by
  by_cases hk : k ≤ P.length
  · rw [List.drop_append_of_le_length hk, List.drop_append_of_le_length hk]
    rcases scan_field_hash (P.drop k) c1 c2 h1 h2 with ⟨a1, a2⟩ | ⟨F, B1, e1, e2⟩
    · rw [a1, a2]
      exact ⟨rfl, fun h => absurd rfl h⟩
    · rw [e1, e2]
      refine ⟨rfl, fun _ => ⟨rfl, ?_⟩⟩
      exact strtoul16_cstring_hash B1 c1 c2
  · have hz : ∀ c : List Nat, (∀ x ∈ c, x ≠ 44) →
        (scan_field ((P ++ 35 :: c).drop k)).2.headD 0 = 0 := by
      intro c hc
      apply scan_field_no_comma
      intro x hx
      have hx2 : x ∈ (P ++ 35 :: c).drop k := List.takeWhile_subset _ hx
      have e : (P ++ 35 :: c).drop k = c.drop (k - P.length - 1) := by
        have hsplit : k = P.length + ((k - P.length - 1) + 1) := by omega
        rw [hsplit, ← List.drop_drop, List.drop_left]
        simp
      rw [e] at hx2
      exact hc x (List.mem_of_mem_drop hx2)
    rw [hz c1 h1, hz c2 h2]
    exact ⟨rfl, fun h => absurd rfl h⟩

theorem isPrefixOf_hash (pat : List Nat) (hpat : ∀ x ∈ pat, x ≠ 35) :
    ∀ (P Y : List Nat), pat.isPrefixOf (P ++ 35 :: Y) = pat.isPrefixOf P := by
  induction pat with
  | nil => intro P Y; simp [List.isPrefixOf]
  | cons a as ih =>
    intro P Y
    cases P with
    | nil =>
      have : a ≠ 35 := hpat a (List.mem_cons_self _ _)
      simp [List.isPrefixOf, this]
    | cons b bs =>
      show ((a == b) && as.isPrefixOf (bs ++ 35 :: Y)) = ((a == b) && as.isPrefixOf bs)
      rw [ih (fun x hx => hpat x (List.mem_cons_of_mem _ hx))]

theorem handle_payload_congr (env : Env χ) (fuel : Nat) (pkt1 pkt2 : List Nat)
    (st : GdbServer χ)
    (hq : (bytes "qSupported").isPrefixOf pkt1 = (bytes "qSupported").isPrefixOf pkt2)
    (hZ : (bytes "Z0").isPrefixOf pkt1 = (bytes "Z0").isPrefixOf pkt2)
    (hz : (bytes "z0").isPrefixOf pkt1 = (bytes "z0").isPrefixOf pkt2)
    (hh : pkt1.headD 0 = pkt2.headD 0) (hlen : pkt1.length ≤ 3 ↔ pkt2.length ≤ 3)
    (h3 : (scan_field (pkt1.drop 3)).2.headD 0 = (scan_field (pkt2.drop 3)).2.headD 0)
    (h3f : (scan_field (pkt2.drop 3)).2.headD 0 ≠ 0 →
      strtoul16 (scan_field (pkt1.drop 3)).1 = strtoul16 (scan_field (pkt2.drop 3)).1)
    (h1 : (scan_field (pkt1.drop 1)).2.headD 0 = (scan_field (pkt2.drop 1)).2.headD 0)
    (h1f : (scan_field (pkt2.drop 1)).2.headD 0 ≠ 0 →
      strtoul16 (scan_field (pkt1.drop 1)).1 = strtoul16 (scan_field (pkt2.drop 1)).1 ∧
      strtoul16 (cstring ((scan_field (pkt1.drop 1)).2.drop 1))
        = strtoul16 (cstring ((scan_field (pkt2.drop 1)).2.drop 1))) :
    handle_payload env fuel pkt1 st = handle_payload env fuel pkt2 st := by
  unfold handle_payload
  rw [hq, hZ, hz, hh]
  simp only [h3, h1, hlen]
  by_cases c3 : (scan_field (pkt2.drop 3)).2.headD 0 = 0
  · by_cases c1 : (scan_field (pkt2.drop 1)).2.headD 0 = 0
    · simp only [c3, c1, if_true]
    · simp only [c3, c1, if_true, if_false, (h1f c1).1, (h1f c1).2]
  · by_cases c1 : (scan_field (pkt2.drop 1)).2.headD 0 = 0
    · simp only [c3, c1, if_true, if_false, h3f c3]
    · simp only [c3, c1, if_false, h3f c3, (h1f c1).1, (h1f c1).2]

/-- Two payloads that differ only behind a `#`, in fields without a comma, are handled
alike. -/
theorem handle_payload_hash (env : Env χ) (fuel : Nat) (P c1 c2 : List Nat)
    (st : GdbServer χ) (h1 : ∀ x ∈ c1, x ≠ 44) (h2 : ∀ x ∈ c2, x ≠ 44)
    (hl : c1.length = c2.length) :
    handle_payload env fuel (P ++ 35 :: c1) st = handle_payload env fuel (P ++ 35 :: c2) st := by
  have s3 := scan_drop_hash P c1 c2 3 h1 h2
  have s1 := scan_drop_hash P c1 c2 1 h1 h2
  apply handle_payload_congr
  · rw [isPrefixOf_hash _ (by decide), isPrefixOf_hash _ (by decide)]
  · rw [isPrefixOf_hash _ (by decide), isPrefixOf_hash _ (by decide)]
  · rw [isPrefixOf_hash _ (by decide), isPrefixOf_hash _ (by decide)]
  · cases P <;> rfl
  · simp [hl]
  · exact s3.1
  · exact fun h => (s3.2 h).1
  · exact s1.1
  · exact s1.2

/-- C29: `handle_packet` never reads the checksum of a frame: for every payload `P` (with
or without a `#` in it), every two checksum fields `c1` and `c2` of two hexadecimal digits
and every state, handling `$P#c1` and handling `$P#c2` end in the same outcome: the same
bytes sent, the same breakpoint table, run flag and engine state. -/
theorem handle_packet_checksum_ignored (env : Env χ) (fuel : Nat) (P c1 c2 : List Nat)
    (st : GdbServer χ)
    (h1 : c1.length = 2 ∧ ∀ x ∈ c1, (hexval x).isSome = true)
    (h2 : c2.length = 2 ∧ ∀ x ∈ c2, (hexval x).isSome = true) :
    handle_packet env fuel (bytes "$" ++ P ++ bytes "#" ++ c1) st
      = handle_packet env fuel (bytes "$" ++ P ++ bytes "#" ++ c2) st := by
  have g : ∀ c : List Nat, (∀ x ∈ c, (hexval x).isSome = true) → ∀ x ∈ c, x ≠ 44 := by
    intro c hc x hx
    have := hexval_isSome_range x (hc x hx)
    omega
  have e : ∀ c : List Nat, bytes "$" ++ P ++ bytes "#" ++ c = 36 :: (P ++ 35 :: c) := by
    intro c
    simp [bytes]
  have z : ∀ (c : List Nat) (n : Nat), (∀ x ∈ c, x ≠ 44) →
      ∀ x ∈ c ++ List.replicate n 0, x ≠ 44 := by
    intro c n hc x hx
    rcases List.mem_append.1 hx with hx | hx
    · exact hc x hx
    · rw [(List.mem_replicate.1 hx).2]
      decide
  have a : ∀ (c : List Nat) (n : Nat),
      (P ++ 35 :: c) ++ List.replicate n 0 = P ++ 35 :: (c ++ List.replicate n 0) := by
    intro c n
    simp
  have hn : (P ++ 35 :: c1).length = (P ++ 35 :: c2).length := by
    simp [h1.1, h2.1]
  rw [e c1, e c2, handle_packet_frame, handle_packet_frame, hn]
  generalize PKTBUF_SIZE - _ = n
  rw [a c1 n, a c2 n]
  exact handle_payload_hash env fuel P _ _ (send st [43, 0]) (z c1 n (g c1 h1.2))
    (z c2 n (g c2 h2.2)) (by simp [h1.1, h2.1])

/-- C29 on the read of 4 bytes at `0x1001`, with its checksum `67` and with `00`: the same
reply frame is sent. -/
theorem handle_packet_checksum_ignored_witness :
    (bytes "67").length = 2 ∧ (∀ x ∈ bytes "67", (hexval x).isSome = true) ∧
    (bytes "00").length = 2 ∧ (∀ x ∈ bytes "00", (hexval x).isSome = true) ∧
    handle_packet demoEnv 0 (bytes "$" ++ bytes "m1001,4" ++ bytes "#" ++ bytes "67") demoGdb
      = handle_packet demoEnv 0 (bytes "$" ++ bytes "m1001,4" ++ bytes "#" ++ bytes "00")
          demoGdb :=
  ⟨by decide, by decide, by decide, by decide,
   handle_packet_checksum_ignored demoEnv 0 (bytes "m1001,4") (bytes "67") (bytes "00")
     demoGdb ⟨by decide, by decide⟩ ⟨by decide, by decide⟩⟩
theorem drop_append_zeros (j : Nat) :
    ∀ (X : List Nat) (n : Nat),
      ∃ m, (X ++ List.replicate n 0).drop j = X.drop j ++ List.replicate m 0 := by
  induction j with
  | zero => exact fun X n => ⟨n, rfl⟩
  | succ j ih =>
    intro X n
    cases X with
    | nil =>
      cases n with
      | zero => exact ⟨0, by simp⟩
      | succ n =>
        obtain ⟨m, hm⟩ := ih [] n
        exact ⟨m, by simpa [List.replicate_succ] using hm⟩
    | cons x xs =>
      obtain ⟨m, hm⟩ := ih xs n
      exact ⟨m, by simpa using hm⟩

theorem scan_field_append_zeros (Y : List Nat) (n : Nat) :
    (scan_field (Y ++ List.replicate n 0)).1 = (scan_field Y).1 ∧
    ∃ m, (scan_field (Y ++ List.replicate n 0)).2 = (scan_field Y).2 ++ List.replicate m 0 := by
  induction Y with
  | nil =>
    cases n with
    | zero => exact ⟨rfl, 0, rfl⟩
    | succ n =>
      refine ⟨?_, n + 1, ?_⟩
      · simp [scan_field, List.replicate_succ, List.takeWhile_cons]
      · simp [scan_field, List.replicate_succ, List.dropWhile_cons]
  | cons c cs ih =>
    obtain ⟨h1, m, h2⟩ := ih
    simp only [scan_field] at h1 h2 ⊢
    by_cases hc : (c != 0 && c != 44) = true
    · refine ⟨?_, m, ?_⟩
      · simp only [List.cons_append, List.takeWhile_cons, hc, if_true, h1]
      · simp only [List.cons_append, List.dropWhile_cons, hc, if_true, h2]
    · refine ⟨?_, n, ?_⟩
      · simp only [List.cons_append, List.takeWhile_cons, hc]
        rfl
      · simp only [List.cons_append, List.dropWhile_cons, hc]
        rfl

/-- The NUL bytes behind the bytes received do not matter to `handle_payload`, as long as
`pkt[3]` is inside the array. -/
theorem handle_payload_zeros (env : Env χ) (fuel : Nat) (X : List Nat) (n m : Nat)
    (st : GdbServer χ) (hn : 3 < X.length + n) (hm : 3 < X.length + m) :
    handle_payload env fuel (X ++ List.replicate n 0) st
      = handle_payload env fuel (X ++ List.replicate m 0) st := by
  have sc : ∀ (j k : Nat),
      (scan_field ((X ++ List.replicate k 0).drop j)).1 = (scan_field (X.drop j)).1 ∧
      (scan_field ((X ++ List.replicate k 0).drop j)).2.headD 0
        = (scan_field (X.drop j)).2.headD 0 ∧
      cstring ((scan_field ((X ++ List.replicate k 0).drop j)).2.drop 1)
        = cstring ((scan_field (X.drop j)).2.drop 1) := by
    intro j k
    obtain ⟨a, ha⟩ := drop_append_zeros j X k
    obtain ⟨h1, b, h2⟩ := scan_field_append_zeros (X.drop j) a
    obtain ⟨c, hc⟩ := drop_append_zeros 1 (scan_field (X.drop j)).2 b
    rw [ha, h1, h2, hc, headD_append_zeros, cstring_append_zeros]
    exact ⟨rfl, rfl, rfl⟩
  apply handle_payload_congr
  · rw [isPrefixOf_append_zeros _ (by decide), isPrefixOf_append_zeros _ (by decide)]
  · rw [isPrefixOf_append_zeros _ (by decide), isPrefixOf_append_zeros _ (by decide)]
  · rw [isPrefixOf_append_zeros _ (by decide), isPrefixOf_append_zeros _ (by decide)]
  · rw [headD_append_zeros, headD_append_zeros]
  · simp only [List.length_append, List.length_replicate]
    constructor <;> intro _ <;> omega
  · rw [(sc 3 n).2.1, (sc 3 m).2.1]
  · intro _
    rw [(sc 3 n).1, (sc 3 m).1]
  · rw [(sc 1 n).2.1, (sc 1 m).2.1]
  · intro _
    rw [(sc 1 n).1, (sc 1 m).1, (sc 1 n).2.2, (sc 1 m).2.2]
    exact ⟨rfl, rfl⟩

/-- With `k` characters `+` in front of a frame, `handle_packet` sends the acknowledgment
and goes on with the array behind the `$`. -/
theorem handle_packet_acks_frame (env : Env χ) (fuel k : Nat) (rest : List Nat)
    (st : GdbServer χ) :
    handle_packet env fuel (List.replicate k 43 ++ 36 :: rest) st
      = handle_payload env fuel
          (rest ++ List.replicate (PKTBUF_SIZE - (k + (rest.length + 1))) 0)
          (send st [43, 0]) := by
  unfold handle_packet
  dsimp only
  rw [pktbuf_of_append_cons, List.length_replicate, if_neg (headD_acks k _), dropWhile_acks]
  simp

/-- As long as at most 2043 characters `+` stand in front, so that `pkt[3]` is inside
`pktbuf` whatever the payload, the characters `+` in front of a frame change nothing. -/
theorem handle_packet_leading_acks_in_bounds (env : Env χ) (fuel k : Nat) (rest : List Nat)
    (st : GdbServer χ) (hk : k + 4 < PKTBUF_SIZE) :
    handle_packet env fuel (List.replicate k 43 ++ 36 :: rest) st
      = handle_packet env fuel (36 :: rest) st := by
  have h : PKTBUF_SIZE = 2048 := rfl
  rw [handle_packet_acks_frame, handle_packet_frame]
  apply handle_payload_zeros <;> omega

theorem handle_packet_pktbuf (env : Env χ) (fuel : Nat) (pkt : List Nat) (st : GdbServer χ) :
    handle_packet env fuel (pkt ++ List.replicate (PKTBUF_SIZE - pkt.length) 0) st
      = handle_packet env fuel pkt st := by
  have h : pktbuf_of (pkt ++ List.replicate (PKTBUF_SIZE - pkt.length) 0) = pktbuf_of pkt := by
    have e : PKTBUF_SIZE - (pkt.length + (PKTBUF_SIZE - pkt.length)) = 0 := by omega
    simp [pktbuf_of, e]
  unfold handle_packet
  rw [h]

/-- The input of 2047 bytes on which C8 fails, received in one `read` by a server that is
not in continuous mode: the store of the terminator is inside `pktbuf`, and the iteration
runs into the read of `pktbuf[2048]` after the acknowledgment. -/
theorem gdb_server_iteration_acks_Z0_overread (env : Env χ) (fuel : Nat) (st : GdbServer χ)
    (hrun : st.running_continuously = false) :
    gdb_server_iteration env fuel (.data (List.replicate 2044 43 ++ bytes "$Z0")) st
      = .undefined (send st [43, 0]) := by
  have hl : (List.replicate 2044 43 ++ bytes "$Z0").length = 2047 := by
    rw [List.length_append, List.length_replicate]
    rfl
  have ht : (List.replicate 2044 43 ++ bytes "$Z0").take PKTBUF_SIZE
      = List.replicate 2044 43 ++ bytes "$Z0" := by
    apply List.take_of_length_le
    rw [hl]
    decide
  have h3 := handle_packet_acks_Z0_overread env fuel 2044 st (by decide)
  generalize List.replicate 2044 43 ++ bytes "$Z0" = L at hl ht h3
  unfold gdb_server_iteration
  simp only [hrun, Bool.false_eq_true, if_false, Outcome.andThen, ht]
  rw [if_neg (by rw [hl]; decide), handle_packet_pktbuf, h3]

/-- C8 holds for every input that leaves room for its terminator in `pktbuf` (fewer than
2048 bytes) as long as `pkt[3]` stays inside `pktbuf` (at most 2043 characters `+` in
front), and fails for 2044 characters `+` followed by `$Z0`, an input of 2047 bytes: on
`$Z0` alone `handle_packet` reads the NUL behind the three bytes and returns after the
acknowledgment; with the 2044 characters in front, `pkt[3]` is `pktbuf[2048]`, outside the
array, also when the 2047 bytes arrive through one `read` of the server loop. -/
theorem leading_acks_overread (env : Env χ) (fuel : Nat) (st : GdbServer χ) :
    (∀ (k : Nat) (r : List Nat), k + 4 < PKTBUF_SIZE →
      (List.replicate k 43 ++ (bytes "$" ++ r)).length < PKTBUF_SIZE →
      handle_packet env fuel (List.replicate k 43 ++ (bytes "$" ++ r)) st
        = handle_packet env fuel (bytes "$" ++ r) st) ∧
    (List.replicate 2044 43 ++ bytes "$Z0").length = 2047 ∧
    handle_packet env fuel (bytes "$Z0") st = .ret () (send st [43, 0]) ∧
    handle_packet env fuel (List.replicate 2044 43 ++ bytes "$Z0") st
      = .undefined (send st [43, 0]) ∧
    (st.running_continuously = false →
      gdb_server_iteration env fuel (.data (List.replicate 2044 43 ++ bytes "$Z0")) st
        = .undefined (send st [43, 0])) := by
  have h1 : (List.replicate 2044 43 ++ bytes "$Z0").length = 2047 := by
    rw [List.length_append, List.length_replicate]
    rfl
  have h2 := handle_packet_Z0_alone env fuel st
  have h3 := handle_packet_acks_Z0_overread env fuel 2044 st (by decide)
  refine ⟨fun k r hk _ => ?_, h1, h2, h3, gdb_server_iteration_acks_Z0_overread env fuel st⟩
  have e : bytes "$" ++ r = 36 :: r := by simp [bytes]
  rw [e]
  exact handle_packet_leading_acks_in_bounds env fuel k r st hk

/-- C8 in bounds, on the demo processor: two characters `+` in front of `$?#3f` change
nothing, and 2044 of them in front of `$Z0` lead outside `pktbuf`, in a call of
`handle_packet` and in an iteration of the server loop. -/
theorem leading_acks_overread_witness :
    2 + 4 < PKTBUF_SIZE ∧
    (List.replicate 2 43 ++ (bytes "$" ++ bytes "?#3f")).length < PKTBUF_SIZE ∧
    handle_packet demoEnv 0 (List.replicate 2 43 ++ (bytes "$" ++ bytes "?#3f")) demoGdb
      = handle_packet demoEnv 0 (bytes "$" ++ bytes "?#3f") demoGdb ∧
    handle_packet demoEnv 0 (List.replicate 2044 43 ++ bytes "$Z0") demoGdb
      = .undefined (send demoGdb [43, 0]) ∧
    demoGdb.running_continuously = false ∧
    gdb_server_iteration demoEnv 0 (.data (List.replicate 2044 43 ++ bytes "$Z0")) demoGdb
      = .undefined (send demoGdb [43, 0]) :=
  ⟨by decide, by decide,
    (leading_acks_overread demoEnv 0 demoGdb).1 2 (bytes "?#3f") (by decide) (by decide),
    (leading_acks_overread demoEnv 0 demoGdb).2.2.2.1, rfl,
    (leading_acks_overread demoEnv 0 demoGdb).2.2.2.2 rfl⟩

end PspSim
